import Mathlib

/-!
# Verification of the cosmos-indexer block-persistence pipeline (`src/db/db.go`)

Shallow embedding of the `db` package.  The relational store is a pure value
(`DB`): each table is a list of rows in storage (insertion) order, with a
single surrogate-key sequence `nextID` (Postgres uses one sequence per table;
only freshness/stability of keys matters to the spec, so one global sequence
is used).  Surrogate keys start at 1, as Postgres sequences do.

gorm/SQL primitives are modelled as follows.

* `Create` with `clause.OnConflict{Columns, DoUpdates}` over a slice becomes a
  left-to-right fold of single-row upserts (`batchUpsert`): a row whose
  conflict-target columns match an existing row updates exactly the
  `DoUpdates` columns of that row, otherwise the row is appended with a fresh
  surrogate key.  Postgres `RETURNING id` backfill is the returned row list.
  (For rows that collide *within* one slice real Postgres rejects the whole
  statement; the sequential model instead applies them in order.  Theorems
  about the batch stages therefore carry pairwise-distinct-key hypotheses on
  the decoded input, which every decoder-produced block satisfies.)
* `FirstOrCreate` becomes find-first-in-storage-order, create-if-absent.
  gorm struct conditions skip zero-valued fields; the models below do the
  same (`blockWhereMatches`, `chainWhereMatches`).
* `db.Transaction` becomes `Except`: an `Except.error` result commits nothing
  (rollback), an `Except.ok` result is the committed state.
* Store failures are injected through a `Faults` record, one flag per write
  statement, checked exactly where the corresponding Go call can fail (in
  particular a batch `Create` that is skipped for an empty slice cannot fail).
* Timestamps are `Nat` with `0` as the `0001-01-01T00:00:00Z` sentinel.
* Go `int64` heights are `Int`, `uint` surrogate keys are `Nat`.
* Go map iteration order is unspecified; the model uses association lists
  that keep first-insertion key order with value overwrite, a fixed choice of
  that unspecified order.
* Fee records are stripped before the Tx batch insert (db.go line 254) and
  fee persistence is disabled in the source, so `Tx` rows carry no fee data.

The `models` package (schema declarations) is not under `src/`.  Modelled
from the spec: row shapes follow §3 of the spec, and the store enforces the
reference-data foreign keys of spec §7(b)/(d) (`message_type_id`,
`message_event_type_id`, `message_event_attribute_key_id` must name an
existing row); decoder-supplied surrogate ids are zero, so inserts always
draw a fresh key.
-/

set_option autoImplicit false
set_option linter.unusedSectionVars false
set_option linter.unusedVariables false

namespace CosmosDB

/-! ## Data model (spec §3; `models` package is not under `src/`) -/

/-- A `chains` row: surrogate `id`, natural key `chainID`, display `name`. -/
structure Chain where
  id : Nat
  chainID : String
  name : String
  deriving DecidableEq

/-- A `blocks` row.  `timeStamp = 0` is the epoch-zero sentinel. -/
structure Block where
  id : Nat
  height : Int
  chainID : Nat
  timeStamp : Nat
  txIndexed : Bool
  blockEventsIndexed : Bool
  deriving DecidableEq

/-- A `txes` row (fees are stripped by the pipeline and not persisted). -/
structure Tx where
  id : Nat
  hash : String
  code : Int
  blockID : Nat
  signerAddressID : Option Nat
  deriving DecidableEq

/-- A `message_types` row, natural key `messageType`. -/
structure MessageType where
  id : Nat
  messageType : String
  deriving DecidableEq

/-- A `message_event_types` row, natural key `typ` (column `type`). -/
structure MessageEventType where
  id : Nat
  typ : String
  deriving DecidableEq

/-- A `message_event_attribute_keys` row, natural key `key`. -/
structure MessageEventAttributeKey where
  id : Nat
  key : String
  deriving DecidableEq

/-- A `messages` row, unique per `(txID, messageIndex)`. -/
structure Message where
  id : Nat
  txID : Nat
  messageTypeID : Nat
  messageIndex : Int
  deriving DecidableEq

/-- A `message_events` row, unique per `(messageID, index)`. -/
structure MessageEvent where
  id : Nat
  messageID : Nat
  messageEventTypeID : Nat
  index : Int
  deriving DecidableEq

/-- A `message_event_attributes` row, unique per `(messageEventID, index)`. -/
structure MessageEventAttribute where
  id : Nat
  messageEventID : Nat
  messageEventAttributeKeyID : Nat
  index : Int
  value : String
  deriving DecidableEq

/-- A `failed_blocks` row (column `blockchain_id` per the raw SQL in
`IndexNewBlock`). -/
structure FailedBlock where
  id : Nat
  height : Int
  blockchainID : Nat
  deriving DecidableEq

/-- The relational store: one list per table, in storage order, plus the
surrogate-key sequence. -/
structure DB where
  nextID : Nat
  chains : List Chain
  blocks : List Block
  txs : List Tx
  messageTypes : List MessageType
  messageEventTypes : List MessageEventType
  messageEventAttributeKeys : List MessageEventAttributeKey
  messages : List Message
  messageEvents : List MessageEvent
  messageEventAttributes : List MessageEventAttribute
  failedBlocks : List FailedBlock
  deriving DecidableEq

/-- The Go zero value of `models.Tx` (`uniqueTxes[hash]` on a missing key). -/
def zeroTx : Tx := ⟨0, "", 0, 0, none⟩

/-- The Go zero value of `models.MessageType` (missing-key map lookup). -/
def zeroMessageType : MessageType := ⟨0, ""⟩

/-- The Go zero value of `models.MessageEventType`. -/
def zeroMessageEventType : MessageEventType := ⟨0, ""⟩

/-- The Go zero value of `models.MessageEventAttributeKey`. -/
def zeroMessageEventAttributeKey : MessageEventAttributeKey := ⟨0, ""⟩

/-- The Go zero value of `models.Block` (`GetHighestIndexedBlock` leaves its
result zero-valued when no row matches; the error is ignored). -/
def zeroBlock : Block := ⟨0, 0, 0, 0, false, false⟩

/-! ## Association lists: the model of Go maps

Keys keep first-insertion order, a later insert for an existing key
overwrites the value in place.  This is `m[k] = v` / `m[k]` on a Go map with
a fixed choice of the (unspecified) iteration order. -/

/-- Go map update `m[k] = v`. -/
def assocUpd {β : Type} : List (String × β) → String → β → List (String × β)
  | [], k, v => [(k, v)]
  | (k1, v1) :: rest, k, v =>
    if k1 = k then (k1, v) :: rest else (k1, v1) :: assocUpd rest k v

/-- Go map lookup `m[k]` (as an `Option`; callers supply the zero value). -/
def assocFind {β : Type} : List (String × β) → String → Option β
  | [], _ => none
  | (k1, v1) :: rest, k => if k1 = k then some v1 else assocFind rest k

@[simp] theorem assocFind_nil {β : Type} (k : String) :
    assocFind ([] : List (String × β)) k = none := rfl

theorem assocUpd_keys {β : Type} (m : List (String × β)) (k : String) (v : β) :
    (assocUpd m k v).map Prod.fst =
      if k ∈ m.map Prod.fst then m.map Prod.fst else m.map Prod.fst ++ [k] := by
  induction m with
  | nil => simp [assocUpd]
  | cons hd tl ih =>
    obtain ⟨k1, v1⟩ := hd
    by_cases h : k1 = k
    · subst h
      simp [assocUpd]
    · simp only [assocUpd, if_neg h, List.map_cons, ih]
      have h2 : ¬ (k = k1) := fun hh => h hh.symm
      by_cases hk : k ∈ tl.map Prod.fst <;>
        simp [List.mem_cons, h2, hk]

theorem assocFind_eq_none {β : Type} {m : List (String × β)} {k : String}
    (h : k ∉ m.map Prod.fst) : assocFind m k = none := by
  induction m with
  | nil => rfl
  | cons hd tl ih =>
    obtain ⟨k1, v1⟩ := hd
    simp only [List.map_cons, List.mem_cons, not_or] at h
    rw [assocFind, if_neg (fun hh => h.1 hh.symm)]
    exact ih h.2

/-- Every value of a map built by `assocUpd` satisfies a predicate that all
inserted values and all initial values satisfy. -/
theorem assocUpd_forall {β : Type} {P : String → β → Prop} :
    ∀ (m : List (String × β)) (k : String) (v : β),
    (∀ p ∈ m, P p.1 p.2) → P k v → ∀ p ∈ assocUpd m k v, P p.1 p.2
  | [], _, _, _, hv => by simpa [assocUpd] using hv
  | (k1, v1) :: tl, k, v, hm, hv => by
    by_cases h : k1 = k
    · simp only [assocUpd, if_pos h]
      intro p hp
      rcases List.mem_cons.mp hp with rfl | hp
      · exact h ▸ hv
      · exact hm _ (List.mem_cons_of_mem _ hp)
    · simp only [assocUpd, if_neg h]
      intro p hp
      rcases List.mem_cons.mp hp with rfl | hp
      · exact hm _ (List.mem_cons_self _ _)
      · exact assocUpd_forall tl k v (fun q hq => hm q (List.mem_cons_of_mem _ hq)) hv _ hp

theorem assocUpd_keys_nodup {β : Type} {m : List (String × β)}
    (h : (m.map Prod.fst).Nodup) (k : String) (v : β) :
    ((assocUpd m k v).map Prod.fst).Nodup := by
  rw [assocUpd_keys]
  by_cases hk : k ∈ m.map Prod.fst
  · simpa [hk] using h
  · rw [if_neg hk, List.nodup_append]
    refine ⟨h, List.nodup_singleton k, fun x hx hmem => ?_⟩
    rw [List.mem_singleton] at hmem
    exact hk (hmem ▸ hx)

/-- Folding inserts into a map preserves a key/value predicate. -/
theorem foldl_assocUpd_forall {β : Type} {P : String → β → Prop} :
    ∀ (kvs : List (String × β)) (m : List (String × β)),
    (∀ p ∈ m, P p.1 p.2) → (∀ p ∈ kvs, P p.1 p.2) →
    ∀ p ∈ kvs.foldl (fun m2 kv => assocUpd m2 kv.1 kv.2) m, P p.1 p.2
  | [], _, hm, _, p, hp => hm p hp
  | kv :: tl, m, hm, hkvs, p, hp =>
    foldl_assocUpd_forall tl (assocUpd m kv.1 kv.2)
      (assocUpd_forall m kv.1 kv.2 hm (hkvs kv (List.mem_cons_self _ _)))
      (fun q hq => hkvs q (List.mem_cons_of_mem _ hq)) p hp

/-- A key of a map built by folded inserts is an initial or an inserted
key. -/
theorem foldl_assocUpd_keys_mem {β : Type} :
    ∀ (kvs : List (String × β)) (m : List (String × β)) (x : String),
    x ∈ (kvs.foldl (fun m2 kv => assocUpd m2 kv.1 kv.2) m).map Prod.fst →
    x ∈ m.map Prod.fst ∨ x ∈ kvs.map Prod.fst
  | [], _, _, hx => Or.inl hx
  | kv :: tl, m, x, hx => by
    rcases foldl_assocUpd_keys_mem tl (assocUpd m kv.1 kv.2) x hx with h | h
    · rw [assocUpd_keys] at h
      by_cases hk : kv.1 ∈ m.map Prod.fst
      · rw [if_pos hk] at h
        exact Or.inl h
      · rw [if_neg hk] at h
        rcases List.mem_append.mp h with h2 | h2
        · exact Or.inl h2
        · rw [List.mem_singleton] at h2
          exact Or.inr (by simp [h2])
    · exact Or.inr (List.mem_cons_of_mem _ h)

/-- Re-inserting only values whose key the map already holds keeps the key
list unchanged. -/
theorem foldl_assocUpd_keys {β : Type} (key : β → String) :
    ∀ (rs : List β) (m : List (String × β)),
    (∀ r ∈ rs, key r ∈ m.map Prod.fst) →
    (rs.foldl (fun m2 r => assocUpd m2 (key r) r) m).map Prod.fst = m.map Prod.fst
  | [], _, _ => rfl
  | r :: tl, m, h => by
    have hk : key r ∈ m.map Prod.fst := h r (List.mem_cons_self _ _)
    have e1 : (assocUpd m (key r) r).map Prod.fst = m.map Prod.fst := by
      rw [assocUpd_keys, if_pos hk]
    have e2 := foldl_assocUpd_keys key tl (assocUpd m (key r) r)
      (fun r2 hr2 => by rw [e1]; exact h r2 (List.mem_cons_of_mem _ hr2))
    exact e2.trans e1

/-! ## First-match update: gorm `First` / `FirstOrCreate` / `ON CONFLICT`

`updateFirstMatch p upd t` finds the first row of `t` (storage order; rows
are appended with increasing surrogate ids, so this is gorm's primary-key
order) satisfying `p`, replaces it in place by `upd` of it, and returns the
new table and the updated row; `none` when no row matches. -/

/-- Update the first row matching `p` in place. -/
def updateFirstMatch {α : Type} (p : α → Bool) (upd : α → α) : List α → Option (List α × α)
  | [] => none
  | x :: xs =>
    if p x then some (upd x :: xs, upd x)
    else match updateFirstMatch p upd xs with
      | none => none
      | some (ys, r) => some (x :: ys, r)

theorem ufm_eq_none {α : Type} {p : α → Bool} {upd : α → α} :
    ∀ {t : List α}, updateFirstMatch p upd t = none ↔ ∀ x ∈ t, p x = false := by
  intro t
  induction t with
  | nil => simp [updateFirstMatch]
  | cons a tl ih =>
    by_cases h : p a
    · simp [updateFirstMatch, h]
    · rw [updateFirstMatch, if_neg (by simpa using h)]
      cases hu : updateFirstMatch p upd tl with
      | none =>
        simp only [List.mem_cons]
        constructor
        · intro _ x hx
          rcases hx with rfl | hx
          · simpa using h
          · exact ih.mp hu x hx
        · intro _; trivial
      | some pr =>
        obtain ⟨ys, r⟩ := pr
        simp only [List.mem_cons]
        constructor
        · intro hc; exact absurd hc (by simp)
        · intro hall
          have hn : updateFirstMatch p upd tl = none :=
            ih.mpr (fun x hx => hall x (Or.inr hx))
          rw [hn] at hu
          exact absurd hu (by simp)

/-- Structure of a successful first-match update: the table splits as a
non-matching prefix, the (updated) matched row, and an untouched suffix. -/
theorem ufm_eq_some {α : Type} {p : α → Bool} {upd : α → α} :
    ∀ {t t2 : List α} {r : α}, updateFirstMatch p upd t = some (t2, r) →
    ∃ l1 a l2, t = l1 ++ a :: l2 ∧ (∀ b ∈ l1, p b = false) ∧ p a = true ∧
      t2 = l1 ++ upd a :: l2 ∧ r = upd a := by
  intro t
  induction t with
  | nil => intro t2 r h; exact absurd h (by simp [updateFirstMatch])
  | cons a tl ih =>
    intro t2 r h
    by_cases hp : p a
    · rw [updateFirstMatch, if_pos hp] at h
      obtain ⟨h1, h2⟩ : upd a :: tl = t2 ∧ upd a = r := by
        constructor <;> { injection h with h3; injection h3 }
      exact ⟨[], a, tl, by simp, by simp, hp, h1.symm ▸ by simp, h2.symm⟩
    · rw [updateFirstMatch, if_neg (by simpa using hp)] at h
      cases hu : updateFirstMatch p upd tl with
      | none => rw [hu] at h; exact absurd h (by simp)
      | some pr =>
        rw [hu] at h
        obtain ⟨ys, r0⟩ := pr
        simp only [Option.some.injEq, Prod.mk.injEq] at h
        obtain ⟨h1, h2⟩ := h
        obtain ⟨l1, b, l2, htl, hl1, hpb, hys, hr⟩ := ih hu
        refine ⟨a :: l1, b, l2, by simp [htl], ?_, hpb, ?_, h2 ▸ hr⟩
        · intro c hc
          rcases List.mem_cons.mp hc with rfl | hc
          · simpa using hp
          · exact hl1 c hc
        · rw [← h1, hys]; simp

theorem ufm_length {α : Type} {p : α → Bool} {upd : α → α}
    {t t2 : List α} {r : α} (h : updateFirstMatch p upd t = some (t2, r)) :
    t2.length = t.length := by
  obtain ⟨l1, a, l2, rfl, _, _, rfl, _⟩ := ufm_eq_some h
  simp

/-! ## Batch upsert: `Create` with `clause.OnConflict{Columns, DoUpdates}`

`UpsertSpec` packages, for one table, the conflict-target key (`key`), the
`DoUpdates` column refresh (`refresh`), the Postgres `RETURNING id` backfill
(`withID` / `rid`).  `upsert1` is one row of the statement, `batchUpsert`
folds a slice left to right (see the header note on within-slice
collisions). -/

structure UpsertSpec (α κ : Type) where
  key : α → κ
  refresh : α → α → α
  withID : α → Nat → α
  rid : α → Nat

/-- Laws every concrete table satisfies: `refresh` touches neither the
conflict-target columns (when keys agree, as at a conflict) nor the surrogate
id; `withID` only sets the id; refreshing twice keeps the last values. -/
structure UpsertLaws {α κ : Type} (s : UpsertSpec α κ) : Prop where
  key_refresh : ∀ r x, s.key r = s.key x → s.key (s.refresh r x) = s.key r
  key_withID : ∀ x n, s.key (s.withID x n) = s.key x
  rid_refresh : ∀ r x, s.rid (s.refresh r x) = s.rid r
  rid_withID : ∀ x n, s.rid (s.withID x n) = n
  refresh_withID_self : ∀ x n, s.refresh (s.withID x n) x = s.withID x n
  refresh_refresh : ∀ r a b, s.refresh (s.refresh r a) b = s.refresh r b

structure UpOut (α : Type) where
  table : List α
  next : Nat
  ret : α
  deriving DecidableEq

structure BatchOut (α : Type) where
  table : List α
  next : Nat
  rets : List α
  deriving DecidableEq

/-- Conflict predicate of an upsert of row `x`: key columns coincide. -/
def umP {α κ : Type} [DecidableEq κ] (s : UpsertSpec α κ) (x : α) : α → Bool :=
  fun r => decide (s.key r = s.key x)

/-- Conflict action of an upsert of row `x`: the `DoUpdates` columns. -/
def umU {α κ : Type} (s : UpsertSpec α κ) (x : α) : α → α :=
  fun r => s.refresh r x

/-- One row of an `INSERT ... ON CONFLICT (key) DO UPDATE ... RETURNING id`. -/
def upsert1 {α κ : Type} [DecidableEq κ] (s : UpsertSpec α κ) (t : List α) (n : Nat) (x : α) :
    UpOut α :=
  match updateFirstMatch (umP s x) (umU s x) t with
  | some (t2, r) => ⟨t2, n, s.withID x (s.rid r)⟩
  | none => ⟨t ++ [s.withID x n], n + 1, s.withID x n⟩

/-- A whole conflict-aware batch `Create`, left to right, with id backfill. -/
def batchUpsert {α κ : Type} [DecidableEq κ] (s : UpsertSpec α κ) :
    List α → Nat → List α → BatchOut α
  | t, n, [] => ⟨t, n, []⟩
  | t, n, x :: xs =>
    let u := upsert1 s t n x
    let b := batchUpsert s u.table u.next xs
    ⟨b.table, b.next, u.ret :: b.rets⟩

/-! ### Stability: tables on which re-running an upsert changes nothing

`UStable s x t row` says table `t` already carries the result of upserting
`x` — the upsert finds `row` and rewrites it to itself.  This is the key
notion behind idempotence of `IndexNewBlock`. -/

section Stability

variable {α κ : Type} [DecidableEq κ] {s : UpsertSpec α κ}

/-- `t` is a fixpoint of upserting `x`, with `row` the matched row. -/
def UStable (s : UpsertSpec α κ) [DecidableEq κ] (x : α) (t : List α) (row : α) : Prop :=
  updateFirstMatch (umP s x) (umU s x) t = some (t, row)

theorem upsert1_of_ustable {x row : α} {t : List α} (h : UStable s x t row) (n : Nat) :
    upsert1 s t n x = ⟨t, n, s.withID x (s.rid row)⟩ := by
  unfold upsert1
  rw [h]

/-- Computing a first-match update on a split list: matching head after a
non-matching prefix. -/
theorem ufm_append_first {p : α → Bool} {u : α → α} {l1 : List α} {c : α} (l2 : List α)
    (h1 : ∀ b ∈ l1, p b = false) (hc : p c = true) :
    updateFirstMatch p u (l1 ++ c :: l2) = some (l1 ++ u c :: l2, u c) := by
  induction l1 with
  | nil => simp [updateFirstMatch, hc]
  | cons a tl ih =>
    have ha : p a = false := h1 a (List.mem_cons_self _ _)
    rw [List.cons_append, updateFirstMatch, if_neg (by simp [ha]),
      ih (fun b hb => h1 b (List.mem_cons_of_mem _ hb))]
    simp

theorem ustable_establish (hL : UpsertLaws s) {t : List α} {n : Nat} {x : α} {o : UpOut α}
    (h : upsert1 s t n x = o) :
    ∃ row, UStable s x o.table row ∧ o.ret = s.withID x (s.rid row) := by
  unfold upsert1 at h
  cases hu : updateFirstMatch (umP s x) (umU s x) t with
  | some pr =>
    obtain ⟨t2, r⟩ := pr
    rw [hu] at h
    obtain ⟨l1, a, l2, hteq, hl1, hpa, ht2, hr⟩ := ufm_eq_some hu
    have hkey : s.key a = s.key x := of_decide_eq_true hpa
    refine ⟨r, ?_, ?_⟩
    · show updateFirstMatch (umP s x) (umU s x) o.table = some (o.table, r)
      have hstep : updateFirstMatch (umP s x) (umU s x) (l1 ++ umU s x a :: l2) =
          some (l1 ++ umU s x (umU s x a) :: l2, umU s x (umU s x a)) :=
        ufm_append_first l2 hl1 (by
          show decide (s.key (s.refresh a x) = s.key x) = true
          rw [hL.key_refresh a x hkey, hkey]
          simp)
      have huu : umU s x (umU s x a) = umU s x a := hL.refresh_refresh a x x
      rw [huu] at hstep
      rw [← h]
      simpa [ht2, hr] using hstep
    · rw [← h, hr]
  | none =>
    rw [hu] at h
    have hall : ∀ b ∈ t, umP s x b = false := ufm_eq_none.mp hu
    refine ⟨s.withID x n, ?_, ?_⟩
    · show updateFirstMatch (umP s x) (umU s x) o.table = some (o.table, s.withID x n)
      have hstep : updateFirstMatch (umP s x) (umU s x) (t ++ s.withID x n :: []) =
          some (t ++ umU s x (s.withID x n) :: [], umU s x (s.withID x n)) :=
        ufm_append_first [] hall (by
          show decide (s.key (s.withID x n) = s.key x) = true
          rw [hL.key_withID]
          simp)
      have hw : umU s x (s.withID x n) = s.withID x n := hL.refresh_withID_self x n
      rw [hw] at hstep
      rw [← h]
      simpa using hstep
    · rw [← h, hL.rid_withID]

/-- A stable table stays stable when a row with a different conflict value is
upserted (pure list level). -/
theorem ufixed_after_ufm {p q : α → Bool} {u v : α → α} :
    ∀ {t t2 : List α} {row r2 : α},
    updateFirstMatch p u t = some (t, row) →
    updateFirstMatch q v t = some (t2, r2) →
    (∀ b, p b = true → q b = false) →
    (∀ b, q b = true → p (v b) = false) →
    updateFirstMatch p u t2 = some (t2, row) := by
  intro t
  induction t with
  | nil => intro t2 row r2 h1; exact absurd h1 (by simp [updateFirstMatch])
  | cons a tl ih =>
    intro t2 row r2 h1 h2 hpq hqv
    by_cases hpa : p a = true
    · -- the first `p`-match is the head, so `u a = a`
      rw [updateFirstMatch, if_pos hpa] at h1
      obtain ⟨hua, htl, hrow⟩ : u a = a ∧ tl = tl ∧ row = u a := by
        simp only [Option.some.injEq, Prod.mk.injEq, List.cons.injEq] at h1
        exact ⟨h1.1.1, rfl, h1.2.symm⟩
      have hqa : q a = false := hpq a hpa
      rw [updateFirstMatch, if_neg (by simp [hqa])] at h2
      cases hv : updateFirstMatch q v tl with
      | none => rw [hv] at h2; exact absurd h2 (by simp)
      | some pr =>
        obtain ⟨ys, r0⟩ := pr
        rw [hv] at h2
        simp only [Option.some.injEq, Prod.mk.injEq] at h2
        rw [← h2.1, updateFirstMatch, if_pos hpa, hua, hrow, hua]
    · -- head does not `p`-match: the tail is `p`-stable
      rw [updateFirstMatch, if_neg hpa] at h1
      have htl1 : updateFirstMatch p u tl = some (tl, row) := by
        cases hv : updateFirstMatch p u tl with
        | none => rw [hv] at h1; exact absurd h1 (by simp)
        | some pr =>
          obtain ⟨ys, r0⟩ := pr
          rw [hv] at h1
          simp only [Option.some.injEq, Prod.mk.injEq, List.cons.injEq, true_and] at h1
          rw [h1.1, h1.2]
      by_cases hqa : q a = true
      · rw [updateFirstMatch, if_pos hqa] at h2
        simp only [Option.some.injEq, Prod.mk.injEq] at h2
        rw [← h2.1, updateFirstMatch, if_neg (by simp [hqv a hqa]), htl1]
      · rw [updateFirstMatch, if_neg hqa] at h2
        cases hv : updateFirstMatch q v tl with
        | none => rw [hv] at h2; exact absurd h2 (by simp)
        | some pr =>
          obtain ⟨ys, r0⟩ := pr
          rw [hv] at h2
          simp only [Option.some.injEq, Prod.mk.injEq] at h2
          have := ih htl1 hv hpq hqv
          rw [← h2.1, updateFirstMatch, if_neg hpa, this]

/-- A stable table stays stable under appending a non-matching row. -/
theorem ufixed_append {p : α → Bool} {u : α → α} {t : List α} {row w : α}
    (h : updateFirstMatch p u t = some (t, row)) :
    updateFirstMatch p u (t ++ [w]) = some (t ++ [w], row) := by
  obtain ⟨l1, a, l2, hteq, hl1, hpa, ht2, hr⟩ := ufm_eq_some h
  have hcancel : a :: l2 = u a :: l2 := by
    have : l1 ++ a :: l2 = l1 ++ u a :: l2 := hteq ▸ ht2
    exact List.append_cancel_left this
  have hua : u a = a := by
    have := (List.cons.injEq _ _ _ _).mp hcancel
    exact this.1.symm
  have hstep := ufm_append_first (p := p) (u := u) (l2 ++ [w]) hl1 hpa
  rw [hua] at hstep
  rw [hteq, hr, hua, List.append_assoc, List.cons_append]
  exact hstep

theorem ustable_preserve_upsert (hL : UpsertLaws s) {x row y : α} {t : List α}
    (h : UStable s x t row) (hxy : s.key y ≠ s.key x) (m : Nat) :
    UStable s x (upsert1 s t m y).table row := by
  unfold upsert1
  cases hu : updateFirstMatch (umP s y) (umU s y) t with
  | some pr =>
    obtain ⟨t2, r⟩ := pr
    show updateFirstMatch (umP s x) (umU s x) t2 = some (t2, row)
    refine ufixed_after_ufm h hu ?_ ?_
    · intro b hb
      have hbx : s.key b = s.key x := of_decide_eq_true hb
      show decide (s.key b = s.key y) = false
      simp only [decide_eq_false_iff_not]
      intro hby
      exact hxy (hby.symm.trans hbx)
    · intro b hb
      have hby : s.key b = s.key y := of_decide_eq_true hb
      show decide (s.key (s.refresh b y) = s.key x) = false
      simp only [decide_eq_false_iff_not]
      rw [hL.key_refresh b y hby, hby]
      exact hxy
  | none =>
    show updateFirstMatch (umP s x) (umU s x) (t ++ [s.withID y m]) =
      some (t ++ [s.withID y m], row)
    exact ufixed_append h

theorem ustable_preserve_batch (hL : UpsertLaws s) {x row : α} :
    ∀ (rows : List α) {t : List α}, UStable s x t row →
    (∀ y ∈ rows, s.key y ≠ s.key x) → ∀ m,
    UStable s x (batchUpsert s t m rows).table row
  | [], _, h, _, _ => h
  | y :: ys, t, h, hk, m => by
    show UStable s x (batchUpsert s (upsert1 s t m y).table (upsert1 s t m y).next ys).table row
    exact ustable_preserve_batch hL ys
      (ustable_preserve_upsert hL h (hk y (List.mem_cons_self _ _)) m)
      (fun z hz => hk z (List.mem_cons_of_mem _ hz)) _

/-- Batch-level stability: every row of the slice is individually stable on
`t`, with the given returned rows. -/
def BStableW (s : UpsertSpec α κ) [DecidableEq κ] (t rows R : List α) : Prop :=
  rows.length = R.length ∧
  ∀ pr ∈ rows.zip R, ∃ row, UStable s pr.1 t row ∧ pr.2 = s.withID pr.1 (s.rid row)

theorem batch_of_bstablew :
    ∀ {rows R t : List α}, BStableW s t rows R →
    ∀ n, batchUpsert s t n rows = ⟨t, n, R⟩
  | [], R, t, h, n => by
    obtain ⟨hlen, _⟩ := h
    cases R with
    | nil => rfl
    | cons r rs => exact absurd hlen (by simp)
  | x :: xs, R, t, h, n => by
    obtain ⟨hlen, hall⟩ := h
    cases R with
    | nil => exact absurd hlen (by simp)
    | cons r rs =>
      obtain ⟨row, hst, hr⟩ := hall (x, r) (by simp [List.zip_cons_cons])
      have hx := upsert1_of_ustable hst n
      have htail : BStableW s t xs rs := by
        refine ⟨by simpa using hlen, fun pr hpr => hall pr ?_⟩
        rw [List.zip_cons_cons]
        exact List.mem_cons_of_mem _ hpr
      show (let u := upsert1 s t n x
            let b := batchUpsert s u.table u.next xs
            (⟨b.table, b.next, u.ret :: b.rets⟩ : BatchOut α)) = ⟨t, n, r :: rs⟩
      simp only [hx]
      rw [batch_of_bstablew htail n]
      simp only []
      rw [← hr]

theorem bstablew_establish (hL : UpsertLaws s) :
    ∀ {rows : List α} {t : List α} {n : Nat} {b : BatchOut α},
    (rows.map s.key).Nodup → batchUpsert s t n rows = b →
    BStableW s b.table rows b.rets
  | [], t, n, b, _, h => by
    cases h
    exact ⟨rfl, by simp⟩
  | x :: xs, t, n, b, hnd, h => by
    have hx : s.key x ∉ xs.map s.key := by
      simp only [List.map_cons, List.nodup_cons] at hnd
      exact hnd.1
    have hnd2 : (xs.map s.key).Nodup := by
      simp only [List.map_cons, List.nodup_cons] at hnd
      exact hnd.2
    obtain ⟨row, hst, hret⟩ := ustable_establish hL (rfl :
      upsert1 s t n x = upsert1 s t n x)
    have hstb : UStable s x (batchUpsert s (upsert1 s t n x).table
        (upsert1 s t n x).next xs).table row := by
      refine ustable_preserve_batch hL xs hst ?_ _
      intro y hy hyx
      exact hx (hyx ▸ List.mem_map_of_mem s.key hy)
    have ih : BStableW s (batchUpsert s (upsert1 s t n x).table
        (upsert1 s t n x).next xs).table xs
        (batchUpsert s (upsert1 s t n x).table (upsert1 s t n x).next xs).rets :=
      bstablew_establish hL hnd2 rfl
    have hb : b = ⟨(batchUpsert s (upsert1 s t n x).table (upsert1 s t n x).next xs).table,
        (batchUpsert s (upsert1 s t n x).table (upsert1 s t n x).next xs).next,
        (upsert1 s t n x).ret ::
          (batchUpsert s (upsert1 s t n x).table (upsert1 s t n x).next xs).rets⟩ := h.symm
    subst hb
    refine ⟨by simpa using ih.1, fun pr hpr => ?_⟩
    rw [List.zip_cons_cons] at hpr
    rcases List.mem_cons.mp hpr with rfl | hpr
    · exact ⟨row, hstb, hret⟩
    · exact ih.2 pr hpr

theorem bstablew_preserve_batch (hL : UpsertLaws s) {t rows R : List α}
    (h : BStableW s t rows R) (rows2 : List α)
    (hdisj : ∀ k ∈ rows.map s.key, k ∉ rows2.map s.key) (m : Nat) :
    BStableW s (batchUpsert s t m rows2).table rows R := by
  refine ⟨h.1, fun pr hpr => ?_⟩
  obtain ⟨row, hst, hret⟩ := h.2 pr hpr
  have hpr1 : pr.1 ∈ rows := (List.of_mem_zip hpr).1
  refine ⟨row, ustable_preserve_batch hL rows2 hst ?_ m, hret⟩
  intro y hy hyx
  exact hdisj (s.key pr.1) (List.mem_map_of_mem s.key hpr1)
    (hyx ▸ List.mem_map_of_mem s.key hy)

theorem batch_rets_length :
    ∀ (rows : List α) (t : List α) (n : Nat),
    (batchUpsert s t n rows).rets.length = rows.length
  | [], _, _ => rfl
  | x :: xs, t, n => by
    show ((batchUpsert s (upsert1 s t n x).table (upsert1 s t n x).next xs).rets.length + 1)
      = xs.length + 1
    rw [batch_rets_length xs]

theorem upsert1_next_ge (t : List α) (n : Nat) (x : α) : n ≤ (upsert1 s t n x).next := by
  unfold upsert1
  cases updateFirstMatch (umP s x) (umU s x) t with
  | some pr => obtain ⟨t2, r⟩ := pr; exact le_refl n
  | none => exact Nat.le_succ n

theorem batch_next_ge :
    ∀ (rows : List α) (t : List α) (n : Nat), n ≤ (batchUpsert s t n rows).next
  | [], _, _ => le_refl _
  | x :: xs, t, n =>
    le_trans (upsert1_next_ge t n x) (batch_next_ge xs _ _)

/-! ### Shape of a batch: original rows stay in place, new rows are appended -/

/-- How a batch relates an original table row to its image: id and conflict
columns never change; the row is untouched or refreshed by the (unique, for
distinct-key slices) slice row with its conflict value. -/
def RowRel (s : UpsertSpec α κ) (rows : List α) (a b : α) : Prop :=
  s.rid b = s.rid a ∧ s.key b = s.key a ∧
    (b = a ∨ ∃ x ∈ rows, s.key x = s.key a ∧ b = s.refresh a x)

theorem forall2_append_split {R : α → α → Prop} :
    ∀ {l1 l2 L : List α}, List.Forall₂ R (l1 ++ l2) L →
    ∃ L1 L2, L = L1 ++ L2 ∧ List.Forall₂ R l1 L1 ∧ List.Forall₂ R l2 L2 := by
  intro l1
  induction l1 with
  | nil => intro l2 L h; exact ⟨[], L, rfl, List.Forall₂.nil, h⟩
  | cons a tl ih =>
    intro l2 L h
    rw [List.cons_append] at h
    cases h with
    | cons hab htl =>
      obtain ⟨L1, L2, rfl, h1, h2⟩ := ih htl
      exact ⟨_ :: L1, L2, rfl, List.Forall₂.cons hab h1, h2⟩

theorem forall2_comp {R1 R2 R3 : α → α → Prop}
    (h : ∀ a b c, R1 a b → R2 b c → R3 a c) :
    ∀ {l1 l2 l3 : List α}, List.Forall₂ R1 l1 l2 → List.Forall₂ R2 l2 l3 →
      List.Forall₂ R3 l1 l3 := by
  intro l1 l2 l3 h12
  induction h12 generalizing l3 with
  | nil => intro h23; cases h23; exact List.Forall₂.nil
  | cons hab htl ih =>
    intro h23
    cases h23 with
    | cons hbc htl2 => exact List.Forall₂.cons (h _ _ _ hab hbc) (ih htl2)

theorem forall2_mem_left {R : α → α → Prop} :
    ∀ {l1 l2 : List α}, List.Forall₂ R l1 l2 → ∀ a ∈ l1, ∃ b ∈ l2, R a b := by
  intro l1 l2 h
  induction h with
  | nil => intro a ha; exact absurd ha (by simp)
  | cons hab _ ih =>
    intro a ha
    rcases List.mem_cons.mp ha with rfl | ha
    · exact ⟨_, List.mem_cons_self _ _, hab⟩
    · obtain ⟨b, hb, hr⟩ := ih a ha
      exact ⟨b, List.mem_cons_of_mem _ hb, hr⟩

theorem forall2_mem_right {R : α → α → Prop} :
    ∀ {l1 l2 : List α}, List.Forall₂ R l1 l2 → ∀ b ∈ l2, ∃ a ∈ l1, R a b := by
  intro l1 l2 h
  induction h with
  | nil => intro b hb; exact absurd hb (by simp)
  | cons hab _ ih =>
    intro b hb
    rcases List.mem_cons.mp hb with rfl | hb
    · exact ⟨_, List.mem_cons_self _ _, hab⟩
    · obtain ⟨a, ha, hr⟩ := ih b hb
      exact ⟨a, List.mem_cons_of_mem _ ha, hr⟩

theorem rowRel_comp (hL : UpsertLaws s) (x : α) (xs : List α) :
    ∀ a b c, RowRel s [x] a b → RowRel s xs b c → RowRel s (x :: xs) a c := by
  rintro a b c ⟨hr1, hk1, hc1⟩ ⟨hr2, hk2, hc2⟩
  refine ⟨hr2.trans hr1, hk2.trans hk1, ?_⟩
  rcases hc1 with rfl | ⟨y, hy, hky, rfl⟩
  · rcases hc2 with rfl | ⟨z, hz, hkz, rfl⟩
    · exact Or.inl rfl
    · exact Or.inr ⟨z, List.mem_cons_of_mem _ hz, hkz, rfl⟩
  · have hyx : y = x := List.mem_singleton.mp hy
    rcases hc2 with rfl | ⟨z, hz, hkz, rfl⟩
    · exact Or.inr ⟨y, hyx ▸ List.mem_cons_self x xs, hky, rfl⟩
    · refine Or.inr ⟨z, List.mem_cons_of_mem _ hz, hkz.trans hk1, ?_⟩
      rw [hL.refresh_refresh]

theorem upsert1_shape (hL : UpsertLaws s) (t : List α) (n : Nat) (x : α) :
    ∃ t1 new, (upsert1 s t n x).table = t1 ++ new ∧
      List.Forall₂ (RowRel s [x]) t t1 ∧ ∀ w ∈ new, n ≤ s.rid w := by
  unfold upsert1
  cases hu : updateFirstMatch (umP s x) (umU s x) t with
  | some pr =>
    obtain ⟨t2, r⟩ := pr
    obtain ⟨l1, a, l2, rfl, hl1, hpa, rfl, rfl⟩ := ufm_eq_some hu
    have hkey : s.key a = s.key x := of_decide_eq_true hpa
    refine ⟨l1 ++ umU s x a :: l2, [], by simp, ?_, by simp⟩
    have hRefl : ∀ c ∈ l1 ++ a :: l2, RowRel s [x] c c := by
      intro c _
      exact ⟨rfl, rfl, Or.inl rfl⟩
    refine List.rel_append (List.forall₂_same.mpr fun c _ => ⟨rfl, rfl, Or.inl rfl⟩) ?_
    refine List.Forall₂.cons ?_ (List.forall₂_same.mpr fun c _ => ⟨rfl, rfl, Or.inl rfl⟩)
    exact ⟨hL.rid_refresh a x, hL.key_refresh a x hkey,
      Or.inr ⟨x, List.mem_singleton_self x, hkey.symm, rfl⟩⟩
  | none =>
    refine ⟨t, [s.withID x n], rfl, List.forall₂_same.mpr fun c _ => ⟨rfl, rfl, Or.inl rfl⟩, ?_⟩
    intro w hw
    rw [List.mem_singleton.mp hw, hL.rid_withID]

theorem batch_shape (hL : UpsertLaws s) :
    ∀ (rows : List α) (t : List α) (n : Nat),
    ∃ t1 new, (batchUpsert s t n rows).table = t1 ++ new ∧
      List.Forall₂ (RowRel s rows) t t1 ∧ ∀ w ∈ new, n ≤ s.rid w
  | [], t, n =>
    ⟨t, [], by simp [batchUpsert], List.forall₂_same.mpr fun c _ => ⟨rfl, rfl, Or.inl rfl⟩,
      by simp⟩
  | x :: xs, t, n => by
    obtain ⟨tu, nu, hu, hfu, hnu⟩ := upsert1_shape hL t n x
    obtain ⟨t2, new2, hb, hfb, hnb⟩ := batch_shape hL xs (upsert1 s t n x).table
      (upsert1 s t n x).next
    rw [hu] at hfb
    obtain ⟨A, B, rfl, hA, hB⟩ := forall2_append_split hfb
    refine ⟨A, B ++ new2, ?_, ?_, ?_⟩
    · show (batchUpsert s (upsert1 s t n x).table (upsert1 s t n x).next xs).table
        = A ++ (B ++ new2)
      rw [hb, List.append_assoc]
    · refine forall2_comp (rowRel_comp hL x xs) hfu hA
    · intro w hw
      rcases List.mem_append.mp hw with hw | hw
      · obtain ⟨a, hamem, hrel⟩ := forall2_mem_right hB w hw
        obtain ⟨hr, _, _⟩ := hrel
        rw [hr]
        exact hnu a hamem
      · exact le_trans (upsert1_next_ge t n x) (hnb w hw)

/-! ### Surrogate-key well-formedness of a table -/

/-- All ids in `t` are pairwise distinct and below the sequence value `n`. -/
def TableWF (s : UpsertSpec α κ) (t : List α) (n : Nat) : Prop :=
  (t.map s.rid).Nodup ∧ ∀ r ∈ t, s.rid r < n

/-- All ids in `t` are positive (Postgres sequences start at 1). -/
def TablePos (s : UpsertSpec α κ) (t : List α) : Prop :=
  ∀ r ∈ t, 1 ≤ s.rid r

theorem tablewf_mono {t : List α} {n m : Nat} (h : TableWF s t n) (hnm : n ≤ m) :
    TableWF s t m :=
  ⟨h.1, fun r hr => lt_of_lt_of_le (h.2 r hr) hnm⟩

theorem upsert1_wf (hL : UpsertLaws s) {t : List α} {n : Nat} (x : α) (h : TableWF s t n) :
    TableWF s (upsert1 s t n x).table (upsert1 s t n x).next := by
  unfold upsert1
  cases hu : updateFirstMatch (umP s x) (umU s x) t with
  | some pr =>
    obtain ⟨t2, r⟩ := pr
    obtain ⟨l1, a, l2, rfl, hl1, hpa, rfl, rfl⟩ := ufm_eq_some hu
    show TableWF s (l1 ++ umU s x a :: l2) n
    have hmap : (l1 ++ umU s x a :: l2).map s.rid = (l1 ++ a :: l2).map s.rid := by
      simp [hL.rid_refresh, umU]
    constructor
    · rw [hmap]; exact h.1
    · intro c hc
      rcases List.mem_append.mp hc with hc | hc
      · exact h.2 c (List.mem_append.mpr (Or.inl hc))
      · rcases List.mem_cons.mp hc with rfl | hc
        · show s.rid (s.refresh a x) < n
          rw [hL.rid_refresh]
          exact h.2 a (List.mem_append.mpr (Or.inr (List.mem_cons_self _ _)))
        · exact h.2 c (List.mem_append.mpr (Or.inr (List.mem_cons_of_mem _ hc)))
  | none =>
    show TableWF s (t ++ [s.withID x n]) (n + 1)
    constructor
    · rw [List.map_append, List.nodup_append]
      refine ⟨h.1, by simp, ?_⟩
      intro i hi hmem
      simp only [List.map_singleton, List.mem_singleton, hL.rid_withID] at hmem
      obtain ⟨c, hc, rfl⟩ := List.mem_map.mp hi
      exact absurd (hmem ▸ h.2 c hc) (lt_irrefl n)
    · intro c hc
      rcases List.mem_append.mp hc with hc | hc
      · exact lt_trans (h.2 c hc) (Nat.lt_succ_self n)
      · rw [List.mem_singleton.mp hc, hL.rid_withID]
        exact Nat.lt_succ_self n

theorem batch_wf (hL : UpsertLaws s) :
    ∀ (rows : List α) {t : List α} {n : Nat}, TableWF s t n →
    TableWF s (batchUpsert s t n rows).table (batchUpsert s t n rows).next
  | [], _, _, h => h
  | x :: xs, t, n, h => by
    show TableWF s (batchUpsert s (upsert1 s t n x).table (upsert1 s t n x).next xs).table
      (batchUpsert s (upsert1 s t n x).table (upsert1 s t n x).next xs).next
    exact batch_wf hL xs (upsert1_wf hL x h)

theorem upsert1_pos (hL : UpsertLaws s) {t : List α} {n : Nat} (x : α)
    (hn : 1 ≤ n) (h : TablePos s t) : TablePos s (upsert1 s t n x).table := by
  unfold upsert1
  cases hu : updateFirstMatch (umP s x) (umU s x) t with
  | some pr =>
    obtain ⟨t2, r⟩ := pr
    obtain ⟨l1, a, l2, rfl, hl1, hpa, rfl, rfl⟩ := ufm_eq_some hu
    intro c hc
    rcases List.mem_append.mp hc with hc | hc
    · exact h c (List.mem_append.mpr (Or.inl hc))
    · rcases List.mem_cons.mp hc with rfl | hc
      · show 1 ≤ s.rid (s.refresh a x)
        rw [hL.rid_refresh]
        exact h a (List.mem_append.mpr (Or.inr (List.mem_cons_self _ _)))
      · exact h c (List.mem_append.mpr (Or.inr (List.mem_cons_of_mem _ hc)))
  | none =>
    intro c hc
    rcases List.mem_append.mp hc with hc | hc
    · exact h c hc
    · rw [List.mem_singleton.mp hc, hL.rid_withID]
      exact hn

theorem batch_pos (hL : UpsertLaws s) :
    ∀ (rows : List α) {t : List α} {n : Nat}, 1 ≤ n → TablePos s t →
    TablePos s (batchUpsert s t n rows).table
  | [], _, _, _, h => h
  | x :: xs, t, n, hn, h =>
    batch_pos hL xs (le_trans hn (upsert1_next_ge t n x)) (upsert1_pos hL x hn h)

/-! ### Membership frame: rows with foreign conflict values survive batches -/

theorem upsert1_mem_preserve (hL : UpsertLaws s) {t : List α} {a : α} (ha : a ∈ t)
    {y : α} (hk : s.key a ≠ s.key y) (n : Nat) : a ∈ (upsert1 s t n y).table := by
  unfold upsert1
  cases hu : updateFirstMatch (umP s y) (umU s y) t with
  | some pr =>
    obtain ⟨t2, r⟩ := pr
    obtain ⟨l1, b, l2, rfl, hl1, hpb, rfl, rfl⟩ := ufm_eq_some hu
    show a ∈ l1 ++ umU s y b :: l2
    rcases List.mem_append.mp ha with ha | ha
    · exact List.mem_append.mpr (Or.inl ha)
    · rcases List.mem_cons.mp ha with rfl | ha
      · exact absurd (of_decide_eq_true hpb) hk
      · exact List.mem_append.mpr (Or.inr (List.mem_cons_of_mem _ ha))
  | none =>
    exact List.mem_append.mpr (Or.inl ha)

theorem batch_mem_preserve (hL : UpsertLaws s) :
    ∀ (rows : List α) {t : List α} {a : α}, a ∈ t →
    (∀ y ∈ rows, s.key a ≠ s.key y) → ∀ n, a ∈ (batchUpsert s t n rows).table
  | [], _, _, ha, _, _ => ha
  | y :: ys, t, a, ha, hk, n =>
    batch_mem_preserve hL ys
      (upsert1_mem_preserve hL ha (hk y (List.mem_cons_self _ _)) n)
      (fun z hz => hk z (List.mem_cons_of_mem _ hz)) _

/-! ### Returned rows name live table rows -/

/-- `RetsRowed s t rows R`: every returned row of the batch (`R`, paired with
its slice row in `rows`) has the surrogate id of a live row of `t` that
carries the slice row's conflict value and its `DoUpdates` columns. -/
def RetsRowed (s : UpsertSpec α κ) (t rows R : List α) : Prop :=
  rows.length = R.length ∧
  ∀ pr ∈ rows.zip R, ∃ row ∈ t, s.rid row = s.rid pr.2 ∧ s.key row = s.key pr.1 ∧
    s.refresh row pr.1 = row

theorem ustable_row_mem (hL : UpsertLaws s) {x row : α} {t : List α}
    (h : UStable s x t row) :
    row ∈ t ∧ s.key row = s.key x ∧ s.refresh row x = row := by
  obtain ⟨l1, a, l2, hteq, hl1, hpa, ht2, hr⟩ := ufm_eq_some h
  have hcancel : a :: l2 = umU s x a :: l2 := List.append_cancel_left (hteq ▸ ht2)
  have hua : umU s x a = a := (((List.cons.injEq _ _ _ _).mp hcancel).1).symm
  have hkey : s.key a = s.key x := of_decide_eq_true hpa
  have hrow : row = a := by rw [hr, hua]
  refine ⟨?_, ?_, ?_⟩
  · rw [hrow, hteq]
    exact List.mem_append.mpr (Or.inr (List.mem_cons_self _ _))
  · rw [hrow]
    exact hkey
  · rw [hrow]
    exact hua

theorem bstablew_rowed (hL : UpsertLaws s) {t rows R : List α}
    (h : BStableW s t rows R) : RetsRowed s t rows R := by
  refine ⟨h.1, fun pr hpr => ?_⟩
  obtain ⟨row, hst, hret⟩ := h.2 pr hpr
  obtain ⟨hmem, hkey, href⟩ := ustable_row_mem hL hst
  refine ⟨row, hmem, ?_, hkey, href⟩
  rw [hret, hL.rid_withID]

theorem rowed_preserve_batch (hL : UpsertLaws s) {t rows R : List α}
    (h : RetsRowed s t rows R) (rows2 : List α)
    (hdisj : ∀ k ∈ rows.map s.key, k ∉ rows2.map s.key) (m : Nat) :
    RetsRowed s (batchUpsert s t m rows2).table rows R := by
  refine ⟨h.1, fun pr hpr => ?_⟩
  obtain ⟨row, hmem, hrid, hkey, href⟩ := h.2 pr hpr
  have hpr1 : pr.1 ∈ rows := (List.of_mem_zip hpr).1
  refine ⟨row, batch_mem_preserve hL rows2 hmem ?_ m, hrid, hkey, href⟩
  intro y hy hky
  exact hdisj (s.key pr.1) (List.mem_map_of_mem s.key hpr1)
    (hkey ▸ hky ▸ List.mem_map_of_mem s.key hy)

/-- Pair a member of the second zip component with its mate. -/
theorem zip_exists_left {β : Type} :
    ∀ {l1 : List α} {l2 : List β}, l1.length = l2.length → ∀ b ∈ l2,
    ∃ a, (a, b) ∈ l1.zip l2
  | [], [], _, b, hb => absurd hb (by simp)
  | [], _ :: _, h, _, _ => absurd h (by simp)
  | _ :: _, [], h, b, hb => absurd hb (by simp)
  | a :: tl1, c :: tl2, h, b, hb => by
    rcases List.mem_cons.mp hb with rfl | hb
    · exact ⟨a, by simp [List.zip_cons_cons]⟩
    · obtain ⟨a2, ha2⟩ := zip_exists_left (by simpa using h) b hb
      exact ⟨a2, by rw [List.zip_cons_cons]; exact List.mem_cons_of_mem _ ha2⟩

/-- Distinct conflict values get distinct returned surrogate ids (over a
table with distinct ids). -/
theorem rowed_rets_rid_nodup (hL : UpsertLaws s) :
    ∀ {rows R : List α} {t : List α}, RetsRowed s t rows R →
    (rows.map s.key).Nodup → (t.map s.rid).Nodup → (R.map s.rid).Nodup := by
  intro rows
  induction rows with
  | nil =>
    intro R t h _ _
    obtain ⟨hlen, _⟩ := h
    have : R = [] := List.eq_nil_of_length_eq_zero (by simpa using hlen.symm)
    simp [this]
  | cons x xs ih =>
    intro R t h hnd htnd
    obtain ⟨hlen, hall⟩ := h
    cases R with
    | nil => exact absurd hlen (by simp)
    | cons r rs =>
      have hxs : RetsRowed s t xs rs := by
        refine ⟨by simpa using hlen, fun pr hpr => hall pr ?_⟩
        rw [List.zip_cons_cons]
        exact List.mem_cons_of_mem _ hpr
      have hnd1 : s.key x ∉ xs.map s.key := by
        simp only [List.map_cons, List.nodup_cons] at hnd
        exact hnd.1
      have hnd2 : (xs.map s.key).Nodup := by
        simp only [List.map_cons, List.nodup_cons] at hnd
        exact hnd.2
      rw [List.map_cons, List.nodup_cons]
      refine ⟨?_, ih hxs hnd2 htnd⟩
      intro hmemr
      obtain ⟨r2, hr2, hr2rid⟩ := List.mem_map.mp hmemr
      obtain ⟨x2, hx2⟩ := zip_exists_left (by simpa using hlen) r2 hr2
      obtain ⟨row1, hm1, hrid1, hkey1, _⟩ := hall (x, r)
        (by rw [List.zip_cons_cons]; exact List.mem_cons_self _ _)
      obtain ⟨row2, hm2, hrid2, hkey2, _⟩ := hall (x2, r2)
        (by rw [List.zip_cons_cons]; exact List.mem_cons_of_mem _ hx2)
      have hx2mem : x2 ∈ xs := (List.of_mem_zip hx2).1
      have hroweq : row1 = row2 :=
        List.inj_on_of_nodup_map htnd hm1 hm2 (by rw [hrid1, hrid2, hr2rid])
      have : s.key x = s.key x2 := by
        rw [hroweq] at hkey1
        exact hkey1.symm.trans hkey2
      exact hnd1 (this ▸ List.mem_map_of_mem s.key hx2mem)

/-- The row an upsert returns carries the conflict value of its input row. -/
theorem upsert1_ret_key (hL : UpsertLaws s) (t : List α) (n : Nat) (x : α) :
    s.key (upsert1 s t n x).ret = s.key x := by
  unfold upsert1
  cases hu : updateFirstMatch (umP s x) (umU s x) t with
  | some pr =>
    obtain ⟨t2, r0⟩ := pr
    exact hL.key_withID x (s.rid r0)
  | none => exact hL.key_withID x n

/-- Every returned row of a batch carries the conflict value of some input
row. -/
theorem batch_rets_keys (hL : UpsertLaws s) :
    ∀ (rows : List α) (t : List α) (n : Nat), ∀ r ∈ (batchUpsert s t n rows).rets,
    ∃ x ∈ rows, s.key r = s.key x
  | [], _, _, r, hr => absurd hr (by simp [batchUpsert])
  | x :: xs, t, n, r, hr => by
    have hh : (batchUpsert s t n (x :: xs)).rets =
        (upsert1 s t n x).ret ::
          (batchUpsert s (upsert1 s t n x).table (upsert1 s t n x).next xs).rets := rfl
    rw [hh] at hr
    rcases List.mem_cons.mp hr with rfl | hr2
    · exact ⟨x, List.mem_cons_self _ _, upsert1_ret_key hL t n x⟩
    · obtain ⟨y, hy, hk⟩ := batch_rets_keys hL xs _ _ r hr2
      exact ⟨y, List.mem_cons_of_mem _ hy, hk⟩

end Stability

/-! ## Decoded input (`TxDBWrapper` and friends; shapes per spec §3/§6) -/

/-- One decoded attribute, carrying its decoder-supplied key row. -/
structure AttributeInput where
  index : Int
  value : String
  messageEventAttributeKey : MessageEventAttributeKey
  deriving DecidableEq

/-- One decoded message event with its attributes. -/
structure MessageEventDBWrapper where
  index : Int
  messageEventType : MessageEventType
  attributes : List AttributeInput
  deriving DecidableEq

/-- One decoded message with its events. -/
structure MessageDBWrapper where
  messageIndex : Int
  messageType : MessageType
  messageEvents : List MessageEventDBWrapper
  deriving DecidableEq

/-- One decoded transaction plus its per-transaction dedup maps. -/
structure TxDBWrapper where
  tx : Tx
  messages : List MessageDBWrapper
  uniqueMessageTypes : List (String × MessageType)
  uniqueMessageEventTypes : List (String × MessageEventType)
  uniqueMessageAttributeKeys : List (String × MessageEventAttributeKey)
  deriving DecidableEq

/-! ## Store operations of `IndexNewBlock` -/

/-- Injected store failures, one flag per write statement (spec §7(c)). -/
structure Faults where
  failDeleteFailedBlocks : Bool
  failBlockUpsert : Bool
  failTxCreate : Bool
  failMessageTypeCreate : Bool
  failMessageEventTypeCreate : Bool
  failAttributeKeyCreate : Bool
  failMessageCreate : Bool
  failMessageEventCreate : Bool
  failAttributeCreate : Bool
  deriving DecidableEq

/-- A healthy store. -/
def noFaults : Faults := ⟨false, false, false, false, false, false, false, false, false⟩

/-- Only the message-event-attribute batch insert fails (spec §8,
*Atomicity*). -/
def attrFault : Faults := ⟨false, false, false, false, false, false, false, false, true⟩

/-- One tag per executed batch-`Create` round-trip to the store. -/
inductive Op where
  | createTxs
  | createMessageTypes
  | createMessageEventTypes
  | createMessageEventAttributeKeys
  | createMessages
  | createMessageEvents
  | createMessageEventAttributes
  deriving DecidableEq

/-- Result of one guarded batch create: new store state, executed
round-trips, backfilled rows. -/
structure StepOut (α : Type) where
  db : DB
  ops : List Op
  rets : List α
  deriving DecidableEq

/-- Conflict clause of db.go 259-261: target `hash`, refresh
`code, block_id, signer_address_id`. -/
def txSpec : UpsertSpec Tx String :=
  ⟨Tx.hash,
   fun r x => { r with code := x.code, blockID := x.blockID,
                       signerAddressID := x.signerAddressID },
   fun x n => { x with id := n }, Tx.id⟩

/-- Conflict clause of db.go 470-472: target `message_type`, refresh
`message_type` (a content no-op used to obtain the key). -/
def mtSpec : UpsertSpec MessageType String :=
  ⟨MessageType.messageType, fun r x => { r with messageType := x.messageType },
   fun x n => { x with id := n }, MessageType.id⟩

/-- Conflict clause of db.go 501-503: target `type`, refresh `type`. -/
def etSpec : UpsertSpec MessageEventType String :=
  ⟨MessageEventType.typ, fun r x => { r with typ := x.typ },
   fun x n => { x with id := n }, MessageEventType.id⟩

/-- Conflict clause of db.go 533-535: target `key`, refresh `key`. -/
def akSpec : UpsertSpec MessageEventAttributeKey String :=
  ⟨MessageEventAttributeKey.key, fun r x => { r with key := x.key },
   fun x n => { x with id := n }, MessageEventAttributeKey.id⟩

/-- Conflict clause of db.go 316-318: target `(tx_id, message_index)`,
refresh `message_type_id`. -/
def msgSpec : UpsertSpec Message (Nat × Int) :=
  ⟨fun m => (m.txID, m.messageIndex),
   fun r x => { r with messageTypeID := x.messageTypeID },
   fun x n => { x with id := n }, Message.id⟩

/-- Conflict clause of db.go 336-338: target `(message_id, index)`, refresh
`message_event_type_id`. -/
def evSpec : UpsertSpec MessageEvent (Nat × Int) :=
  ⟨fun e => (e.messageID, e.index),
   fun r x => { r with messageEventTypeID := x.messageEventTypeID },
   fun x n => { x with id := n }, MessageEvent.id⟩

/-- Conflict clause of db.go 358-360: target `(message_event_id, index)`,
refresh `value, message_event_attribute_key_id`. -/
def attrSpec : UpsertSpec MessageEventAttribute (Nat × Int) :=
  ⟨fun a => (a.messageEventID, a.index),
   fun r x => { r with value := x.value,
                       messageEventAttributeKeyID := x.messageEventAttributeKeyID },
   fun x n => { x with id := n }, MessageEventAttribute.id⟩

theorem txLaws : UpsertLaws txSpec :=
  ⟨fun r x h => rfl, fun x n => rfl, fun r x => rfl, fun x n => rfl,
   fun x n => rfl, fun r a b => rfl⟩

theorem mtLaws : UpsertLaws mtSpec :=
  ⟨fun r x h => h.symm, fun x n => rfl, fun r x => rfl, fun x n => rfl,
   fun x n => rfl, fun r a b => rfl⟩

theorem etLaws : UpsertLaws etSpec :=
  ⟨fun r x h => h.symm, fun x n => rfl, fun r x => rfl, fun x n => rfl,
   fun x n => rfl, fun r a b => rfl⟩

theorem akLaws : UpsertLaws akSpec :=
  ⟨fun r x h => h.symm, fun x n => rfl, fun r x => rfl, fun x n => rfl,
   fun x n => rfl, fun r a b => rfl⟩

theorem msgLaws : UpsertLaws msgSpec :=
  ⟨fun r x h => rfl, fun x n => rfl, fun r x => rfl, fun x n => rfl,
   fun x n => rfl, fun r a b => rfl⟩

theorem evLaws : UpsertLaws evSpec :=
  ⟨fun r x h => rfl, fun x n => rfl, fun r x => rfl, fun x n => rfl,
   fun x n => rfl, fun r a b => rfl⟩

theorem attrLaws : UpsertLaws attrSpec :=
  ⟨fun r x h => rfl, fun x n => rfl, fun r x => rfl, fun x n => rfl,
   fun x n => rfl, fun r a b => rfl⟩

/-- db.go 258-266: the Tx batch insert, skipped for an empty slice. -/
def createTxs (flag : Bool) (db : DB) (rows : List Tx) : Except String (StepOut Tx) :=
  if rows.isEmpty then .ok ⟨db, [], []⟩
  else if flag then .error "tx create failed"
  else
    let b := batchUpsert txSpec db.txs db.nextID rows
    .ok ⟨{ db with txs := b.table, nextID := b.next }, [.createTxs], b.rets⟩

/-- db.go 469-477: the MessageType batch insert. -/
def createMessageTypes (flag : Bool) (db : DB) (rows : List MessageType) :
    Except String (StepOut MessageType) :=
  if rows.isEmpty then .ok ⟨db, [], []⟩
  else if flag then .error "message type create failed"
  else
    let b := batchUpsert mtSpec db.messageTypes db.nextID rows
    .ok ⟨{ db with messageTypes := b.table, nextID := b.next },
      [.createMessageTypes], b.rets⟩

/-- db.go 500-508: the MessageEventType batch insert. -/
def createMessageEventTypes (flag : Bool) (db : DB) (rows : List MessageEventType) :
    Except String (StepOut MessageEventType) :=
  if rows.isEmpty then .ok ⟨db, [], []⟩
  else if flag then .error "message event type create failed"
  else
    let b := batchUpsert etSpec db.messageEventTypes db.nextID rows
    .ok ⟨{ db with messageEventTypes := b.table, nextID := b.next },
      [.createMessageEventTypes], b.rets⟩

/-- db.go 532-540: the MessageEventAttributeKey batch insert. -/
def createMessageEventAttributeKeys (flag : Bool) (db : DB)
    (rows : List MessageEventAttributeKey) :
    Except String (StepOut MessageEventAttributeKey) :=
  if rows.isEmpty then .ok ⟨db, [], []⟩
  else if flag then .error "attribute key create failed"
  else
    let b := batchUpsert akSpec db.messageEventAttributeKeys db.nextID rows
    .ok ⟨{ db with messageEventAttributeKeys := b.table, nextID := b.next },
      [.createMessageEventAttributeKeys], b.rets⟩

/-- Modelled from the spec (§7(b)/(d)): the store rejects a message whose
`message_type_id` names no `message_types` row (the `models` schema is not
under `src/`; id `0` — the Go zero value of a missed map lookup — never
names a row). -/
def messageFKOk (db : DB) (rows : List Message) : Bool :=
  rows.all (fun m => db.messageTypes.any (fun mt => mt.id == m.messageTypeID))

/-- Modelled from the spec (§7(b)/(d)): `message_event_type_id` must name an
existing row. -/
def eventFKOk (db : DB) (rows : List MessageEvent) : Bool :=
  rows.all (fun e => db.messageEventTypes.any (fun et => et.id == e.messageEventTypeID))

/-- Modelled from the spec (§7(b)/(d)): `message_event_attribute_key_id`
must name an existing row. -/
def attrFKOk (db : DB) (rows : List MessageEventAttribute) : Bool :=
  rows.all (fun a =>
    db.messageEventAttributeKeys.any (fun ak => ak.id == a.messageEventAttributeKeyID))

/-- db.go 315-323: the per-transaction Message batch insert. -/
def createMessages (flag : Bool) (db : DB) (rows : List Message) :
    Except String (StepOut Message) :=
  if rows.isEmpty then .ok ⟨db, [], []⟩
  else if flag then .error "message create failed"
  else if messageFKOk db rows then
    let b := batchUpsert msgSpec db.messages db.nextID rows
    .ok ⟨{ db with messages := b.table, nextID := b.next }, [.createMessages], b.rets⟩
  else .error "message type foreign key violation"

/-- db.go 335-343: the per-transaction MessageEvent batch insert. -/
def createMessageEvents (flag : Bool) (db : DB) (rows : List MessageEvent) :
    Except String (StepOut MessageEvent) :=
  if rows.isEmpty then .ok ⟨db, [], []⟩
  else if flag then .error "message event create failed"
  else if eventFKOk db rows then
    let b := batchUpsert evSpec db.messageEvents db.nextID rows
    .ok ⟨{ db with messageEvents := b.table, nextID := b.next },
      [.createMessageEvents], b.rets⟩
  else .error "message event type foreign key violation"

/-- db.go 357-365: the per-transaction MessageEventAttribute batch insert. -/
def createMessageEventAttributes (flag : Bool) (db : DB)
    (rows : List MessageEventAttribute) :
    Except String (StepOut MessageEventAttribute) :=
  if rows.isEmpty then .ok ⟨db, [], []⟩
  else if flag then .error "message event attribute create failed"
  else if attrFKOk db rows then
    let b := batchUpsert attrSpec db.messageEventAttributes db.nextID rows
    .ok ⟨{ db with messageEventAttributes := b.table, nextID := b.next },
      [.createMessageEventAttributes], b.rets⟩
  else .error "attribute key foreign key violation"

/-- `Except` sequencing: the `if err != nil { return err }` pattern of the
source. -/
def ebind {alpha beta : Type} (x : Except String alpha) (f : alpha → Except String beta) :
    Except String beta :=
  match x with
  | .error e => .error e
  | .ok a => f a

@[simp] theorem ebind_ok {alpha beta : Type} (a : alpha) (f : alpha → Except String beta) :
    ebind (.ok a) f = f a := rfl

@[simp] theorem ebind_error {alpha beta : Type} (e : String)
    (f : alpha → Except String beta) : ebind (.error e) f = .error e := rfl

/-! ## The reference-data deduplicator (db.go 456-547) -/

/-- The block-wide merged map of db.go 457-462 (per-tx maps merged with
later-value overwrite). -/
def mergedMessageTypes (txs : List TxDBWrapper) : List (String × MessageType) :=
  txs.foldl (fun m w =>
    w.uniqueMessageTypes.foldl (fun m2 kv => assocUpd m2 kv.1 kv.2) m) []

def mergedMessageEventTypes (txs : List TxDBWrapper) : List (String × MessageEventType) :=
  txs.foldl (fun m w =>
    w.uniqueMessageEventTypes.foldl (fun m2 kv => assocUpd m2 kv.1 kv.2) m) []

def mergedMessageAttributeKeys (txs : List TxDBWrapper) :
    List (String × MessageEventAttributeKey) :=
  txs.foldl (fun m w =>
    w.uniqueMessageAttributeKeys.foldl (fun m2 kv => assocUpd m2 kv.1 kv.2) m) []

/-- db.go 456-484 (`indexMessageTypes`): merge, one guarded batch create,
re-key the returned rows into the map. -/
def indexMessageTypes (flag : Bool) (db : DB) (txs : List TxDBWrapper) :
    Except String (DB × List Op × List (String × MessageType)) :=
  ebind (createMessageTypes flag db ((mergedMessageTypes txs).map Prod.snd)) (fun out =>
    .ok (out.db, out.ops,
      out.rets.foldl (fun m mt => assocUpd m mt.messageType mt) (mergedMessageTypes txs)))

/-- db.go 486-516 (`indexMessageEventTypes`). -/
def indexMessageEventTypes (flag : Bool) (db : DB) (txs : List TxDBWrapper) :
    Except String (DB × List Op × List (String × MessageEventType)) :=
  ebind (createMessageEventTypes flag db ((mergedMessageEventTypes txs).map Prod.snd))
    (fun out => .ok (out.db, out.ops,
      out.rets.foldl (fun m et => assocUpd m et.typ et) (mergedMessageEventTypes txs)))

/-- db.go 518-547 (`indexMessageEventAttributeKeys`). -/
def indexMessageEventAttributeKeys (flag : Bool) (db : DB) (txs : List TxDBWrapper) :
    Except String (DB × List Op × List (String × MessageEventAttributeKey)) :=
  ebind (createMessageEventAttributeKeys flag db
      ((mergedMessageAttributeKeys txs).map Prod.snd))
    (fun out => .ok (out.db, out.ops,
      out.rets.foldl (fun m ak => assocUpd m ak.key ak) (mergedMessageAttributeKeys txs)))

/-! ## The block upsert and the per-transaction loop -/

/-- gorm struct condition `models.Block{Height, ChainID}` of db.go 237;
zero-valued struct fields are skipped by gorm. -/
def blockWhereMatches (h : Int) (c : Nat) (b : Block) : Bool :=
  (h == 0 || b.height == h) && (c == 0 || b.chainID == c)

/-- The `Assign` attributes of db.go 238. -/
def blockAssign (t : Nat) (b : Block) : Block :=
  { b with txIndexed := true, timeStamp := t }

/-- db.go 234-242: `Where(...).Assign(TxIndexed, TimeStamp).FirstOrCreate`. -/
def blockFirstOrCreate (db : DB) (h : Int) (t : Nat) (c : Nat) : DB × Block :=
  match updateFirstMatch (blockWhereMatches h c) (blockAssign t) db.blocks with
  | some (bs, b) => ({ db with blocks := bs }, b)
  | none =>
    let nb : Block := ⟨db.nextID, h, c, t, true, false⟩
    ({ db with blocks := db.blocks ++ [nb], nextID := db.nextID + 1 }, nb)

/-- db.go 245-256: `uniqueTxes` keyed by hash, block id attached (fees are
nil-ed at line 254; the modelled `Tx` row carries none). -/
def uniqueTxList (txs : List TxDBWrapper) (blockID : Nat) : List (String × Tx) :=
  txs.foldl (fun m w => assocUpd m w.tx.hash { w.tx with blockID := blockID }) []

/-- The three block-wide reference maps after dedup (output of spec §4.1). -/
structure RefMaps where
  mt : List (String × MessageType)
  et : List (String × MessageEventType)
  ak : List (String × MessageEventAttributeKey)
  deriving DecidableEq

/-- db.go 296-301: a message row with tx id and resolved type id attached (a
missed map lookup yields the Go zero value, id 0). -/
def buildMessageRow (txID : Nat) (mtMap : List (String × MessageType))
    (mw : MessageDBWrapper) : Message :=
  ⟨0, txID, ((assocFind mtMap mw.messageType.messageType).getD zeroMessageType).id,
    mw.messageIndex⟩

/-- db.go 302-304 and 328: an event row with message id and resolved event
type id attached. -/
def buildEventRow (messageID : Nat) (etMap : List (String × MessageEventType))
    (ew : MessageEventDBWrapper) : MessageEvent :=
  ⟨0, messageID, ((assocFind etMap ew.messageEventType.typ).getD zeroMessageEventType).id,
    ew.index⟩

/-- db.go 306-308 and 349: an attribute row with event id and resolved key
id attached. -/
def buildAttrRow (eventID : Nat) (akMap : List (String × MessageEventAttributeKey))
    (aw : AttributeInput) : MessageEventAttribute :=
  ⟨0, eventID,
    ((assocFind akMap aw.messageEventAttributeKey.key).getD zeroMessageEventAttributeKey).id,
    aw.index, aw.value⟩

/-- db.go 293-366: one iteration of the per-transaction loop — the message
batch, then (with ids backfilled into the wrappers) the event batch, then
the attribute batch.  The backfilled ids are the returned rows zipped
positionally with the wrappers they were built from. -/
def msgRowsOf (uniq : List (String × Tx)) (maps : RefMaps) (w : TxDBWrapper) :
    List Message :=
  w.messages.map (buildMessageRow ((assocFind uniq w.tx.hash).getD zeroTx).id maps.mt)

/-- The per-message-row event groups of db.go 325-333: each event row (with
its backfilled message id) paired with its decoded attribute list. -/
def evGroupsOf (maps : RefMaps) (rets : List Message) (w : TxDBWrapper) :
    List (MessageEvent × List AttributeInput) :=
  (rets.zip w.messages).flatMap
    (fun p => p.2.messageEvents.map
      (fun ew => (buildEventRow p.1.id maps.et ew, ew.attributes)))

/-- The attribute rows of db.go 345-355, from the backfilled event ids. -/
def attrRowsOf (maps : RefMaps) (evRets : List MessageEvent)
    (evGroups : List (MessageEvent × List AttributeInput)) :
    List MessageEventAttribute :=
  (evRets.zip (evGroups.map Prod.snd)).flatMap
    (fun p => p.2.map (buildAttrRow p.1.id maps.ak))

def persistOneTx (f : Faults) (uniq : List (String × Tx)) (maps : RefMaps)
    (db : DB) (w : TxDBWrapper) : Except String (DB × List Op) :=
  ebind (createMessages f.failMessageCreate db (msgRowsOf uniq maps w)) (fun o1 =>
    ebind (createMessageEvents f.failMessageEventCreate o1.db
        ((evGroupsOf maps o1.rets w).map Prod.fst)) (fun o2 =>
      ebind (createMessageEventAttributes f.failAttributeCreate o2.db
          (attrRowsOf maps o2.rets (evGroupsOf maps o1.rets w))) (fun o3 =>
        .ok (o3.db, o1.ops ++ o2.ops ++ o3.ops))))

/-- The loop of db.go 293-366 over all decoded transactions. -/
def txLoop (f : Faults) (uniq : List (String × Tx)) (maps : RefMaps) :
    DB → List Op → List TxDBWrapper → Except String (DB × List Op)
  | db, ops, [] => .ok (db, ops)
  | db, ops, w :: ws =>
    ebind (persistOneTx f uniq maps db w)
      (fun o => txLoop f uniq maps o.1 (ops ++ o.2) ws)

/-- The row filter of the raw `DELETE` at db.go 228 (rows that survive). -/
def fbKeep (blockHeight : Int) (dbChainID : Nat) (fb : FailedBlock) : Bool :=
  !(fb.height == blockHeight && fb.blockchainID == dbChainID)

/-- db.go 221-454 (`IndexNewBlock`): the body of the enclosing
`db.Transaction` — delete the failure marker, upsert the block, batch-upsert
unique transactions, dedup reference data, then the per-transaction loop.
Returns the new store state and the executed batch round-trips, or the
error that aborts the transaction. -/
def IndexNewBlockT (f : Faults) (db : DB) (blockHeight : Int) (blockTime : Nat)
    (txs : List TxDBWrapper) (dbChainID : Nat) : Except String (DB × List Op) :=
  -- db.go 227-232: DELETE FROM failed_blocks WHERE height = ? AND blockchain_id = ?
  if f.failDeleteFailedBlocks then .error "delete failed blocks failed"
  else
    let db1 := { db with
      failedBlocks := db.failedBlocks.filter (fbKeep blockHeight dbChainID) }
    if f.failBlockUpsert then .error "block upsert failed"
    else
      let pb := blockFirstOrCreate db1 blockHeight blockTime dbChainID
      let uniq0 := uniqueTxList txs pb.2.id
      ebind (createTxs f.failTxCreate pb.1 (uniq0.map Prod.snd)) (fun ot =>
        -- db.go 268-270: refresh uniqueTxes from the backfilled slice
        ebind (indexMessageTypes f.failMessageTypeCreate ot.db txs) (fun om =>
          ebind (indexMessageEventTypes f.failMessageEventTypeCreate om.1 txs) (fun oe =>
            ebind (indexMessageEventAttributeKeys f.failAttributeKeyCreate oe.1 txs)
              (fun oa =>
                txLoop f (ot.rets.foldl (fun m t => assocUpd m t.hash t) uniq0)
                  ⟨om.2.2, oe.2.2, oa.2.2⟩ oa.1
                  (ot.ops ++ om.2.1 ++ oe.2.1 ++ oa.2.1) txs))))

/-- The committed store state: `db.Transaction` (db.go 225) rolls everything
back when the body returns an error. -/
def IndexNewBlock (f : Faults) (db : DB) (blockHeight : Int) (blockTime : Nat)
    (txs : List TxDBWrapper) (dbChainID : Nat) : DB :=
  match IndexNewBlockT f db blockHeight blockTime txs dbChainID with
  | .ok o => o.1
  | .error _ => db

/-! ## Queries (gap tracker) and the failure marker -/

/-- `ORDER BY height desc ... LIMIT 1` over a non-empty candidate list:
the row of maximal height, earliest (primary-key order) among ties. -/
def pickHighest (c : Block) (cs : List Block) : Block :=
  cs.foldl (fun best b => if best.height < b.height then b else best) c

/-- db.go 146-151 (`GetHighestIndexedBlock`): highest `tx_indexed = true`
block with non-sentinel timestamp for the chain; the zero `models.Block`
when no row matches (the query error is ignored). -/
def GetHighestIndexedBlock (db : DB) (chainID : Nat) : Block :=
  match db.blocks.filter
      (fun b => b.chainID == chainID && b.txIndexed && b.timeStamp != 0) with
  | [] => zeroBlock
  | c :: cs => pickHighest c cs

/-- db.go 169-179 (`GetHighestEventIndexedBlock`): as above but gated on
`block_events_indexed`; `ErrRecordNotFound` is mapped to the zero block. -/
def GetHighestEventIndexedBlock (db : DB) (chainID : Nat) : Block :=
  match db.blocks.filter
      (fun b => b.chainID == chainID && b.blockEventsIndexed && b.timeStamp != 0) with
  | [] => zeroBlock
  | c :: cs => pickHighest c cs

/-- db.go 181-185 (`BlockEventsAlreadyIndexed`): `count(*) > 0`. -/
def BlockEventsAlreadyIndexed (blockHeight : Int) (chainID : Nat) (db : DB) : Bool :=
  db.blocks.any (fun b =>
    b.height == blockHeight && b.chainID == chainID && b.blockEventsIndexed &&
      b.timeStamp != 0)

/-- The `NOT EXISTS` subquery of db.go 126. -/
def blockIndexedAt (db : DB) (chainID : Nat) (h : Int) : Bool :=
  db.blocks.any (fun b =>
    b.height == h && b.chainID == chainID && b.txIndexed && b.timeStamp != 0)

/-- `generate_series(s, e)`: the inclusive integer range, empty if `s > e`. -/
def generateSeries (s e : Int) : List Int :=
  (List.range (e + 1 - s).toNat).map (fun (i : Nat) => s + (i : Int))

/-- The `end` bound actually scanned by `GetFirstMissingBlockInRange`
(db.go 119-121): replaced by `highestIndexed + 1` whenever the latter
exceeds... precisely, whenever `currMax.Height > start`. -/
def scanEnd (db : DB) (start stop : Int) (chainID : Nat) : Int :=
  if (GetHighestIndexedBlock db chainID).height > start then
    (GetHighestIndexedBlock db chainID).height + 1
  else stop

/-- db.go 114-136 (`GetFirstMissingBlockInRange`): first height in the
scanned series with no indexed block row; `start` when the query returns no
row. -/
def GetFirstMissingBlockInRange (db : DB) (start stop : Int) (chainID : Nat) : Int :=
  match (generateSeries start (scanEnd db start stop chainID)).find?
      (fun i => !(blockIndexedAt db chainID i)) with
  | some m => m
  | none => start

/-- gorm struct condition `Where(&failedBlock.Chain)` of db.go 191 —
zero-valued (empty-string) fields are skipped. -/
def chainWhereMatches (cid cname : String) (ch : Chain) : Bool :=
  (cid == "" || ch.chainID == cid) && (cname == "" || ch.name == cname)

/-- db.go 196: `FirstOrCreate` of the failure marker.  Modelled from the
spec (§4.3, §3): the marker is keyed by `(chain, height)` and the insert is
idempotent; the `models` schema is not under `src/`. -/
def upsertFailedMarker (db : DB) (chid : Nat) (h : Int) : DB :=
  if db.failedBlocks.any (fun fb => fb.height == h && fb.blockchainID == chid) then db
  else { db with
    failedBlocks := db.failedBlocks ++ [⟨db.nextID, h, chid⟩],
    nextID := db.nextID + 1 }

/-- db.go 187-202 (`UpsertFailedBlock`): ensure the chain row exists, then
the failure marker, in one transaction (no failure case is modelled: both
statements are create-if-absent). -/
def UpsertFailedBlock (db : DB) (blockHeight : Int) (chainID chainName : String) : DB :=
  match db.chains.find? (chainWhereMatches chainID chainName) with
  | some ch => upsertFailedMarker db ch.id blockHeight
  | none =>
    upsertFailedMarker
      { db with chains := db.chains ++ [⟨db.nextID, chainID, chainName⟩],
                nextID := db.nextID + 1 }
      db.nextID blockHeight

/-! ## Invariants -/

/-- Store invariant: a positive id sequence; per table, ids pairwise
distinct, positive and below the sequence value. -/
structure DBWF (db : DB) : Prop where
  nextPos : 1 ≤ db.nextID
  txsWF : TableWF txSpec db.txs db.nextID
  txsPos : TablePos txSpec db.txs
  mtWF : TableWF mtSpec db.messageTypes db.nextID
  mtPos : TablePos mtSpec db.messageTypes
  etWF : TableWF etSpec db.messageEventTypes db.nextID
  etPos : TablePos etSpec db.messageEventTypes
  akWF : TableWF akSpec db.messageEventAttributeKeys db.nextID
  akPos : TablePos akSpec db.messageEventAttributeKeys
  msgWF : TableWF msgSpec db.messages db.nextID
  msgPos : TablePos msgSpec db.messages
  evWF : TableWF evSpec db.messageEvents db.nextID
  evPos : TablePos evSpec db.messageEvents
  attrWF : TableWF attrSpec db.messageEventAttributes db.nextID
  attrPos : TablePos attrSpec db.messageEventAttributes

/-- Decoder sanity (spec §4.1/§6): dedup maps are keyed by their value's
natural key, hashes are unique within the block, and indexes are unique
within their parent — as the RPC decoder produces them.  (Within-batch
duplicate conflict values would make real Postgres reject the statement; see
the header note.) -/
structure InputOK (txs : List TxDBWrapper) : Prop where
  hashesNodup : (txs.map (fun w => w.tx.hash)).Nodup
  msgIdxNodup : ∀ w ∈ txs, (w.messages.map (fun m => m.messageIndex)).Nodup
  evIdxNodup : ∀ w ∈ txs, ∀ m ∈ w.messages,
    (m.messageEvents.map (fun e => e.index)).Nodup
  atIdxNodup : ∀ w ∈ txs, ∀ m ∈ w.messages, ∀ e ∈ m.messageEvents,
    (e.attributes.map (fun a => a.index)).Nodup
  mtCoherent : ∀ w ∈ txs, ∀ p ∈ w.uniqueMessageTypes, p.2.messageType = p.1
  etCoherent : ∀ w ∈ txs, ∀ p ∈ w.uniqueMessageEventTypes, p.2.typ = p.1
  akCoherent : ∀ w ∈ txs, ∀ p ∈ w.uniqueMessageAttributeKeys, p.2.key = p.1

/-! ## Lemmas about the gap-tracker queries -/

theorem pickHighest_mem : ∀ (cs : List Block) (c : Block), pickHighest c cs ∈ c :: cs
  | [], c => List.mem_cons_self _ _
  | d :: ds, c => by
    show pickHighest (if c.height < d.height then d else c) ds ∈ c :: d :: ds
    have hm := pickHighest_mem ds (if c.height < d.height then d else c)
    by_cases h : c.height < d.height
    · rw [if_pos h] at hm ⊢
      exact List.mem_cons_of_mem _ hm
    · rw [if_neg h] at hm ⊢
      rcases List.mem_cons.mp hm with he | he
      · exact List.mem_cons.mpr (Or.inl he)
      · exact List.mem_cons_of_mem _ (List.mem_cons_of_mem _ he)

theorem pickHighest_ge : ∀ (cs : List Block) (c : Block), ∀ b ∈ c :: cs,
    b.height ≤ (pickHighest c cs).height
  | [], c, b, hb => by
    rcases List.mem_cons.mp hb with he | he
    · rw [he]
      exact le_refl _
    · exact absurd he (by simp)
  | d :: ds, c, b, hb => by
    show b.height ≤ (pickHighest (if c.height < d.height then d else c) ds).height
    have ihc := pickHighest_ge ds (if c.height < d.height then d else c)
      (if c.height < d.height then d else c) (List.mem_cons_self _ _)
    rcases List.mem_cons.mp hb with he | he
    · -- b = c
      rw [he]
      refine le_trans ?_ ihc
      by_cases h : c.height < d.height
      · rw [if_pos h]; exact le_of_lt h
      · rw [if_neg h]
    · rcases List.mem_cons.mp he with he2 | he2
      · -- b = d
        rw [he2]
        refine le_trans ?_ ihc
        by_cases h : c.height < d.height
        · rw [if_pos h]
        · rw [if_neg h]; exact le_of_not_lt h
      · exact pickHighest_ge ds _ b (List.mem_cons_of_mem _ he2)

theorem ghib_spec (db : DB) (c : Nat) :
    GetHighestIndexedBlock db c = zeroBlock ∨
      (GetHighestIndexedBlock db c ∈ db.blocks ∧
       (GetHighestIndexedBlock db c).chainID = c ∧
       (GetHighestIndexedBlock db c).txIndexed = true ∧
       (GetHighestIndexedBlock db c).timeStamp ≠ 0) := by
  unfold GetHighestIndexedBlock
  cases hf : db.blocks.filter
      (fun b => b.chainID == c && b.txIndexed && b.timeStamp != 0) with
  | nil => exact Or.inl rfl
  | cons a as =>
    refine Or.inr ?_
    have hmem : pickHighest a as ∈ a :: as := pickHighest_mem as a
    have h2 : pickHighest a as ∈ db.blocks.filter
        (fun b => b.chainID == c && b.txIndexed && b.timeStamp != 0) := by
      rw [hf]; exact hmem
    have h3 := List.mem_filter.mp h2
    have h4 : (pickHighest a as).chainID = c ∧ (pickHighest a as).txIndexed = true ∧
        (pickHighest a as).timeStamp ≠ 0 := by
      simpa [Bool.and_eq_true, beq_iff_eq, bne_iff_ne, and_assoc] using h3.2
    exact ⟨h3.1, h4.1, h4.2.1, h4.2.2⟩

theorem gheib_spec (db : DB) (c : Nat) :
    GetHighestEventIndexedBlock db c = zeroBlock ∨
      (GetHighestEventIndexedBlock db c ∈ db.blocks ∧
       (GetHighestEventIndexedBlock db c).chainID = c ∧
       (GetHighestEventIndexedBlock db c).blockEventsIndexed = true ∧
       (GetHighestEventIndexedBlock db c).timeStamp ≠ 0) := by
  unfold GetHighestEventIndexedBlock
  cases hf : db.blocks.filter
      (fun b => b.chainID == c && b.blockEventsIndexed && b.timeStamp != 0) with
  | nil => exact Or.inl rfl
  | cons a as =>
    refine Or.inr ?_
    have hmem : pickHighest a as ∈ a :: as := pickHighest_mem as a
    have h2 : pickHighest a as ∈ db.blocks.filter
        (fun b => b.chainID == c && b.blockEventsIndexed && b.timeStamp != 0) := by
      rw [hf]; exact hmem
    have h3 := List.mem_filter.mp h2
    have h4 : (pickHighest a as).chainID = c ∧ (pickHighest a as).blockEventsIndexed = true ∧
        (pickHighest a as).timeStamp ≠ 0 := by
      simpa [Bool.and_eq_true, beq_iff_eq, bne_iff_ne, and_assoc] using h3.2
    exact ⟨h3.1, h4.1, h4.2.1, h4.2.2⟩

theorem ghib_max (db : DB) (c : Nat) :
    ∀ b ∈ db.blocks, b.chainID = c → b.txIndexed = true → b.timeStamp ≠ 0 →
    b.height ≤ (GetHighestIndexedBlock db c).height := by
  intro b hb h1 h2 h3
  have hmem : b ∈ db.blocks.filter
      (fun b => b.chainID == c && b.txIndexed && b.timeStamp != 0) :=
    List.mem_filter.mpr ⟨hb, by simp [h1, h2, bne_iff_ne, h3]⟩
  unfold GetHighestIndexedBlock
  cases hf : db.blocks.filter
      (fun b => b.chainID == c && b.txIndexed && b.timeStamp != 0) with
  | nil => rw [hf] at hmem; exact absurd hmem (by simp)
  | cons a as =>
    rw [hf] at hmem
    exact pickHighest_ge as a b hmem

theorem beai_iff (h : Int) (c : Nat) (db : DB) :
    BlockEventsAlreadyIndexed h c db = true ↔
      ∃ b ∈ db.blocks, b.height = h ∧ b.chainID = c ∧
        b.blockEventsIndexed = true ∧ b.timeStamp ≠ 0 := by
  unfold BlockEventsAlreadyIndexed
  rw [List.any_eq_true]
  constructor
  · rintro ⟨b, hb, hp⟩
    simp only [Bool.and_eq_true, beq_iff_eq, bne_iff_ne] at hp
    exact ⟨b, hb, hp.1.1.1, hp.1.1.2, hp.1.2, hp.2⟩
  · rintro ⟨b, hb, h1, h2, h3, h4⟩
    exact ⟨b, hb, by simp [h1, h2, h3, bne_iff_ne, h4]⟩

/-! ## Lemmas about the series scan -/

theorem mem_generateSeries {s e i : Int} : i ∈ generateSeries s e ↔ s ≤ i ∧ i ≤ e := by
  unfold generateSeries
  rw [List.mem_map]
  constructor
  · rintro ⟨j, hj, rfl⟩
    rw [List.mem_range] at hj
    by_cases hle : 0 ≤ e + 1 - s
    · have : (j : Int) < e + 1 - s := by
        have := Int.toNat_of_nonneg hle
        omega
      omega
    · rw [Int.toNat_of_nonpos (le_of_not_le hle)] at hj
      omega
  · rintro ⟨h1, h2⟩
    refine ⟨(i - s).toNat, ?_, ?_⟩
    · rw [List.mem_range]
      have h3 : (0 : Int) ≤ i - s := by omega
      have h4 : (0 : Int) ≤ e + 1 - s := by omega
      omega
    · have h3 : (0 : Int) ≤ i - s := by omega
      rw [Int.toNat_of_nonneg h3]
      omega

theorem generateSeries_pairwise (s e : Int) :
    List.Pairwise (· < ·) (generateSeries s e) := by
  unfold generateSeries
  refine List.Pairwise.map _ ?_ (List.pairwise_lt_range _)
  intro a b hab
  omega

theorem find?_first_sorted {p : Int → Bool} :
    ∀ {l : List Int}, List.Pairwise (· < ·) l →
    ∀ {m}, m ∈ l → p m = true → (∀ j ∈ l, j < m → p j = false) →
    l.find? p = some m := by
  intro l
  induction l with
  | nil => intro _ m hm; exact absurd hm (by simp)
  | cons a tl ih =>
    intro hpw m hm hpm hmin
    rcases List.mem_cons.mp hm with rfl | hm
    · rw [List.find?_cons_of_pos _ hpm]
    · have ham : a < m := (List.pairwise_cons.mp hpw).1 m hm
      have hpa : p a = false := hmin a (List.mem_cons_self _ _) ham
      rw [List.find?_cons_of_neg _ (by simp [hpa])]
      exact ih (List.pairwise_cons.mp hpw).2 hm hpm
        (fun j hj => hmin j (List.mem_cons_of_mem _ hj))

/-! ## Concrete stores used by the witnesses and counterexamples -/

/-- Chain 1 with indexed heights `{10, 11, 12, 15}` (spec §8 gap-detection
example); height 10 also has its block events indexed. -/
def gapDB : DB :=
  ⟨6, [], [⟨1, 10, 1, 7, true, true⟩, ⟨2, 11, 1, 7, true, false⟩,
    ⟨3, 12, 1, 7, true, false⟩, ⟨4, 15, 1, 7, true, false⟩], [], [], [], [], [], [], [], []⟩

/-- Chain 1 with the single indexed height 10. -/
def oneBlockDB : DB :=
  ⟨2, [], [⟨1, 10, 1, 7, true, false⟩], [], [], [], [], [], [], [], []⟩

/-! ## C4: gap detection -/

/-- C4.  `GetFirstMissingBlockInRange` returns `start` when every height of
the scanned series is indexed, and otherwise the smallest height in the
scanned series with no indexed block row (`tx_indexed = true`, non-sentinel
timestamp, matching chain). -/
theorem c4_first_missing : ∀ (db : DB) (start stop : Int) (c : Nat),
    ((∀ i, start ≤ i → i ≤ scanEnd db start stop c → blockIndexedAt db c i = true) →
      GetFirstMissingBlockInRange db start stop c = start) ∧
    (∀ m, start ≤ m → m ≤ scanEnd db start stop c → blockIndexedAt db c m = false →
      (∀ j, start ≤ j → j < m → blockIndexedAt db c j = true) →
      GetFirstMissingBlockInRange db start stop c = m) := by
  intro db start stop c
  constructor
  · intro hall
    unfold GetFirstMissingBlockInRange
    have hnone : (generateSeries start (scanEnd db start stop c)).find?
        (fun i => !(blockIndexedAt db c i)) = none := by
      rw [List.find?_eq_none]
      intro i hi
      obtain ⟨h1, h2⟩ := mem_generateSeries.mp hi
      simp [hall i h1 h2]
    rw [hnone]
  · intro m h1 h2 h3 h4
    unfold GetFirstMissingBlockInRange
    have hsome : (generateSeries start (scanEnd db start stop c)).find?
        (fun i => !(blockIndexedAt db c i)) = some m := by
      refine find?_first_sorted (generateSeries_pairwise _ _)
        (mem_generateSeries.mpr ⟨h1, h2⟩) (by simp [h3]) ?_
      intro j hj hjm
      obtain ⟨hj1, _⟩ := mem_generateSeries.mp hj
      simp [h4 j hj1 hjm]
    rw [hsome]

/-- C4 witness: indexed heights `{10, 11, 12, 15}`, query `[10, 20]`,
first missing height 13 (spec §8). -/
theorem c4_first_missing_witness : GetFirstMissingBlockInRange gapDB 10 20 1 = 13 :=
  (c4_first_missing gapDB 10 20 1).2 13 (by decide) (by decide) (by decide)
    (by intro j hj1 hj2; interval_cases j <;> decide)

/-! ## C5: the scanned end bound -/

/-- The scanned end bound as claim C5 words it: the caller's `end` is
extended to `highestIndexed + 1` exactly when it is below that value
(refinement comparison target — this is NOT what db.go 119-121 computes). -/
def specScanEnd (db : DB) (start stop : Int) (chainID : Nat) : Int :=
  if stop < (GetHighestIndexedBlock db chainID).height + 1 then
    (GetHighestIndexedBlock db chainID).height + 1
  else stop

/-- C5 counterexample.  With only height 10 indexed and the call
`(start, end) = (10, 10)`: the caller's `end` (10) is below
`highestIndexed + 1` (11), yet the code does not extend it (the guard is
`currMax.Height > start`, false here), and it answers 10 where the claimed
range `[10, 11]` has first missing height 11.  Conversely with indexed
heights `{10..12, 15}` and `(start, end) = (10, 100)`: the caller's `end`
(100) is not below 16, yet the code replaces it by 16 rather than scanning
`[10, 100]` unchanged. -/
theorem c5_counterexample :
    (GetHighestIndexedBlock oneBlockDB 1).height = 10 ∧
    ((10 : Int) < (GetHighestIndexedBlock oneBlockDB 1).height + 1) ∧
    scanEnd oneBlockDB 10 10 1 = 10 ∧
    specScanEnd oneBlockDB 10 10 1 = 11 ∧
    GetFirstMissingBlockInRange oneBlockDB 10 10 1 = 10 ∧
    (generateSeries 10 (specScanEnd oneBlockDB 10 10 1)).find?
      (fun i => !(blockIndexedAt oneBlockDB 1 i)) = some 11 ∧
    scanEnd gapDB 10 100 1 = 16 ∧
    specScanEnd gapDB 10 100 1 = 100 := by
  decide

/-- C5 amended: the scanned end bound is set to `highestIndexed + 1` exactly
when `highestIndexed` exceeds `start` (which may extend or shrink the
caller's bound); otherwise the caller's `[start, end]` is scanned unchanged.
When the bound is replaced, the result never exceeds `highestIndexed + 1`. -/
theorem c5_amended : ∀ (db : DB) (start stop : Int) (c : Nat),
    ((GetHighestIndexedBlock db c).height > start →
      scanEnd db start stop c = (GetHighestIndexedBlock db c).height + 1 ∧
      GetFirstMissingBlockInRange db start stop c ≤
        (GetHighestIndexedBlock db c).height + 1) ∧
    ((GetHighestIndexedBlock db c).height ≤ start →
      scanEnd db start stop c = stop) := by
  intro db start stop c
  constructor
  · intro hgt
    have hse : scanEnd db start stop c = (GetHighestIndexedBlock db c).height + 1 := by
      unfold scanEnd
      rw [if_pos hgt]
    refine ⟨hse, ?_⟩
    unfold GetFirstMissingBlockInRange
    cases hf : (generateSeries start (scanEnd db start stop c)).find?
        (fun i => !(blockIndexedAt db c i)) with
    | none =>
      show start ≤ _
      omega
    | some m =>
      show m ≤ _
      have hmem := List.mem_of_find?_eq_some hf
      have := (mem_generateSeries.mp hmem).2
      rw [hse] at this
      exact this
  · intro hle
    unfold scanEnd
    rw [if_neg (not_lt.mpr hle)]

/-- C5 amended witness: indexed heights `{10, 11, 12, 15}`, call
`(10, 100)` — the scanned bound becomes `highestIndexed + 1` and the result
stays at or below it. -/
theorem c5_amended_witness :
    scanEnd gapDB 10 100 1 = (GetHighestIndexedBlock gapDB 1).height + 1 ∧
    GetFirstMissingBlockInRange gapDB 10 100 1 ≤
      (GetHighestIndexedBlock gapDB 1).height + 1 :=
  (c5_amended gapDB 10 100 1).1 (by decide)

/-! ## C6: sentinel exclusion and max semantics -/

/-- C6.  A block row with the sentinel (zero) timestamp is never returned by
`GetHighestIndexedBlock` or `GetHighestEventIndexedBlock` (any returned row
other than the zero-value no-row result has a non-sentinel timestamp and
its flag set) and never counted by `BlockEventsAlreadyIndexed`; and
`GetHighestIndexedBlock` returns the maximum qualifying height, with no
contiguity requirement. -/
theorem c6_sentinel_exclusion : ∀ (db : DB) (c : Nat) (h : Int),
    (GetHighestIndexedBlock db c = zeroBlock ∨
      (GetHighestIndexedBlock db c ∈ db.blocks ∧
       (GetHighestIndexedBlock db c).chainID = c ∧
       (GetHighestIndexedBlock db c).txIndexed = true ∧
       (GetHighestIndexedBlock db c).timeStamp ≠ 0)) ∧
    (GetHighestEventIndexedBlock db c = zeroBlock ∨
      (GetHighestEventIndexedBlock db c ∈ db.blocks ∧
       (GetHighestEventIndexedBlock db c).chainID = c ∧
       (GetHighestEventIndexedBlock db c).blockEventsIndexed = true ∧
       (GetHighestEventIndexedBlock db c).timeStamp ≠ 0)) ∧
    (BlockEventsAlreadyIndexed h c db = true →
      ∃ b ∈ db.blocks, b.height = h ∧ b.chainID = c ∧
        b.blockEventsIndexed = true ∧ b.timeStamp ≠ 0) ∧
    (∀ b ∈ db.blocks, b.chainID = c → b.txIndexed = true → b.timeStamp ≠ 0 →
      b.height ≤ (GetHighestIndexedBlock db c).height) :=
  fun db c h =>
    ⟨ghib_spec db c, gheib_spec db c, fun hb => (beai_iff h c db).mp hb, ghib_max db c⟩

/-- C6 witness: with indexed heights `{10, 11, 12, 15}`, the height-15 row
bounds `GetHighestIndexedBlock` from below (max, not contiguity), and the
events-indexed count at height 10 names a non-sentinel row. -/
theorem c6_sentinel_exclusion_witness :
    (15 : Int) ≤ (GetHighestIndexedBlock gapDB 1).height ∧
    (∃ b ∈ gapDB.blocks, b.height = 10 ∧ b.chainID = 1 ∧
      b.blockEventsIndexed = true ∧ b.timeStamp ≠ 0) :=
  ⟨(c6_sentinel_exclusion gapDB 1 10).2.2.2 ⟨4, 15, 1, 7, true, false⟩
      (by decide) (by decide) (by decide) (by decide),
   (c6_sentinel_exclusion gapDB 1 10).2.2.1 (by decide)⟩

/-! ## Shape lemmas: what each pipeline step writes and what it preserves -/

theorem dbext {a b : DB} (h1 : a.nextID = b.nextID) (h2 : a.chains = b.chains)
    (h3 : a.blocks = b.blocks) (h4 : a.txs = b.txs)
    (h5 : a.messageTypes = b.messageTypes)
    (h6 : a.messageEventTypes = b.messageEventTypes)
    (h7 : a.messageEventAttributeKeys = b.messageEventAttributeKeys)
    (h8 : a.messages = b.messages) (h9 : a.messageEvents = b.messageEvents)
    (h10 : a.messageEventAttributes = b.messageEventAttributes)
    (h11 : a.failedBlocks = b.failedBlocks) : a = b := by
  cases a
  cases b
  simp_all

theorem createTxs_shape {flag : Bool} {d : DB} {rows : List Tx} {o : StepOut Tx}
    (h : createTxs flag d rows = .ok o) :
    o.db = { d with txs := o.db.txs, nextID := o.db.nextID } ∧
    (rows.isEmpty = true → o.db = d ∧ o.rets = [] ∧ o.ops = []) ∧
    (rows.isEmpty = false →
      o.db.txs = (batchUpsert txSpec d.txs d.nextID rows).table ∧
      o.db.nextID = (batchUpsert txSpec d.txs d.nextID rows).next ∧
      o.rets = (batchUpsert txSpec d.txs d.nextID rows).rets ∧
      o.ops = [.createTxs]) := by
  unfold createTxs at h
  split at h
  · cases h
    refine ⟨rfl, fun _ => ⟨rfl, rfl, rfl⟩, fun hne => ?_⟩
    simp_all
  · split at h
    · exact absurd h (by simp)
    · cases h
      refine ⟨rfl, fun he => ?_, fun _ => ⟨rfl, rfl, rfl, rfl⟩⟩
      simp_all

theorem createMessageTypes_shape {flag : Bool} {d : DB} {rows : List MessageType}
    {o : StepOut MessageType} (h : createMessageTypes flag d rows = .ok o) :
    o.db = { d with messageTypes := o.db.messageTypes, nextID := o.db.nextID } ∧
    (rows.isEmpty = true → o.db = d ∧ o.rets = [] ∧ o.ops = []) ∧
    (rows.isEmpty = false →
      o.db.messageTypes = (batchUpsert mtSpec d.messageTypes d.nextID rows).table ∧
      o.db.nextID = (batchUpsert mtSpec d.messageTypes d.nextID rows).next ∧
      o.rets = (batchUpsert mtSpec d.messageTypes d.nextID rows).rets ∧
      o.ops = [.createMessageTypes]) := by
  unfold createMessageTypes at h
  split at h
  · cases h
    refine ⟨rfl, fun _ => ⟨rfl, rfl, rfl⟩, fun hne => ?_⟩
    simp_all
  · split at h
    · exact absurd h (by simp)
    · cases h
      refine ⟨rfl, fun he => ?_, fun _ => ⟨rfl, rfl, rfl, rfl⟩⟩
      simp_all

theorem createMessageEventTypes_shape {flag : Bool} {d : DB}
    {rows : List MessageEventType} {o : StepOut MessageEventType}
    (h : createMessageEventTypes flag d rows = .ok o) :
    o.db = { d with
      messageEventTypes := o.db.messageEventTypes
      nextID := o.db.nextID } ∧
    (rows.isEmpty = true → o.db = d ∧ o.rets = [] ∧ o.ops = []) ∧
    (rows.isEmpty = false →
      o.db.messageEventTypes =
        (batchUpsert etSpec d.messageEventTypes d.nextID rows).table ∧
      o.db.nextID = (batchUpsert etSpec d.messageEventTypes d.nextID rows).next ∧
      o.rets = (batchUpsert etSpec d.messageEventTypes d.nextID rows).rets ∧
      o.ops = [.createMessageEventTypes]) := by
  unfold createMessageEventTypes at h
  split at h
  · cases h
    refine ⟨rfl, fun _ => ⟨rfl, rfl, rfl⟩, fun hne => ?_⟩
    simp_all
  · split at h
    · exact absurd h (by simp)
    · cases h
      refine ⟨rfl, fun he => ?_, fun _ => ⟨rfl, rfl, rfl, rfl⟩⟩
      simp_all

theorem createMessageEventAttributeKeys_shape {flag : Bool} {d : DB}
    {rows : List MessageEventAttributeKey} {o : StepOut MessageEventAttributeKey}
    (h : createMessageEventAttributeKeys flag d rows = .ok o) :
    o.db = { d with
      messageEventAttributeKeys := o.db.messageEventAttributeKeys
      nextID := o.db.nextID } ∧
    (rows.isEmpty = true → o.db = d ∧ o.rets = [] ∧ o.ops = []) ∧
    (rows.isEmpty = false →
      o.db.messageEventAttributeKeys =
        (batchUpsert akSpec d.messageEventAttributeKeys d.nextID rows).table ∧
      o.db.nextID = (batchUpsert akSpec d.messageEventAttributeKeys d.nextID rows).next ∧
      o.rets = (batchUpsert akSpec d.messageEventAttributeKeys d.nextID rows).rets ∧
      o.ops = [.createMessageEventAttributeKeys]) := by
  unfold createMessageEventAttributeKeys at h
  split at h
  · cases h
    refine ⟨rfl, fun _ => ⟨rfl, rfl, rfl⟩, fun hne => ?_⟩
    simp_all
  · split at h
    · exact absurd h (by simp)
    · cases h
      refine ⟨rfl, fun he => ?_, fun _ => ⟨rfl, rfl, rfl, rfl⟩⟩
      simp_all

theorem createMessages_shape {flag : Bool} {d : DB} {rows : List Message}
    {o : StepOut Message} (h : createMessages flag d rows = .ok o) :
    o.db = { d with messages := o.db.messages, nextID := o.db.nextID } ∧
    (rows.isEmpty = true → o.db = d ∧ o.rets = [] ∧ o.ops = []) ∧
    (rows.isEmpty = false →
      messageFKOk d rows = true ∧
      o.db.messages = (batchUpsert msgSpec d.messages d.nextID rows).table ∧
      o.db.nextID = (batchUpsert msgSpec d.messages d.nextID rows).next ∧
      o.rets = (batchUpsert msgSpec d.messages d.nextID rows).rets ∧
      o.ops = [.createMessages]) := by
  unfold createMessages at h
  split at h
  · cases h
    refine ⟨rfl, fun _ => ⟨rfl, rfl, rfl⟩, fun hne => ?_⟩
    simp_all
  · split at h
    · exact absurd h (by simp)
    · split at h
      · cases h
        refine ⟨rfl, fun he => ?_, fun _ => ⟨by assumption, rfl, rfl, rfl, rfl⟩⟩
        simp_all
      · exact absurd h (by simp)

theorem createMessageEvents_shape {flag : Bool} {d : DB} {rows : List MessageEvent}
    {o : StepOut MessageEvent} (h : createMessageEvents flag d rows = .ok o) :
    o.db = { d with messageEvents := o.db.messageEvents, nextID := o.db.nextID } ∧
    (rows.isEmpty = true → o.db = d ∧ o.rets = [] ∧ o.ops = []) ∧
    (rows.isEmpty = false →
      eventFKOk d rows = true ∧
      o.db.messageEvents = (batchUpsert evSpec d.messageEvents d.nextID rows).table ∧
      o.db.nextID = (batchUpsert evSpec d.messageEvents d.nextID rows).next ∧
      o.rets = (batchUpsert evSpec d.messageEvents d.nextID rows).rets ∧
      o.ops = [.createMessageEvents]) := by
  unfold createMessageEvents at h
  split at h
  · cases h
    refine ⟨rfl, fun _ => ⟨rfl, rfl, rfl⟩, fun hne => ?_⟩
    simp_all
  · split at h
    · exact absurd h (by simp)
    · split at h
      · cases h
        refine ⟨rfl, fun he => ?_, fun _ => ⟨by assumption, rfl, rfl, rfl, rfl⟩⟩
        simp_all
      · exact absurd h (by simp)

theorem createMessageEventAttributes_shape {flag : Bool} {d : DB}
    {rows : List MessageEventAttribute} {o : StepOut MessageEventAttribute}
    (h : createMessageEventAttributes flag d rows = .ok o) :
    o.db = { d with
      messageEventAttributes := o.db.messageEventAttributes
      nextID := o.db.nextID } ∧
    (rows.isEmpty = true → o.db = d ∧ o.rets = [] ∧ o.ops = []) ∧
    (rows.isEmpty = false →
      attrFKOk d rows = true ∧
      o.db.messageEventAttributes =
        (batchUpsert attrSpec d.messageEventAttributes d.nextID rows).table ∧
      o.db.nextID = (batchUpsert attrSpec d.messageEventAttributes d.nextID rows).next ∧
      o.rets = (batchUpsert attrSpec d.messageEventAttributes d.nextID rows).rets ∧
      o.ops = [.createMessageEventAttributes]) := by
  unfold createMessageEventAttributes at h
  split at h
  · cases h
    refine ⟨rfl, fun _ => ⟨rfl, rfl, rfl⟩, fun hne => ?_⟩
    simp_all
  · split at h
    · exact absurd h (by simp)
    · split at h
      · cases h
        refine ⟨rfl, fun he => ?_, fun _ => ⟨by assumption, rfl, rfl, rfl, rfl⟩⟩
        simp_all
      · exact absurd h (by simp)

/-- `persistOneTx` writes only the three message-level tables and the id
sequence. -/
theorem persistOneTx_shape {f : Faults} {uniq : List (String × Tx)} {maps : RefMaps}
    {d : DB} {w : TxDBWrapper} {out : DB × List Op}
    (h : persistOneTx f uniq maps d w = .ok out) :
    out.1 = { d with
      messages := out.1.messages
      messageEvents := out.1.messageEvents
      messageEventAttributes := out.1.messageEventAttributes
      nextID := out.1.nextID } := by
  simp only [persistOneTx] at h
  cases h1 : createMessages f.failMessageCreate d (msgRowsOf uniq maps w) with
  | error e =>
    rw [h1, ebind_error] at h
    exact absurd h (by simp)
  | ok o1 =>
    rw [h1, ebind_ok] at h
    cases h2 : createMessageEvents f.failMessageEventCreate o1.db
        ((evGroupsOf maps o1.rets w).map Prod.fst) with
    | error e =>
      rw [h2, ebind_error] at h
      exact absurd h (by simp)
    | ok o2 =>
      rw [h2, ebind_ok] at h
      cases h3 : createMessageEventAttributes f.failAttributeCreate o2.db
          (attrRowsOf maps o2.rets (evGroupsOf maps o1.rets w)) with
      | error e =>
        rw [h3, ebind_error] at h
        exact absurd h (by simp)
      | ok o3 =>
        rw [h3, ebind_ok] at h
        cases h
        have s1 := (createMessages_shape h1).1
        have s2 := (createMessageEvents_shape h2).1
        have s3 := (createMessageEventAttributes_shape h3).1
        have hch1 : o1.db.chains = d.chains := by
          have e := congrArg DB.chains s1
          exact e
        have hch2 : o2.db.chains = o1.db.chains := by
          have e := congrArg DB.chains s2
          exact e
        have hch3 : o3.db.chains = o2.db.chains := by
          have e := congrArg DB.chains s3
          exact e
        have hch : o3.db.chains = d.chains := hch3.trans (hch2.trans hch1)
        have hbl1 : o1.db.blocks = d.blocks := by
          have e := congrArg DB.blocks s1
          exact e
        have hbl2 : o2.db.blocks = o1.db.blocks := by
          have e := congrArg DB.blocks s2
          exact e
        have hbl3 : o3.db.blocks = o2.db.blocks := by
          have e := congrArg DB.blocks s3
          exact e
        have hbl : o3.db.blocks = d.blocks := hbl3.trans (hbl2.trans hbl1)
        have htx1 : o1.db.txs = d.txs := by
          have e := congrArg DB.txs s1
          exact e
        have htx2 : o2.db.txs = o1.db.txs := by
          have e := congrArg DB.txs s2
          exact e
        have htx3 : o3.db.txs = o2.db.txs := by
          have e := congrArg DB.txs s3
          exact e
        have htx : o3.db.txs = d.txs := htx3.trans (htx2.trans htx1)
        have hmt1 : o1.db.messageTypes = d.messageTypes := by
          have e := congrArg DB.messageTypes s1
          exact e
        have hmt2 : o2.db.messageTypes = o1.db.messageTypes := by
          have e := congrArg DB.messageTypes s2
          exact e
        have hmt3 : o3.db.messageTypes = o2.db.messageTypes := by
          have e := congrArg DB.messageTypes s3
          exact e
        have hmt : o3.db.messageTypes = d.messageTypes := hmt3.trans (hmt2.trans hmt1)
        have het1 : o1.db.messageEventTypes = d.messageEventTypes := by
          have e := congrArg DB.messageEventTypes s1
          exact e
        have het2 : o2.db.messageEventTypes = o1.db.messageEventTypes := by
          have e := congrArg DB.messageEventTypes s2
          exact e
        have het3 : o3.db.messageEventTypes = o2.db.messageEventTypes := by
          have e := congrArg DB.messageEventTypes s3
          exact e
        have het : o3.db.messageEventTypes = d.messageEventTypes := het3.trans (het2.trans het1)
        have hak1 : o1.db.messageEventAttributeKeys = d.messageEventAttributeKeys := by
          have e := congrArg DB.messageEventAttributeKeys s1
          exact e
        have hak2 : o2.db.messageEventAttributeKeys = o1.db.messageEventAttributeKeys := by
          have e := congrArg DB.messageEventAttributeKeys s2
          exact e
        have hak3 : o3.db.messageEventAttributeKeys = o2.db.messageEventAttributeKeys := by
          have e := congrArg DB.messageEventAttributeKeys s3
          exact e
        have hak : o3.db.messageEventAttributeKeys = d.messageEventAttributeKeys := hak3.trans (hak2.trans hak1)
        have hfb1 : o1.db.failedBlocks = d.failedBlocks := by
          have e := congrArg DB.failedBlocks s1
          exact e
        have hfb2 : o2.db.failedBlocks = o1.db.failedBlocks := by
          have e := congrArg DB.failedBlocks s2
          exact e
        have hfb3 : o3.db.failedBlocks = o2.db.failedBlocks := by
          have e := congrArg DB.failedBlocks s3
          exact e
        have hfb : o3.db.failedBlocks = d.failedBlocks := hfb3.trans (hfb2.trans hfb1)
        exact dbext rfl hch hbl htx hmt het hak rfl rfl rfl hfb

/-- `txLoop` writes only the three message-level tables and the id
sequence. -/
theorem txLoop_shape {f : Faults} {uniq : List (String × Tx)} {maps : RefMaps} :
    ∀ {ws : List TxDBWrapper} {d : DB} {ops : List Op} {out : DB × List Op},
    txLoop f uniq maps d ops ws = .ok out →
    out.1 = { d with
      messages := out.1.messages
      messageEvents := out.1.messageEvents
      messageEventAttributes := out.1.messageEventAttributes
      nextID := out.1.nextID } := by
  intro ws
  induction ws with
  | nil =>
    intro d ops out h
    cases h
    exact dbext rfl rfl rfl rfl rfl rfl rfl rfl rfl rfl rfl
  | cons w ws ih =>
    intro d ops out h
    unfold txLoop at h
    cases h1 : persistOneTx f uniq maps d w with
    | error e =>
      rw [h1, ebind_error] at h
      exact absurd h (by simp)
    | ok o =>
      rw [h1, ebind_ok] at h
      have s1 := persistOneTx_shape h1
      have s2 := ih h
      have hch1 : o.1.chains = d.chains := by
        have e := congrArg DB.chains s1
        exact e
      have hch2 : out.1.chains = o.1.chains := by
        have e := congrArg DB.chains s2
        exact e
      have hch : out.1.chains = d.chains := hch2.trans hch1
      have hbl1 : o.1.blocks = d.blocks := by
        have e := congrArg DB.blocks s1
        exact e
      have hbl2 : out.1.blocks = o.1.blocks := by
        have e := congrArg DB.blocks s2
        exact e
      have hbl : out.1.blocks = d.blocks := hbl2.trans hbl1
      have htx1 : o.1.txs = d.txs := by
        have e := congrArg DB.txs s1
        exact e
      have htx2 : out.1.txs = o.1.txs := by
        have e := congrArg DB.txs s2
        exact e
      have htx : out.1.txs = d.txs := htx2.trans htx1
      have hmt1 : o.1.messageTypes = d.messageTypes := by
        have e := congrArg DB.messageTypes s1
        exact e
      have hmt2 : out.1.messageTypes = o.1.messageTypes := by
        have e := congrArg DB.messageTypes s2
        exact e
      have hmt : out.1.messageTypes = d.messageTypes := hmt2.trans hmt1
      have het1 : o.1.messageEventTypes = d.messageEventTypes := by
        have e := congrArg DB.messageEventTypes s1
        exact e
      have het2 : out.1.messageEventTypes = o.1.messageEventTypes := by
        have e := congrArg DB.messageEventTypes s2
        exact e
      have het : out.1.messageEventTypes = d.messageEventTypes := het2.trans het1
      have hak1 : o.1.messageEventAttributeKeys = d.messageEventAttributeKeys := by
        have e := congrArg DB.messageEventAttributeKeys s1
        exact e
      have hak2 : out.1.messageEventAttributeKeys = o.1.messageEventAttributeKeys := by
        have e := congrArg DB.messageEventAttributeKeys s2
        exact e
      have hak : out.1.messageEventAttributeKeys = d.messageEventAttributeKeys := hak2.trans hak1
      have hfb1 : o.1.failedBlocks = d.failedBlocks := by
        have e := congrArg DB.failedBlocks s1
        exact e
      have hfb2 : out.1.failedBlocks = o.1.failedBlocks := by
        have e := congrArg DB.failedBlocks s2
        exact e
      have hfb : out.1.failedBlocks = d.failedBlocks := hfb2.trans hfb1
      exact dbext rfl hch hbl htx hmt het hak rfl rfl rfl hfb

/-- The block `FirstOrCreate` writes only the blocks table and the id
sequence. -/
theorem blockFirstOrCreate_frame (d : DB) (h : Int) (t : Nat) (c : Nat) :
    (blockFirstOrCreate d h t c).1 =
      { d with
        blocks := (blockFirstOrCreate d h t c).1.blocks
        nextID := (blockFirstOrCreate d h t c).1.nextID } := by
  unfold blockFirstOrCreate
  cases updateFirstMatch (blockWhereMatches h c) (blockAssign t) d.blocks with
  | some pr =>
    obtain ⟨bs, b⟩ := pr
    rfl
  | none => rfl

/-- The row returned by the block `FirstOrCreate` is a live, matching,
tx-indexed row carrying the block timestamp. -/
theorem blockFirstOrCreate_row (d : DB) (h : Int) (t : Nat) (c : Nat) :
    (blockFirstOrCreate d h t c).2 ∈ (blockFirstOrCreate d h t c).1.blocks ∧
    blockWhereMatches h c (blockFirstOrCreate d h t c).2 = true ∧
    (blockFirstOrCreate d h t c).2.txIndexed = true ∧
    (blockFirstOrCreate d h t c).2.timeStamp = t := by
  unfold blockFirstOrCreate
  cases hu : updateFirstMatch (blockWhereMatches h c) (blockAssign t) d.blocks with
  | some pr =>
    obtain ⟨bs, b⟩ := pr
    obtain ⟨l1, a, l2, hteq, hl1, hpa, ht2, hr⟩ := ufm_eq_some hu
    refine ⟨?_, ?_, ?_, ?_⟩
    · show b ∈ bs
      rw [ht2, hr]
      exact List.mem_append.mpr (Or.inr (List.mem_cons_self _ _))
    · show blockWhereMatches h c b = true
      rw [hr]
      exact hpa
    · show b.txIndexed = true
      rw [hr]
      rfl
    · show b.timeStamp = t
      rw [hr]
      rfl
  | none =>
    refine ⟨List.mem_append.mpr (Or.inr (List.mem_cons_self _ _)), ?_, rfl, rfl⟩
    show blockWhereMatches h c ⟨d.nextID, h, c, t, true, false⟩ = true
    simp [blockWhereMatches]

/-- What a successful `IndexNewBlock` transaction guarantees about the
chains, failed-blocks and blocks tables: chains untouched, exactly the
`(height, chain)` failure markers deleted, and an indexed block row with the
given timestamp present. -/
theorem indexNewBlockT_outer {f : Faults} {db : DB} {h : Int} {t : Nat}
    {txs : List TxDBWrapper} {c : Nat} {out : DB × List Op}
    (hok : IndexNewBlockT f db h t txs c = .ok out) :
    out.1.chains = db.chains ∧
    out.1.failedBlocks = db.failedBlocks.filter (fbKeep h c) ∧
    ∃ b ∈ out.1.blocks, blockWhereMatches h c b = true ∧
      b.txIndexed = true ∧ b.timeStamp = t := by
  simp only [IndexNewBlockT] at hok
  split at hok
  · exact absurd hok (by simp)
  · split at hok
    · exact absurd hok (by simp)
    · cases h1 : createTxs f.failTxCreate
          (blockFirstOrCreate { db with
            failedBlocks := db.failedBlocks.filter (fbKeep h c) } h t c).1
          ((uniqueTxList txs (blockFirstOrCreate { db with
            failedBlocks := db.failedBlocks.filter (fbKeep h c) } h t c).2.id).map
            Prod.snd) with
      | error e => rw [h1, ebind_error] at hok; exact absurd hok (by simp)
      | ok ot =>
        rw [h1, ebind_ok] at hok
        cases h2 : indexMessageTypes f.failMessageTypeCreate ot.db txs with
        | error e => rw [h2, ebind_error] at hok; exact absurd hok (by simp)
        | ok om =>
          rw [h2, ebind_ok] at hok
          cases h3 : indexMessageEventTypes f.failMessageEventTypeCreate om.1 txs with
          | error e => rw [h3, ebind_error] at hok; exact absurd hok (by simp)
          | ok oe =>
            rw [h3, ebind_ok] at hok
            cases h4 : indexMessageEventAttributeKeys f.failAttributeKeyCreate oe.1 txs with
            | error e => rw [h4, ebind_error] at hok; exact absurd hok (by simp)
            | ok oa =>
              rw [h4, ebind_ok] at hok
              -- unpack the index* wrappers into their inner creates
              simp only [indexMessageTypes] at h2
              simp only [indexMessageEventTypes] at h3
              simp only [indexMessageEventAttributeKeys] at h4
              cases h2c : createMessageTypes f.failMessageTypeCreate ot.db
                  ((mergedMessageTypes txs).map Prod.snd) with
              | error e => rw [h2c, ebind_error] at h2; exact absurd h2 (by simp)
              | ok o2c =>
                rw [h2c, ebind_ok] at h2
                simp only [Except.ok.injEq] at h2
                cases h3c : createMessageEventTypes f.failMessageEventTypeCreate om.1
                    ((mergedMessageEventTypes txs).map Prod.snd) with
                | error e => rw [h3c, ebind_error] at h3; exact absurd h3 (by simp)
                | ok o3c =>
                  rw [h3c, ebind_ok] at h3
                  simp only [Except.ok.injEq] at h3
                  cases h4c : createMessageEventAttributeKeys f.failAttributeKeyCreate oe.1
                      ((mergedMessageAttributeKeys txs).map Prod.snd) with
                  | error e => rw [h4c, ebind_error] at h4; exact absurd h4 (by simp)
                  | ok o4c =>
                    rw [h4c, ebind_ok] at h4
                    simp only [Except.ok.injEq] at h4
                    have sl := txLoop_shape hok
                    have st := (createTxs_shape h1).1
                    have sm := (createMessageTypes_shape h2c).1
                    have se := (createMessageEventTypes_shape h3c).1
                    have sa := (createMessageEventAttributeKeys_shape h4c).1
                    have sb1 := blockFirstOrCreate_frame
                      { db with failedBlocks := db.failedBlocks.filter (fbKeep h c) } h t c
                    have sb2 := blockFirstOrCreate_row
                      { db with failedBlocks := db.failedBlocks.filter (fbKeep h c) } h t c
                    have hom1 : om.1 = o2c.db := by rw [← h2]
                    have hoe1 : oe.1 = o3c.db := by rw [← h3]
                    have hoa1 : oa.1 = o4c.db := by rw [← h4]
                    refine ⟨?_, ?_, ?_⟩
                    · rw [sl, hoa1, sa, hoe1, se, hom1, sm, st, sb1]
                    · rw [sl, hoa1, sa, hoe1, se, hom1, sm, st, sb1]
                    · refine ⟨(blockFirstOrCreate { db with
                        failedBlocks := db.failedBlocks.filter (fbKeep h c) } h t c).2,
                        ?_, sb2.2.1, sb2.2.2.1, sb2.2.2.2⟩
                      have hblocks : out.1.blocks = (blockFirstOrCreate { db with
                          failedBlocks := db.failedBlocks.filter (fbKeep h c) } h t c).1.blocks := by
                        rw [sl, hoa1, sa, hoe1, se, hom1, sm, st]
                      rw [hblocks]
                      exact sb2.1

/-- The empty store, with the id sequence at 1. -/
def emptyDB : DB := ⟨1, [], [], [], [], [], [], [], [], [], []⟩

/-! ## C10: persisting a block with no transactions -/

/-- C10.  `IndexNewBlock` on an empty transaction list succeeds with zero
batch-insert round-trips: it still deletes the `(height, chain)` failure
markers and still upserts the Block row (`txIndexed = true`, the given
timestamp), and writes nothing to any other table. -/
theorem c10_empty_tx_list : ∀ (db : DB) (h : Int) (t : Nat) (c : Nat),
    ∃ db2, IndexNewBlockT noFaults db h t [] c = .ok (db2, []) ∧
      db2.txs = db.txs ∧ db2.messageTypes = db.messageTypes ∧
      db2.messageEventTypes = db.messageEventTypes ∧
      db2.messageEventAttributeKeys = db.messageEventAttributeKeys ∧
      db2.messages = db.messages ∧ db2.messageEvents = db.messageEvents ∧
      db2.messageEventAttributes = db.messageEventAttributes ∧
      db2.chains = db.chains ∧
      db2.failedBlocks = db.failedBlocks.filter (fbKeep h c) ∧
      ∃ b ∈ db2.blocks, blockWhereMatches h c b = true ∧ b.txIndexed = true ∧
        b.timeStamp = t := by
  intro db h t c
  refine ⟨(blockFirstOrCreate { db with
      failedBlocks := db.failedBlocks.filter (fbKeep h c) } h t c).1,
    rfl, ?_, ?_, ?_, ?_, ?_, ?_, ?_, ?_, ?_, ?_⟩
  · have e := congrArg DB.txs (blockFirstOrCreate_frame { db with
      failedBlocks := db.failedBlocks.filter (fbKeep h c) } h t c)
    exact e
  · have e := congrArg DB.messageTypes (blockFirstOrCreate_frame { db with
      failedBlocks := db.failedBlocks.filter (fbKeep h c) } h t c)
    exact e
  · have e := congrArg DB.messageEventTypes (blockFirstOrCreate_frame { db with
      failedBlocks := db.failedBlocks.filter (fbKeep h c) } h t c)
    exact e
  · have e := congrArg DB.messageEventAttributeKeys (blockFirstOrCreate_frame { db with
      failedBlocks := db.failedBlocks.filter (fbKeep h c) } h t c)
    exact e
  · have e := congrArg DB.messages (blockFirstOrCreate_frame { db with
      failedBlocks := db.failedBlocks.filter (fbKeep h c) } h t c)
    exact e
  · have e := congrArg DB.messageEvents (blockFirstOrCreate_frame { db with
      failedBlocks := db.failedBlocks.filter (fbKeep h c) } h t c)
    exact e
  · have e := congrArg DB.messageEventAttributes (blockFirstOrCreate_frame { db with
      failedBlocks := db.failedBlocks.filter (fbKeep h c) } h t c)
    exact e
  · have e := congrArg DB.chains (blockFirstOrCreate_frame { db with
      failedBlocks := db.failedBlocks.filter (fbKeep h c) } h t c)
    exact e
  · have e := congrArg DB.failedBlocks (blockFirstOrCreate_frame { db with
      failedBlocks := db.failedBlocks.filter (fbKeep h c) } h t c)
    exact e
  · exact ⟨(blockFirstOrCreate { db with
        failedBlocks := db.failedBlocks.filter (fbKeep h c) } h t c).2,
      (blockFirstOrCreate_row _ h t c).1, (blockFirstOrCreate_row _ h t c).2.1,
      (blockFirstOrCreate_row _ h t c).2.2.1, (blockFirstOrCreate_row _ h t c).2.2.2⟩

/-! ## C3: failure-marker lifecycle -/

theorem filter_fbKeep_then_match (l : List FailedBlock) (h : Int) (c : Nat) :
    (l.filter (fbKeep h c)).filter
      (fun fb => fb.height == h && fb.blockchainID == c) = [] := by
  induction l with
  | nil => rfl
  | cons fb tl ih =>
    by_cases hk : fbKeep h c fb = true
    · rw [List.filter_cons_of_pos hk]
      by_cases hm : (fb.height == h && fb.blockchainID == c) = true
      · exact absurd hk (by simp [fbKeep, hm])
      · rw [List.filter_cons_of_neg (by simpa using hm)]
        exact ih
    · rw [List.filter_cons_of_neg (by simpa using hk)]
      exact ih

/-- `upsertFailedMarker` keeps the chains table and guarantees a matching
marker row. -/
theorem upsertFailedMarker_post (d : DB) (chid : Nat) (h : Int) :
    (upsertFailedMarker d chid h).chains = d.chains ∧
    ∃ fb ∈ (upsertFailedMarker d chid h).failedBlocks,
      fb.height = h ∧ fb.blockchainID = chid := by
  unfold upsertFailedMarker
  split
  · next hany =>
    obtain ⟨fb, hfb, hp⟩ := List.any_eq_true.mp hany
    simp only [Bool.and_eq_true, beq_iff_eq] at hp
    exact ⟨rfl, fb, hfb, hp.1, hp.2⟩
  · exact ⟨rfl, ⟨d.nextID, h, chid⟩,
      List.mem_append.mpr (Or.inr (List.mem_cons_self _ _)), rfl, rfl⟩

/-- C3.  `markFailedBlock` leaves a `(chain, height)` failure marker for the
chain row it ensured; a subsequent successful `IndexNewBlock` for that pair
leaves zero matching rows in the failed-blocks table (the first statement of
the transaction deletes them and nothing re-creates them). -/
theorem c3_marker_lifecycle : ∀ (db : DB) (h : Int) (cid cname : String),
    (∃ ch ∈ (UpsertFailedBlock db h cid cname).chains,
      chainWhereMatches cid cname ch = true ∧
      ∃ fb ∈ (UpsertFailedBlock db h cid cname).failedBlocks,
        fb.height = h ∧ fb.blockchainID = ch.id) ∧
    (∀ (f : Faults) (t : Nat) (txs : List TxDBWrapper) (chid : Nat)
      (out : DB × List Op),
      IndexNewBlockT f (UpsertFailedBlock db h cid cname) h t txs chid = .ok out →
      out.1.failedBlocks.filter
        (fun fb => fb.height == h && fb.blockchainID == chid) = []) := by
  intro db h cid cname
  constructor
  · cases hf : db.chains.find? (chainWhereMatches cid cname) with
    | some ch =>
      have hub : UpsertFailedBlock db h cid cname = upsertFailedMarker db ch.id h := by
        unfold UpsertFailedBlock
        rw [hf]
      rw [hub]
      obtain ⟨hch, fb, hfb, h1, h2⟩ := upsertFailedMarker_post db ch.id h
      refine ⟨ch, ?_, List.find?_some hf, fb, hfb, h1, h2⟩
      rw [hch]
      exact List.mem_of_find?_eq_some hf
    | none =>
      have hub : UpsertFailedBlock db h cid cname =
          upsertFailedMarker { db with
            chains := db.chains ++ [⟨db.nextID, cid, cname⟩]
            nextID := db.nextID + 1 } db.nextID h := by
        unfold UpsertFailedBlock
        rw [hf]
      rw [hub]
      obtain ⟨hch, fb, hfb, h1, h2⟩ := upsertFailedMarker_post _ db.nextID h
      refine ⟨⟨db.nextID, cid, cname⟩, ?_, by simp [chainWhereMatches], fb, hfb, h1, h2⟩
      rw [hch]
      exact List.mem_append.mpr (Or.inr (List.mem_cons_self _ _))
  · intro f t txs chid out hok
    rw [(indexNewBlockT_outer hok).2.1]
    exact filter_fbKeep_then_match _ h chid

/-- The store after `markFailedBlock` then a successful empty-block
`IndexNewBlock` on `emptyDB`. -/
def c3runDB : DB :=
  ⟨4, [⟨1, "chain-1", "mychain"⟩], [⟨3, 10, 1, 5, true, false⟩],
    [], [], [], [], [], [], [], []⟩

/-- C3 witness: on the empty store, mark height 10 of chain `chain-1` failed,
then persist it successfully; the marker exists in between and no matching
marker remains afterwards. -/
theorem c3_marker_lifecycle_witness :
    (∃ ch ∈ (UpsertFailedBlock emptyDB 10 "chain-1" "mychain").chains,
      chainWhereMatches "chain-1" "mychain" ch = true ∧
      ∃ fb ∈ (UpsertFailedBlock emptyDB 10 "chain-1" "mychain").failedBlocks,
        fb.height = 10 ∧ fb.blockchainID = ch.id) ∧
    c3runDB.failedBlocks.filter
      (fun fb => fb.height == (10 : Int) && fb.blockchainID == 1) = [] :=
  ⟨(c3_marker_lifecycle emptyDB 10 "chain-1" "mychain").1,
   (c3_marker_lifecycle emptyDB 10 "chain-1" "mychain").2 noFaults 5 [] 1
     (c3runDB, []) rfl⟩

/-! ## C2: error propagation and rollback -/

/-- Under a store that fails the attribute batch insert, processing a
transaction that carries at least one attribute aborts with an error (either
its own attribute insert fails, or an earlier insert of the same
transaction already failed). -/
theorem persistOneTx_attr_error (uniq : List (String × Tx)) (maps : RefMaps)
    (d : DB) (w : TxDBWrapper)
    (hbad : ∃ m ∈ w.messages, ∃ ev ∈ m.messageEvents, ev.attributes ≠ []) :
    ∃ e, persistOneTx attrFault uniq maps d w = .error e := by
  obtain ⟨m, hm, ev, hev, hat⟩ := hbad
  unfold persistOneTx
  cases h1 : createMessages attrFault.failMessageCreate d (msgRowsOf uniq maps w) with
  | error e =>
    rw [ebind_error]
    exact ⟨e, rfl⟩
  | ok o1 =>
    rw [ebind_ok]
    have hne : (msgRowsOf uniq maps w).isEmpty = false := by
      rw [List.isEmpty_eq_false]
      intro hnil
      unfold msgRowsOf at hnil
      rw [List.map_eq_nil_iff] at hnil
      rw [hnil] at hm
      exact absurd hm (by simp)
    have hlen : o1.rets.length = w.messages.length := by
      obtain ⟨-, -, hst⟩ := createMessages_shape h1
      obtain ⟨-, -, -, hrets, -⟩ := hst hne
      rw [hrets, batch_rets_length]
      unfold msgRowsOf
      rw [List.length_map]
    obtain ⟨r1, hr1⟩ := zip_exists_left hlen m hm
    have hevmem : (buildEventRow r1.id maps.et ev, ev.attributes) ∈
        evGroupsOf maps o1.rets w := by
      unfold evGroupsOf
      rw [List.mem_flatMap]
      exact ⟨(r1, m), hr1, List.mem_map_of_mem _ hev⟩
    cases h2 : createMessageEvents attrFault.failMessageEventCreate o1.db
        ((evGroupsOf maps o1.rets w).map Prod.fst) with
    | error e =>
      rw [ebind_error]
      exact ⟨e, rfl⟩
    | ok o2 =>
      rw [ebind_ok]
      have hne2 : ((evGroupsOf maps o1.rets w).map Prod.fst).isEmpty = false := by
        rw [List.isEmpty_eq_false]
        intro hnil
        rw [List.map_eq_nil_iff] at hnil
        rw [hnil] at hevmem
        exact absurd hevmem (by simp)
      have hlen2 : o2.rets.length = (evGroupsOf maps o1.rets w).length := by
        obtain ⟨-, -, hst⟩ := createMessageEvents_shape h2
        obtain ⟨-, -, -, hrets, -⟩ := hst hne2
        rw [hrets, batch_rets_length, List.length_map]
      have hlen2b : o2.rets.length = ((evGroupsOf maps o1.rets w).map Prod.snd).length := by
        rw [hlen2, List.length_map]
      obtain ⟨r2, hr2⟩ := zip_exists_left hlen2b ev.attributes
        (List.mem_map_of_mem Prod.snd hevmem)
      obtain ⟨a0, ha0⟩ := List.exists_mem_of_ne_nil ev.attributes hat
      have hattr : buildAttrRow r2.id maps.ak a0 ∈
          attrRowsOf maps o2.rets (evGroupsOf maps o1.rets w) := by
        unfold attrRowsOf
        rw [List.mem_flatMap]
        exact ⟨(r2, ev.attributes), hr2, List.mem_map_of_mem _ ha0⟩
      have hne3 : (attrRowsOf maps o2.rets (evGroupsOf maps o1.rets w)).isEmpty = false := by
        rw [List.isEmpty_eq_false]
        intro hnil
        rw [hnil] at hattr
        exact absurd hattr (by simp)
      refine ⟨"message event attribute create failed", ?_⟩
      unfold createMessageEventAttributes
      rw [hne3]
      simp only [Bool.false_eq_true, if_false]
      rfl

/-- Under the attribute-insert fault, the per-transaction loop aborts
whenever some transaction carries an attribute. -/
theorem txLoop_attr_error (uniq : List (String × Tx)) (maps : RefMaps) :
    ∀ (ws : List TxDBWrapper) (d : DB) (ops : List Op),
    (∃ w ∈ ws, ∃ m ∈ w.messages, ∃ ev ∈ m.messageEvents, ev.attributes ≠ []) →
    ∃ e, txLoop attrFault uniq maps d ops ws = .error e
  | [], d, ops, hbad => absurd hbad (by simp)
  | w :: ws, d, ops, hbad => by
    unfold txLoop
    cases h1 : persistOneTx attrFault uniq maps d w with
    | error e => exact ⟨e, rfl⟩
    | ok o =>
      obtain ⟨w0, hw0, hbad0⟩ := hbad
      rcases List.mem_cons.mp hw0 with rfl | hw0
      · obtain ⟨e, he⟩ := persistOneTx_attr_error uniq maps d w0 hbad0
        rw [he] at h1
        exact absurd h1 (by simp)
      · exact txLoop_attr_error uniq maps ws o.1 (ops ++ o.2) ⟨w0, hw0, hbad0⟩

/-- C2.  Any error inside the `IndexNewBlock` transaction rolls the store
back to its pre-call state — no Block, Tx, Message, MessageEvent or
MessageEventAttribute row of the invocation stays visible; in particular a
store failure while persisting message event attributes (when the block has
any attribute to persist) aborts the whole transaction with an error and
leaves the store unchanged. -/
theorem c2_rollback : ∀ (f : Faults) (db : DB) (h : Int) (t : Nat)
    (txs : List TxDBWrapper) (c : Nat),
    (∀ e, IndexNewBlockT f db h t txs c = .error e →
      IndexNewBlock f db h t txs c = db) ∧
    ((∃ w ∈ txs, ∃ m ∈ w.messages, ∃ ev ∈ m.messageEvents, ev.attributes ≠ []) →
      ∃ e, IndexNewBlockT attrFault db h t txs c = .error e ∧
        IndexNewBlock attrFault db h t txs c = db) := by
  intro f db h t txs c
  constructor
  · intro e he
    unfold IndexNewBlock
    rw [he]
  · intro hbad
    have herr : ∃ e, IndexNewBlockT attrFault db h t txs c = .error e := by
      simp only [IndexNewBlockT]
      rw [if_neg (by decide : ¬(attrFault.failDeleteFailedBlocks = true)),
          if_neg (by decide : ¬(attrFault.failBlockUpsert = true))]
      cases h1 : createTxs attrFault.failTxCreate
          (blockFirstOrCreate { db with
            failedBlocks := db.failedBlocks.filter (fbKeep h c) } h t c).1
          ((uniqueTxList txs (blockFirstOrCreate { db with
            failedBlocks := db.failedBlocks.filter (fbKeep h c) } h t c).2.id).map
            Prod.snd) with
      | error e => exact ⟨e, rfl⟩
      | ok ot =>
        rw [ebind_ok]
        cases h2 : indexMessageTypes attrFault.failMessageTypeCreate ot.db txs with
        | error e => exact ⟨e, rfl⟩
        | ok om =>
          rw [ebind_ok]
          cases h3 : indexMessageEventTypes attrFault.failMessageEventTypeCreate om.1 txs with
          | error e => exact ⟨e, rfl⟩
          | ok oe =>
            rw [ebind_ok]
            cases h4 : indexMessageEventAttributeKeys
                attrFault.failAttributeKeyCreate oe.1 txs with
            | error e => exact ⟨e, rfl⟩
            | ok oa =>
              rw [ebind_ok]
              exact txLoop_attr_error _ _ txs oa.1 _ hbad
    obtain ⟨e, he⟩ := herr
    refine ⟨e, he, ?_⟩
    unfold IndexNewBlock
    rw [he]

/-- A concrete decoded transaction carrying one message event attribute. -/
def c2tx : TxDBWrapper :=
  ⟨⟨0, "hashA", 0, 0, none⟩,
    [⟨0, ⟨0, "send"⟩, [⟨0, ⟨0, "transfer"⟩, [⟨0, "5atom", ⟨0, "amount"⟩⟩]⟩]⟩],
    [("send", ⟨0, "send"⟩)], [("transfer", ⟨0, "transfer"⟩)],
    [("amount", ⟨0, "amount"⟩)]⟩

/-- C2 witness: on the empty store with one attribute-carrying transaction,
the injected attribute-insert failure aborts `IndexNewBlockT` with an error
and `IndexNewBlock` leaves the store unchanged. -/
theorem c2_rollback_witness :
    ∃ e, IndexNewBlockT attrFault emptyDB 10 100 [c2tx] 1 = .error e ∧
      IndexNewBlock attrFault emptyDB 10 100 [c2tx] 1 = emptyDB :=
  (c2_rollback attrFault emptyDB 10 100 [c2tx] 1).2 (by decide)

/-! ## C9: an unregistered reference key aborts the transaction -/

/-- Values of the two-level dedup merge satisfy any predicate that all
per-transaction map entries satisfy. -/
theorem merged_fold_forall {β : Type} (P : String → β → Prop)
    (get : TxDBWrapper → List (String × β)) :
    ∀ (ws : List TxDBWrapper) (m : List (String × β)),
    (∀ p ∈ m, P p.1 p.2) → (∀ w ∈ ws, ∀ p ∈ get w, P p.1 p.2) →
    ∀ p ∈ ws.foldl
      (fun m2 w => (get w).foldl (fun m3 kv => assocUpd m3 kv.1 kv.2) m2) m,
    P p.1 p.2
  | [], _, hm, _, p, hp => hm p hp
  | w :: tl, m, hm, hws, p, hp =>
    merged_fold_forall P get tl _
      (foldl_assocUpd_forall (get w) m hm (hws w (List.mem_cons_self _ _)))
      (fun w2 hw2 => hws w2 (List.mem_cons_of_mem _ hw2)) p hp

/-- A key of the two-level dedup merge was registered by some transaction. -/
theorem merged_fold_keys {β : Type} (get : TxDBWrapper → List (String × β)) :
    ∀ (ws : List TxDBWrapper) (m : List (String × β)) (x : String),
    x ∈ (ws.foldl
      (fun m2 w => (get w).foldl (fun m3 kv => assocUpd m3 kv.1 kv.2) m2) m).map
        Prod.fst →
    x ∈ m.map Prod.fst ∨ ∃ w ∈ ws, x ∈ (get w).map Prod.fst
  | [], _, _, hx => Or.inl hx
  | w :: tl, m, x, hx => by
    rcases merged_fold_keys get tl _ x hx with h | ⟨w2, hw2, hk⟩
    · rcases foldl_assocUpd_keys_mem (get w) m x h with h2 | h2
      · exact Or.inl h2
      · exact Or.inr ⟨w, List.mem_cons_self _ _, h2⟩
    · exact Or.inr ⟨w2, List.mem_cons_of_mem _ hw2, hk⟩

/-- Entries of the merged message-type map are keyed by their value's
natural key. -/
theorem merged_mt_coherent {txs : List TxDBWrapper} (hin : InputOK txs) :
    ∀ p ∈ mergedMessageTypes txs, p.2.messageType = p.1 :=
  merged_fold_forall (fun k (v : MessageType) => v.messageType = k) (fun w => w.uniqueMessageTypes)
    txs [] (by simp) hin.mtCoherent

/-- Entries of the merged event-type map are keyed by their value's natural
key. -/
theorem merged_et_coherent {txs : List TxDBWrapper} (hin : InputOK txs) :
    ∀ p ∈ mergedMessageEventTypes txs, p.2.typ = p.1 :=
  merged_fold_forall (fun k (v : MessageEventType) => v.typ = k) (fun w => w.uniqueMessageEventTypes)
    txs [] (by simp) hin.etCoherent

/-- Entries of the merged attribute-key map are keyed by their value's
natural key. -/
theorem merged_ak_coherent {txs : List TxDBWrapper} (hin : InputOK txs) :
    ∀ p ∈ mergedMessageAttributeKeys txs, p.2.key = p.1 :=
  merged_fold_forall (fun k (v : MessageEventAttributeKey) => v.key = k) (fun w => w.uniqueMessageAttributeKeys)
    txs [] (by simp) hin.akCoherent

/-- The map `indexMessageTypes` hands the loop has exactly the merged keys:
the id backfill re-inserts only keys the merge already holds. -/
theorem indexMT_keys {flag : Bool} {d : DB} {txs : List TxDBWrapper}
    {om : DB × List Op × List (String × MessageType)}
    (hin : InputOK txs) (h : indexMessageTypes flag d txs = .ok om) :
    (om.2.2).map Prod.fst = (mergedMessageTypes txs).map Prod.fst := by
  simp only [indexMessageTypes] at h
  cases hc : createMessageTypes flag d ((mergedMessageTypes txs).map Prod.snd) with
  | error e => rw [hc, ebind_error] at h; exact absurd h (by simp)
  | ok o =>
    rw [hc, ebind_ok] at h
    simp only [Except.ok.injEq] at h
    have h22 : om.2.2 = o.rets.foldl (fun m mt => assocUpd m mt.messageType mt)
        (mergedMessageTypes txs) := by rw [← h]
    have hkeys : ∀ r ∈ o.rets,
        r.messageType ∈ (mergedMessageTypes txs).map Prod.fst := by
      intro r hr
      obtain ⟨-, hemp, hne⟩ := createMessageTypes_shape hc
      cases he : ((mergedMessageTypes txs).map Prod.snd).isEmpty with
      | true =>
        obtain ⟨-, hrets, -⟩ := hemp he
        rw [hrets] at hr
        exact absurd hr (by simp)
      | false =>
        obtain ⟨-, -, hrets, -⟩ := hne he
        rw [hrets] at hr
        obtain ⟨x, hx, hkey⟩ := batch_rets_keys mtLaws _ _ _ r hr
        obtain ⟨p, hp, hpx⟩ := List.mem_map.mp hx
        have e1 : r.messageType = x.messageType := hkey
        have hrk : r.messageType = p.1 := by
          rw [e1, ← hpx]
          exact merged_mt_coherent hin p hp
        rw [hrk]
        exact List.mem_map_of_mem Prod.fst hp
    rw [h22]
    exact foldl_assocUpd_keys MessageType.messageType o.rets
      (mergedMessageTypes txs) hkeys

/-- As `indexMT_keys`, for event types. -/
theorem indexET_keys {flag : Bool} {d : DB} {txs : List TxDBWrapper}
    {oe : DB × List Op × List (String × MessageEventType)}
    (hin : InputOK txs) (h : indexMessageEventTypes flag d txs = .ok oe) :
    (oe.2.2).map Prod.fst = (mergedMessageEventTypes txs).map Prod.fst := by
  simp only [indexMessageEventTypes] at h
  cases hc : createMessageEventTypes flag d
      ((mergedMessageEventTypes txs).map Prod.snd) with
  | error e => rw [hc, ebind_error] at h; exact absurd h (by simp)
  | ok o =>
    rw [hc, ebind_ok] at h
    simp only [Except.ok.injEq] at h
    have h22 : oe.2.2 = o.rets.foldl (fun m et => assocUpd m et.typ et)
        (mergedMessageEventTypes txs) := by rw [← h]
    have hkeys : ∀ r ∈ o.rets,
        r.typ ∈ (mergedMessageEventTypes txs).map Prod.fst := by
      intro r hr
      obtain ⟨-, hemp, hne⟩ := createMessageEventTypes_shape hc
      cases he : ((mergedMessageEventTypes txs).map Prod.snd).isEmpty with
      | true =>
        obtain ⟨-, hrets, -⟩ := hemp he
        rw [hrets] at hr
        exact absurd hr (by simp)
      | false =>
        obtain ⟨-, -, hrets, -⟩ := hne he
        rw [hrets] at hr
        obtain ⟨x, hx, hkey⟩ := batch_rets_keys etLaws _ _ _ r hr
        obtain ⟨p, hp, hpx⟩ := List.mem_map.mp hx
        have e1 : r.typ = x.typ := hkey
        have hrk : r.typ = p.1 := by
          rw [e1, ← hpx]
          exact merged_et_coherent hin p hp
        rw [hrk]
        exact List.mem_map_of_mem Prod.fst hp
    rw [h22]
    exact foldl_assocUpd_keys MessageEventType.typ o.rets
      (mergedMessageEventTypes txs) hkeys

/-- As `indexMT_keys`, for attribute keys. -/
theorem indexAK_keys {flag : Bool} {d : DB} {txs : List TxDBWrapper}
    {oa : DB × List Op × List (String × MessageEventAttributeKey)}
    (hin : InputOK txs) (h : indexMessageEventAttributeKeys flag d txs = .ok oa) :
    (oa.2.2).map Prod.fst = (mergedMessageAttributeKeys txs).map Prod.fst := by
  simp only [indexMessageEventAttributeKeys] at h
  cases hc : createMessageEventAttributeKeys flag d
      ((mergedMessageAttributeKeys txs).map Prod.snd) with
  | error e => rw [hc, ebind_error] at h; exact absurd h (by simp)
  | ok o =>
    rw [hc, ebind_ok] at h
    simp only [Except.ok.injEq] at h
    have h22 : oa.2.2 = o.rets.foldl (fun m ak => assocUpd m ak.key ak)
        (mergedMessageAttributeKeys txs) := by rw [← h]
    have hkeys : ∀ r ∈ o.rets,
        r.key ∈ (mergedMessageAttributeKeys txs).map Prod.fst := by
      intro r hr
      obtain ⟨-, hemp, hne⟩ := createMessageEventAttributeKeys_shape hc
      cases he : ((mergedMessageAttributeKeys txs).map Prod.snd).isEmpty with
      | true =>
        obtain ⟨-, hrets, -⟩ := hemp he
        rw [hrets] at hr
        exact absurd hr (by simp)
      | false =>
        obtain ⟨-, -, hrets, -⟩ := hne he
        rw [hrets] at hr
        obtain ⟨x, hx, hkey⟩ := batch_rets_keys akLaws _ _ _ r hr
        obtain ⟨p, hp, hpx⟩ := List.mem_map.mp hx
        have e1 : r.key = x.key := hkey
        have hrk : r.key = p.1 := by
          rw [e1, ← hpx]
          exact merged_ak_coherent hin p hp
        rw [hrk]
        exact List.mem_map_of_mem Prod.fst hp
    rw [h22]
    exact foldl_assocUpd_keys MessageEventAttributeKey.key o.rets
      (mergedMessageAttributeKeys txs) hkeys

/-- The reference tables carry positive ids and the id sequence is positive
— what the loop's foreign-key checks need (id 0 never names a row). -/
structure RefPos (db : DB) : Prop where
  next : 1 ≤ db.nextID
  mt : TablePos mtSpec db.messageTypes
  et : TablePos etSpec db.messageEventTypes
  ak : TablePos akSpec db.messageEventAttributeKeys

theorem refpos_block (d : DB) (hh : Int) (t c : Nat) (hp : RefPos d) :
    RefPos (blockFirstOrCreate d hh t c).1 := by
  unfold blockFirstOrCreate
  cases updateFirstMatch (blockWhereMatches hh c) (blockAssign t) d.blocks with
  | some pr =>
    obtain ⟨bs, b⟩ := pr
    exact ⟨hp.next, hp.mt, hp.et, hp.ak⟩
  | none => exact ⟨le_trans hp.next (Nat.le_succ _), hp.mt, hp.et, hp.ak⟩

theorem refpos_createTxs {flag : Bool} {d : DB} {rows : List Tx} {o : StepOut Tx}
    (h : createTxs flag d rows = .ok o) (hp : RefPos d) : RefPos o.db := by
  obtain ⟨hfr, hemp, hne⟩ := createTxs_shape h
  cases he : rows.isEmpty with
  | true =>
    obtain ⟨h1, -, -⟩ := hemp he
    rw [h1]
    exact hp
  | false =>
    obtain ⟨-, hn, -, -⟩ := hne he
    refine ⟨?_, ?_, ?_, ?_⟩
    · rw [hn]
      exact le_trans hp.next (batch_next_ge _ _ _)
    · have e := congrArg DB.messageTypes hfr
      rw [e]
      exact hp.mt
    · have e := congrArg DB.messageEventTypes hfr
      rw [e]
      exact hp.et
    · have e := congrArg DB.messageEventAttributeKeys hfr
      rw [e]
      exact hp.ak

theorem refpos_createMT {flag : Bool} {d : DB} {rows : List MessageType}
    {o : StepOut MessageType} (h : createMessageTypes flag d rows = .ok o)
    (hp : RefPos d) : RefPos o.db := by
  obtain ⟨hfr, hemp, hne⟩ := createMessageTypes_shape h
  cases he : rows.isEmpty with
  | true =>
    obtain ⟨h1, -, -⟩ := hemp he
    rw [h1]
    exact hp
  | false =>
    obtain ⟨ht, hn, -, -⟩ := hne he
    refine ⟨?_, ?_, ?_, ?_⟩
    · rw [hn]
      exact le_trans hp.next (batch_next_ge _ _ _)
    · rw [ht]
      exact batch_pos mtLaws rows hp.next hp.mt
    · have e := congrArg DB.messageEventTypes hfr
      rw [e]
      exact hp.et
    · have e := congrArg DB.messageEventAttributeKeys hfr
      rw [e]
      exact hp.ak

theorem refpos_createET {flag : Bool} {d : DB} {rows : List MessageEventType}
    {o : StepOut MessageEventType} (h : createMessageEventTypes flag d rows = .ok o)
    (hp : RefPos d) : RefPos o.db := by
  obtain ⟨hfr, hemp, hne⟩ := createMessageEventTypes_shape h
  cases he : rows.isEmpty with
  | true =>
    obtain ⟨h1, -, -⟩ := hemp he
    rw [h1]
    exact hp
  | false =>
    obtain ⟨ht, hn, -, -⟩ := hne he
    refine ⟨?_, ?_, ?_, ?_⟩
    · rw [hn]
      exact le_trans hp.next (batch_next_ge _ _ _)
    · have e := congrArg DB.messageTypes hfr
      rw [e]
      exact hp.mt
    · rw [ht]
      exact batch_pos etLaws rows hp.next hp.et
    · have e := congrArg DB.messageEventAttributeKeys hfr
      rw [e]
      exact hp.ak

theorem refpos_createAK {flag : Bool} {d : DB}
    {rows : List MessageEventAttributeKey} {o : StepOut MessageEventAttributeKey}
    (h : createMessageEventAttributeKeys flag d rows = .ok o)
    (hp : RefPos d) : RefPos o.db := by
  obtain ⟨hfr, hemp, hne⟩ := createMessageEventAttributeKeys_shape h
  cases he : rows.isEmpty with
  | true =>
    obtain ⟨h1, -, -⟩ := hemp he
    rw [h1]
    exact hp
  | false =>
    obtain ⟨ht, hn, -, -⟩ := hne he
    refine ⟨?_, ?_, ?_, ?_⟩
    · rw [hn]
      exact le_trans hp.next (batch_next_ge _ _ _)
    · have e := congrArg DB.messageTypes hfr
      rw [e]
      exact hp.mt
    · have e := congrArg DB.messageEventTypes hfr
      rw [e]
      exact hp.et
    · rw [ht]
      exact batch_pos akLaws rows hp.next hp.ak

theorem refpos_indexMT {flag : Bool} {d : DB} {txs : List TxDBWrapper}
    {om : DB × List Op × List (String × MessageType)}
    (h : indexMessageTypes flag d txs = .ok om) (hp : RefPos d) : RefPos om.1 := by
  simp only [indexMessageTypes] at h
  cases hc : createMessageTypes flag d ((mergedMessageTypes txs).map Prod.snd) with
  | error e => rw [hc, ebind_error] at h; exact absurd h (by simp)
  | ok o =>
    rw [hc, ebind_ok] at h
    simp only [Except.ok.injEq] at h
    have h1 : om.1 = o.db := by rw [← h]
    rw [h1]
    exact refpos_createMT hc hp

theorem refpos_indexET {flag : Bool} {d : DB} {txs : List TxDBWrapper}
    {oe : DB × List Op × List (String × MessageEventType)}
    (h : indexMessageEventTypes flag d txs = .ok oe) (hp : RefPos d) :
    RefPos oe.1 := by
  simp only [indexMessageEventTypes] at h
  cases hc : createMessageEventTypes flag d
      ((mergedMessageEventTypes txs).map Prod.snd) with
  | error e => rw [hc, ebind_error] at h; exact absurd h (by simp)
  | ok o =>
    rw [hc, ebind_ok] at h
    simp only [Except.ok.injEq] at h
    have h1 : oe.1 = o.db := by rw [← h]
    rw [h1]
    exact refpos_createET hc hp

theorem refpos_indexAK {flag : Bool} {d : DB} {txs : List TxDBWrapper}
    {oa : DB × List Op × List (String × MessageEventAttributeKey)}
    (h : indexMessageEventAttributeKeys flag d txs = .ok oa) (hp : RefPos d) :
    RefPos oa.1 := by
  simp only [indexMessageEventAttributeKeys] at h
  cases hc : createMessageEventAttributeKeys flag d
      ((mergedMessageAttributeKeys txs).map Prod.snd) with
  | error e => rw [hc, ebind_error] at h; exact absurd h (by simp)
  | ok o =>
    rw [hc, ebind_ok] at h
    simp only [Except.ok.injEq] at h
    have h1 : oa.1 = o.db := by rw [← h]
    rw [h1]
    exact refpos_createAK hc hp

/-- A transaction whose decoded content uses a reference key the loop's maps
do not hold cannot persist: the built row carries foreign key `0` (the Go
zero value of the missed map lookup), which names no row of a positive-id
table, so the store's check rejects the batch. -/
theorem persistOneTx_fk {uniq : List (String × Tx)} {maps : RefMaps} {d : DB}
    {w : TxDBWrapper} {out : DB × List Op} {f : Faults}
    (hmt : TablePos mtSpec d.messageTypes)
    (het : TablePos etSpec d.messageEventTypes)
    (hak : TablePos akSpec d.messageEventAttributeKeys)
    (hbad :
      (∃ m ∈ w.messages, assocFind maps.mt m.messageType.messageType = none) ∨
      (∃ m ∈ w.messages, ∃ ev ∈ m.messageEvents,
        assocFind maps.et ev.messageEventType.typ = none) ∨
      (∃ m ∈ w.messages, ∃ ev ∈ m.messageEvents, ∃ a ∈ ev.attributes,
        assocFind maps.ak a.messageEventAttributeKey.key = none))
    (h : persistOneTx f uniq maps d w = .ok out) : False := by
  simp only [persistOneTx] at h
  cases h1 : createMessages f.failMessageCreate d (msgRowsOf uniq maps w) with
  | error e => rw [h1, ebind_error] at h; exact absurd h (by simp)
  | ok o1 =>
    rw [h1, ebind_ok] at h
    rcases hbad with ⟨m, hm, hfind⟩ | ⟨m, hm, ev, hev, hfind⟩ |
      ⟨m, hm, ev, hev, a, ha, hfind⟩
    · -- unregistered message type
      have hne : (msgRowsOf uniq maps w).isEmpty = false := by
        rw [List.isEmpty_eq_false]
        intro hnil
        unfold msgRowsOf at hnil
        rw [List.map_eq_nil_iff] at hnil
        rw [hnil] at hm
        exact absurd hm (by simp)
      obtain ⟨-, -, hst⟩ := createMessages_shape h1
      obtain ⟨hfk, -⟩ := hst hne
      have hrow : buildMessageRow ((assocFind uniq w.tx.hash).getD zeroTx).id maps.mt m
          ∈ msgRowsOf uniq maps w := List.mem_map_of_mem _ hm
      unfold messageFKOk at hfk
      simp only [List.all_eq_true, List.any_eq_true, beq_iff_eq] at hfk
      obtain ⟨mt, hmtmem, hmtid⟩ := hfk _ hrow
      have hid0 : (buildMessageRow ((assocFind uniq w.tx.hash).getD zeroTx).id
          maps.mt m).messageTypeID = 0 := by
        unfold buildMessageRow
        rw [hfind]
        rfl
      rw [hid0] at hmtid
      have h1le : 1 ≤ mt.id := hmt mt hmtmem
      rw [hmtid] at h1le
      exact absurd h1le (by decide)
    · -- unregistered event type
      have hne : (msgRowsOf uniq maps w).isEmpty = false := by
        rw [List.isEmpty_eq_false]
        intro hnil
        unfold msgRowsOf at hnil
        rw [List.map_eq_nil_iff] at hnil
        rw [hnil] at hm
        exact absurd hm (by simp)
      have hlen : o1.rets.length = w.messages.length := by
        obtain ⟨-, -, hst⟩ := createMessages_shape h1
        obtain ⟨-, -, -, hrets, -⟩ := hst hne
        rw [hrets, batch_rets_length]
        unfold msgRowsOf
        rw [List.length_map]
      obtain ⟨r1, hr1⟩ := zip_exists_left hlen m hm
      have hevmem : (buildEventRow r1.id maps.et ev, ev.attributes) ∈
          evGroupsOf maps o1.rets w := by
        unfold evGroupsOf
        rw [List.mem_flatMap]
        exact ⟨(r1, m), hr1, List.mem_map_of_mem _ hev⟩
      cases h2 : createMessageEvents f.failMessageEventCreate o1.db
          ((evGroupsOf maps o1.rets w).map Prod.fst) with
      | error e => rw [h2, ebind_error] at h; exact absurd h (by simp)
      | ok o2 =>
        have hne2 : ((evGroupsOf maps o1.rets w).map Prod.fst).isEmpty = false := by
          rw [List.isEmpty_eq_false]
          intro hnil
          rw [List.map_eq_nil_iff] at hnil
          rw [hnil] at hevmem
          exact absurd hevmem (by simp)
        obtain ⟨-, -, hst2⟩ := createMessageEvents_shape h2
        obtain ⟨hfk, -⟩ := hst2 hne2
        have hrow : buildEventRow r1.id maps.et ev ∈
            (evGroupsOf maps o1.rets w).map Prod.fst :=
          List.mem_map_of_mem Prod.fst hevmem
        unfold eventFKOk at hfk
        simp only [List.all_eq_true, List.any_eq_true, beq_iff_eq] at hfk
        obtain ⟨et0, hetmem, hetid⟩ := hfk _ hrow
        have hid0 : (buildEventRow r1.id maps.et ev).messageEventTypeID = 0 := by
          unfold buildEventRow
          rw [hfind]
          rfl
        rw [hid0] at hetid
        have hetd : o1.db.messageEventTypes = d.messageEventTypes := by
          have e := congrArg DB.messageEventTypes (createMessages_shape h1).1
          exact e
        have h1le : 1 ≤ et0.id := het et0 (by rw [← hetd]; exact hetmem)
        rw [hetid] at h1le
        exact absurd h1le (by decide)
    · -- unregistered attribute key
      have hne : (msgRowsOf uniq maps w).isEmpty = false := by
        rw [List.isEmpty_eq_false]
        intro hnil
        unfold msgRowsOf at hnil
        rw [List.map_eq_nil_iff] at hnil
        rw [hnil] at hm
        exact absurd hm (by simp)
      have hlen : o1.rets.length = w.messages.length := by
        obtain ⟨-, -, hst⟩ := createMessages_shape h1
        obtain ⟨-, -, -, hrets, -⟩ := hst hne
        rw [hrets, batch_rets_length]
        unfold msgRowsOf
        rw [List.length_map]
      obtain ⟨r1, hr1⟩ := zip_exists_left hlen m hm
      have hevmem : (buildEventRow r1.id maps.et ev, ev.attributes) ∈
          evGroupsOf maps o1.rets w := by
        unfold evGroupsOf
        rw [List.mem_flatMap]
        exact ⟨(r1, m), hr1, List.mem_map_of_mem _ hev⟩
      cases h2 : createMessageEvents f.failMessageEventCreate o1.db
          ((evGroupsOf maps o1.rets w).map Prod.fst) with
      | error e => rw [h2, ebind_error] at h; exact absurd h (by simp)
      | ok o2 =>
        rw [h2, ebind_ok] at h
        have hne2 : ((evGroupsOf maps o1.rets w).map Prod.fst).isEmpty = false := by
          rw [List.isEmpty_eq_false]
          intro hnil
          rw [List.map_eq_nil_iff] at hnil
          rw [hnil] at hevmem
          exact absurd hevmem (by simp)
        have hlen2b : o2.rets.length =
            ((evGroupsOf maps o1.rets w).map Prod.snd).length := by
          obtain ⟨-, -, hst2⟩ := createMessageEvents_shape h2
          obtain ⟨-, -, -, hrets, -⟩ := hst2 hne2
          rw [hrets, batch_rets_length, List.length_map, List.length_map]
        obtain ⟨r2, hr2⟩ := zip_exists_left hlen2b ev.attributes
          (List.mem_map_of_mem Prod.snd hevmem)
        have hattr : buildAttrRow r2.id maps.ak a ∈
            attrRowsOf maps o2.rets (evGroupsOf maps o1.rets w) := by
          unfold attrRowsOf
          rw [List.mem_flatMap]
          exact ⟨(r2, ev.attributes), hr2, List.mem_map_of_mem _ ha⟩
        cases h3 : createMessageEventAttributes f.failAttributeCreate o2.db
            (attrRowsOf maps o2.rets (evGroupsOf maps o1.rets w)) with
        | error e => rw [h3, ebind_error] at h; exact absurd h (by simp)
        | ok o3 =>
          have hne3 : (attrRowsOf maps o2.rets
              (evGroupsOf maps o1.rets w)).isEmpty = false := by
            rw [List.isEmpty_eq_false]
            intro hnil
            rw [hnil] at hattr
            exact absurd hattr (by simp)
          obtain ⟨-, -, hst3⟩ := createMessageEventAttributes_shape h3
          obtain ⟨hfk, -⟩ := hst3 hne3
          unfold attrFKOk at hfk
          simp only [List.all_eq_true, List.any_eq_true, beq_iff_eq] at hfk
          obtain ⟨ak0, hakmem, hakid⟩ := hfk _ hattr
          have hid0 : (buildAttrRow r2.id maps.ak a).messageEventAttributeKeyID = 0 := by
            unfold buildAttrRow
            rw [hfind]
            rfl
          rw [hid0] at hakid
          have hakd1 : o1.db.messageEventAttributeKeys = d.messageEventAttributeKeys := by
            have e := congrArg DB.messageEventAttributeKeys (createMessages_shape h1).1
            exact e
          have hakd2 : o2.db.messageEventAttributeKeys =
              o1.db.messageEventAttributeKeys := by
            have e := congrArg DB.messageEventAttributeKeys
              (createMessageEvents_shape h2).1
            exact e
          have h1le : 1 ≤ ak0.id := hak ak0 (by rw [← hakd1, ← hakd2]; exact hakmem)
          rw [hakid] at h1le
          exact absurd h1le (by decide)

/-- The loop aborts whenever some transaction uses a key absent from the
maps (over positive-id reference tables, as the pipeline establishes). -/
theorem txLoop_fk_error {uniq : List (String × Tx)} {maps : RefMaps} {f : Faults} :
    ∀ (ws : List TxDBWrapper) (d : DB) (ops : List Op),
    TablePos mtSpec d.messageTypes → TablePos etSpec d.messageEventTypes →
    TablePos akSpec d.messageEventAttributeKeys →
    (∃ w ∈ ws,
      (∃ m ∈ w.messages, assocFind maps.mt m.messageType.messageType = none) ∨
      (∃ m ∈ w.messages, ∃ ev ∈ m.messageEvents,
        assocFind maps.et ev.messageEventType.typ = none) ∨
      (∃ m ∈ w.messages, ∃ ev ∈ m.messageEvents, ∃ a ∈ ev.attributes,
        assocFind maps.ak a.messageEventAttributeKey.key = none)) →
    ∃ e, txLoop f uniq maps d ops ws = .error e
  | [], _, _, _, _, _, hbad => absurd hbad (by simp)
  | w :: ws, d, ops, hmt, het, hak, hbad => by
    unfold txLoop
    cases h1 : persistOneTx f uniq maps d w with
    | error e => exact ⟨e, rfl⟩
    | ok o =>
      obtain ⟨w0, hw0, hbad0⟩ := hbad
      rcases List.mem_cons.mp hw0 with rfl | hw0
      · exact absurd h1 (fun hc => persistOneTx_fk hmt het hak hbad0 hc)
      · have s1 := persistOneTx_shape h1
        have hmt2 : TablePos mtSpec o.1.messageTypes := by
          have e := congrArg DB.messageTypes s1
          rw [e]
          exact hmt
        have het2 : TablePos etSpec o.1.messageEventTypes := by
          have e := congrArg DB.messageEventTypes s1
          rw [e]
          exact het
        have hak2 : TablePos akSpec o.1.messageEventAttributeKeys := by
          have e := congrArg DB.messageEventAttributeKeys s1
          rw [e]
          exact hak
        exact txLoop_fk_error ws o.1 (ops ++ o.2) hmt2 het2 hak2 ⟨w0, hw0, hbad0⟩

/-- C9.  When some message, event or attribute of the block uses a
reference key (message type, event type or attribute key) that no
transaction registered in its deduplication maps, `IndexNewBlock` fails the
transaction with an error — the missed lookup's zero-value foreign key `0`
names no row — and the store rolls back unchanged. -/
theorem c9_unregistered_key (db : DB) (hgt : Int) (t : Nat)
    (txs : List TxDBWrapper) (c : Nat) (hwf : DBWF db) (hin : InputOK txs)
    (hbad :
      (∃ w ∈ txs, ∃ m ∈ w.messages, ∀ w2 ∈ txs,
        m.messageType.messageType ∉ w2.uniqueMessageTypes.map Prod.fst) ∨
      (∃ w ∈ txs, ∃ m ∈ w.messages, ∃ ev ∈ m.messageEvents, ∀ w2 ∈ txs,
        ev.messageEventType.typ ∉ w2.uniqueMessageEventTypes.map Prod.fst) ∨
      (∃ w ∈ txs, ∃ m ∈ w.messages, ∃ ev ∈ m.messageEvents, ∃ a ∈ ev.attributes,
        ∀ w2 ∈ txs,
        a.messageEventAttributeKey.key ∉ w2.uniqueMessageAttributeKeys.map Prod.fst)) :
    ∃ e, IndexNewBlockT noFaults db hgt t txs c = .error e ∧
      IndexNewBlock noFaults db hgt t txs c = db := by
  have herr : ∃ e, IndexNewBlockT noFaults db hgt t txs c = .error e := by
    simp only [IndexNewBlockT]
    rw [if_neg (by decide : ¬(noFaults.failDeleteFailedBlocks = true)),
        if_neg (by decide : ¬(noFaults.failBlockUpsert = true))]
    cases h1 : createTxs noFaults.failTxCreate
        (blockFirstOrCreate { db with
          failedBlocks := db.failedBlocks.filter (fbKeep hgt c) } hgt t c).1
        ((uniqueTxList txs (blockFirstOrCreate { db with
          failedBlocks := db.failedBlocks.filter (fbKeep hgt c) } hgt t c).2.id).map
          Prod.snd) with
    | error e => exact ⟨e, rfl⟩
    | ok ot =>
      rw [ebind_ok]
      cases h2 : indexMessageTypes noFaults.failMessageTypeCreate ot.db txs with
      | error e => exact ⟨e, rfl⟩
      | ok om =>
        rw [ebind_ok]
        cases h3 : indexMessageEventTypes noFaults.failMessageEventTypeCreate
            om.1 txs with
        | error e => exact ⟨e, rfl⟩
        | ok oe =>
          rw [ebind_ok]
          cases h4 : indexMessageEventAttributeKeys noFaults.failAttributeKeyCreate
              oe.1 txs with
          | error e => exact ⟨e, rfl⟩
          | ok oa =>
            rw [ebind_ok]
            have rp0 : RefPos { db with
                failedBlocks := db.failedBlocks.filter (fbKeep hgt c) } :=
              ⟨hwf.nextPos, hwf.mtPos, hwf.etPos, hwf.akPos⟩
            have rp1 := refpos_block _ hgt t c rp0
            have rp2 := refpos_createTxs h1 rp1
            have rp3 := refpos_indexMT h2 rp2
            have rp4 := refpos_indexET h3 rp3
            have rp5 := refpos_indexAK h4 rp4
            refine txLoop_fk_error txs oa.1 _ rp5.mt rp5.et rp5.ak ?_
            rcases hbad with ⟨w, hw, m, hm, hkey⟩ | ⟨w, hw, m, hm, ev, hev, hkey⟩ |
              ⟨w, hw, m, hm, ev, hev, a, ha, hkey⟩
            · refine ⟨w, hw, Or.inl ⟨m, hm, ?_⟩⟩
              show assocFind om.2.2 m.messageType.messageType = none
              apply assocFind_eq_none
              rw [indexMT_keys hin h2]
              intro hmem
              rcases merged_fold_keys (fun w3 => w3.uniqueMessageTypes) txs [] _
                hmem with hc | ⟨w2, hw2, hk2⟩
              · exact absurd hc (by simp)
              · exact hkey w2 hw2 hk2
            · refine ⟨w, hw, Or.inr (Or.inl ⟨m, hm, ev, hev, ?_⟩)⟩
              show assocFind oe.2.2 ev.messageEventType.typ = none
              apply assocFind_eq_none
              rw [indexET_keys hin h3]
              intro hmem
              rcases merged_fold_keys (fun w3 => w3.uniqueMessageEventTypes) txs [] _
                hmem with hc | ⟨w2, hw2, hk2⟩
              · exact absurd hc (by simp)
              · exact hkey w2 hw2 hk2
            · refine ⟨w, hw, Or.inr (Or.inr ⟨m, hm, ev, hev, a, ha, ?_⟩)⟩
              show assocFind oa.2.2 a.messageEventAttributeKey.key = none
              apply assocFind_eq_none
              rw [indexAK_keys hin h4]
              intro hmem
              rcases merged_fold_keys (fun w3 => w3.uniqueMessageAttributeKeys) txs [] _
                hmem with hc | ⟨w2, hw2, hk2⟩
              · exact absurd hc (by simp)
              · exact hkey w2 hw2 hk2
  obtain ⟨e, he⟩ := herr
  refine ⟨e, he, ?_⟩
  unfold IndexNewBlock
  rw [he]

/-- A decoded transaction whose only message uses message type `"unknown"`
without registering it in any dedup map. -/
def c9tx : TxDBWrapper :=
  ⟨⟨0, "hashC", 0, 0, none⟩, [⟨0, ⟨0, "unknown"⟩, []⟩], [], [], []⟩

/-- C9 witness: on the empty store, a block whose single transaction uses
the unregistered message type `"unknown"` makes `IndexNewBlock` fail and
leaves the store unchanged. -/
theorem c9_unregistered_key_witness :
    ∃ e, IndexNewBlockT noFaults emptyDB 10 100 [c9tx] 1 = .error e ∧
      IndexNewBlock noFaults emptyDB 10 100 [c9tx] 1 = emptyDB :=
  c9_unregistered_key emptyDB 10 100 [c9tx] 1
    ⟨by decide, by unfold TableWF; decide, by unfold TablePos; decide,
     by unfold TableWF; decide, by unfold TablePos; decide,
     by unfold TableWF; decide, by unfold TablePos; decide,
     by unfold TableWF; decide, by unfold TablePos; decide,
     by unfold TableWF; decide, by unfold TablePos; decide,
     by unfold TableWF; decide, by unfold TablePos; decide,
     by unfold TableWF; decide, by unfold TablePos; decide⟩
    ⟨by decide, by decide, by decide, by decide, by decide, by decide, by decide⟩
    (Or.inl (by decide))

/-! ## C8: conflict refresh scope of the Tx upsert -/

/-- `indexMessageTypes` writes only the message-types table and the id
sequence. -/
theorem indexMT_frame {flag : Bool} {d : DB} {txs : List TxDBWrapper}
    {om : DB × List Op × List (String × MessageType)}
    (h : indexMessageTypes flag d txs = .ok om) :
    om.1 = { d with messageTypes := om.1.messageTypes, nextID := om.1.nextID } := by
  simp only [indexMessageTypes] at h
  cases hc : createMessageTypes flag d ((mergedMessageTypes txs).map Prod.snd) with
  | error e => rw [hc, ebind_error] at h; exact absurd h (by simp)
  | ok o =>
    rw [hc, ebind_ok] at h
    simp only [Except.ok.injEq] at h
    have h1 : om.1 = o.db := by rw [← h]
    rw [h1]
    exact (createMessageTypes_shape hc).1

/-- `indexMessageEventTypes` writes only the event-types table and the id
sequence. -/
theorem indexET_frame {flag : Bool} {d : DB} {txs : List TxDBWrapper}
    {oe : DB × List Op × List (String × MessageEventType)}
    (h : indexMessageEventTypes flag d txs = .ok oe) :
    oe.1 = { d with
      messageEventTypes := oe.1.messageEventTypes
      nextID := oe.1.nextID } := by
  simp only [indexMessageEventTypes] at h
  cases hc : createMessageEventTypes flag d
      ((mergedMessageEventTypes txs).map Prod.snd) with
  | error e => rw [hc, ebind_error] at h; exact absurd h (by simp)
  | ok o =>
    rw [hc, ebind_ok] at h
    simp only [Except.ok.injEq] at h
    have h1 : oe.1 = o.db := by rw [← h]
    rw [h1]
    exact (createMessageEventTypes_shape hc).1

/-- `indexMessageEventAttributeKeys` writes only the attribute-keys table
and the id sequence. -/
theorem indexAK_frame {flag : Bool} {d : DB} {txs : List TxDBWrapper}
    {oa : DB × List Op × List (String × MessageEventAttributeKey)}
    (h : indexMessageEventAttributeKeys flag d txs = .ok oa) :
    oa.1 = { d with
      messageEventAttributeKeys := oa.1.messageEventAttributeKeys
      nextID := oa.1.nextID } := by
  simp only [indexMessageEventAttributeKeys] at h
  cases hc : createMessageEventAttributeKeys flag d
      ((mergedMessageAttributeKeys txs).map Prod.snd) with
  | error e => rw [hc, ebind_error] at h; exact absurd h (by simp)
  | ok o =>
    rw [hc, ebind_ok] at h
    simp only [Except.ok.injEq] at h
    have h1 : oa.1 = o.db := by rw [← h]
    rw [h1]
    exact (createMessageEventAttributeKeys_shape hc).1

/-- An entry of an updated map is an old entry or the inserted pair. -/
theorem assocUpd_mem {β : Type} :
    ∀ (m : List (String × β)) (k : String) (v : β), ∀ p ∈ assocUpd m k v,
    p ∈ m ∨ p = (k, v)
  | [], k, v, p, hp => Or.inr (by simpa [assocUpd] using hp)
  | (k1, v1) :: tl, k, v, p, hp => by
    by_cases h : k1 = k
    · rw [assocUpd, if_pos h] at hp
      rcases List.mem_cons.mp hp with rfl | hp2
      · exact Or.inr (by rw [h])
      · exact Or.inl (List.mem_cons_of_mem _ hp2)
    · rw [assocUpd, if_neg h] at hp
      rcases List.mem_cons.mp hp with rfl | hp2
      · exact Or.inl (List.mem_cons_self _ _)
      · rcases assocUpd_mem tl k v p hp2 with h2 | h2
        · exact Or.inl (List.mem_cons_of_mem _ h2)
        · exact Or.inr h2

/-- Every entry of `uniqueTxes` is a decoded transaction's `Tx` with the
block id attached (keyed by its hash). -/
theorem uniqueTxList_values (bid : Nat) :
    ∀ (ws : List TxDBWrapper) (m : List (String × Tx)),
    ∀ p ∈ ws.foldl
      (fun m2 w => assocUpd m2 w.tx.hash { w.tx with blockID := bid }) m,
    p ∈ m ∨ ∃ w ∈ ws, p = (w.tx.hash, { w.tx with blockID := bid })
  | [], _, p, hp => Or.inl hp
  | w :: tl, m, p, hp => by
    rcases uniqueTxList_values bid tl _ p hp with h | ⟨w2, hw2, he⟩
    · rcases assocUpd_mem m w.tx.hash _ p h with h2 | h2
      · exact Or.inl h2
      · exact Or.inr ⟨w, List.mem_cons_self _ _, h2⟩
    · exact Or.inr ⟨w2, List.mem_cons_of_mem _ hw2, he⟩

/-- The conflict refresh of the Tx upsert (db.go 259-261) touches only
`code`, `blockID` and `signerAddressID`: an already-stored row keeps its
surrogate id and hash, and is either untouched or refreshed from a decoded
transaction carrying the same hash. -/
def txRefreshOnly (txs : List TxDBWrapper) (r0 r1 : Tx) : Prop :=
  r1.id = r0.id ∧ r1.hash = r0.hash ∧
    (r1 = r0 ∨ ∃ w ∈ txs, w.tx.hash = r0.hash ∧
      r1.code = w.tx.code ∧ r1.signerAddressID = w.tx.signerAddressID)

/-- C8.  After a successful `IndexNewBlock`, the stored Tx table is the old
rows — in place, positionally — followed by appended new rows; each old row
keeps its id and hash, and is unchanged unless a same-hash transaction was
re-persisted, in which case exactly `code`, `blockID` and `signerAddressID`
were refreshed (`code`/`signerAddressID` to the decoded transaction's
values). -/
theorem c8_conflict_refresh {f : Faults} {db : DB} {hgt : Int} {t : Nat}
    {txs : List TxDBWrapper} {c : Nat} {out : DB × List Op}
    (hok : IndexNewBlockT f db hgt t txs c = .ok out) :
    ∃ t1 new, out.1.txs = t1 ++ new ∧
      List.Forall₂ (txRefreshOnly txs) db.txs t1 := by
  simp only [IndexNewBlockT] at hok
  split at hok
  · exact absurd hok (by simp)
  · split at hok
    · exact absurd hok (by simp)
    · cases h1 : createTxs f.failTxCreate
          (blockFirstOrCreate { db with
            failedBlocks := db.failedBlocks.filter (fbKeep hgt c) } hgt t c).1
          ((uniqueTxList txs (blockFirstOrCreate { db with
            failedBlocks := db.failedBlocks.filter (fbKeep hgt c) } hgt t c).2.id).map
            Prod.snd) with
      | error e => rw [h1, ebind_error] at hok; exact absurd hok (by simp)
      | ok ot =>
        rw [h1, ebind_ok] at hok
        cases h2 : indexMessageTypes f.failMessageTypeCreate ot.db txs with
        | error e => rw [h2, ebind_error] at hok; exact absurd hok (by simp)
        | ok om =>
          rw [h2, ebind_ok] at hok
          cases h3 : indexMessageEventTypes f.failMessageEventTypeCreate om.1 txs with
          | error e => rw [h3, ebind_error] at hok; exact absurd hok (by simp)
          | ok oe =>
            rw [h3, ebind_ok] at hok
            cases h4 : indexMessageEventAttributeKeys f.failAttributeKeyCreate
                oe.1 txs with
            | error e => rw [h4, ebind_error] at hok; exact absurd hok (by simp)
            | ok oa =>
              rw [h4, ebind_ok] at hok
              have sl := txLoop_shape hok
              have e1 : out.1.txs = oa.1.txs := by
                have e := congrArg DB.txs sl
                exact e
              have e2 : oa.1.txs = oe.1.txs := by
                have e := congrArg DB.txs (indexAK_frame h4)
                exact e
              have e3 : oe.1.txs = om.1.txs := by
                have e := congrArg DB.txs (indexET_frame h3)
                exact e
              have e4 : om.1.txs = ot.db.txs := by
                have e := congrArg DB.txs (indexMT_frame h2)
                exact e
              have hout : out.1.txs = ot.db.txs := ((e1.trans e2).trans e3).trans e4
              have hpb : (blockFirstOrCreate { db with
                  failedBlocks := db.failedBlocks.filter (fbKeep hgt c) }
                    hgt t c).1.txs = db.txs := by
                have e := congrArg DB.txs (blockFirstOrCreate_frame { db with
                  failedBlocks := db.failedBlocks.filter (fbKeep hgt c) } hgt t c)
                exact e
              obtain ⟨-, hemp, hne⟩ := createTxs_shape h1
              cases he : ((uniqueTxList txs (blockFirstOrCreate { db with
                  failedBlocks := db.failedBlocks.filter (fbKeep hgt c) }
                    hgt t c).2.id).map Prod.snd).isEmpty with
              | true =>
                obtain ⟨hdb, -, -⟩ := hemp he
                refine ⟨db.txs, [], ?_, ?_⟩
                · rw [List.append_nil, hout, hdb, hpb]
                · exact List.forall₂_same.mpr fun r _ => ⟨rfl, rfl, Or.inl rfl⟩
              | false =>
                obtain ⟨htx, -, -, -⟩ := hne he
                obtain ⟨t1, new, hsplit, hrel, -⟩ := batch_shape txLaws
                  ((uniqueTxList txs (blockFirstOrCreate { db with
                    failedBlocks := db.failedBlocks.filter (fbKeep hgt c) }
                      hgt t c).2.id).map Prod.snd)
                  (blockFirstOrCreate { db with
                    failedBlocks := db.failedBlocks.filter (fbKeep hgt c) }
                      hgt t c).1.txs
                  (blockFirstOrCreate { db with
                    failedBlocks := db.failedBlocks.filter (fbKeep hgt c) }
                      hgt t c).1.nextID
                rw [hpb] at hrel
                refine ⟨t1, new, by rw [hout, htx, hsplit], ?_⟩
                refine List.Forall₂.imp ?_ hrel
                intro r0 r1 hr
                obtain ⟨hid, hkey, hcase⟩ := hr
                refine ⟨hid, hkey, ?_⟩
                rcases hcase with rfl | ⟨x, hx, hxkey, rfl⟩
                · exact Or.inl rfl
                · obtain ⟨p, hp, hpx⟩ := List.mem_map.mp hx
                  rcases uniqueTxList_values (blockFirstOrCreate { db with
                      failedBlocks := db.failedBlocks.filter (fbKeep hgt c) }
                        hgt t c).2.id txs [] p hp with h0 | ⟨w, hw, hpe⟩
                  · exact absurd h0 (by simp)
                  · have hxe : x = { w.tx with blockID := (blockFirstOrCreate { db with
                        failedBlocks := db.failedBlocks.filter (fbKeep hgt c) }
                          hgt t c).2.id } := by
                      rw [← hpx, hpe]
                    have ehash : x.hash = w.tx.hash := by
                      have e := congrArg Tx.hash hxe
                      exact e
                    have ecode : x.code = w.tx.code := by
                      have e := congrArg Tx.code hxe
                      exact e
                    have esig : x.signerAddressID = w.tx.signerAddressID := by
                      have e := congrArg Tx.signerAddressID hxe
                      exact e
                    refine Or.inr ⟨w, hw, ?_, ?_, ?_⟩
                    · rw [← ehash]
                      exact hxkey
                    · show x.code = w.tx.code
                      exact ecode
                    · show x.signerAddressID = w.tx.signerAddressID
                      exact esig

/-- A store holding one Tx row. -/
def c8db : DB :=
  ⟨6, [], [], [⟨5, "hashA", 7, 3, none⟩], [], [], [], [], [], [], []⟩

/-- A decoded transaction re-persisting hash `hashA` with a changed code. -/
def c8tx : TxDBWrapper := ⟨⟨0, "hashA", 0, 0, none⟩, [], [], [], []⟩

/-- C8 witness: re-persisting `hashA` over `c8db` succeeds (the row keeps
id 5 and its hash, code/blockID/signer refreshed) and the stored rows
decompose as the theorem states. -/
theorem c8_conflict_refresh_witness :
    ∃ t1 new,
      ((⟨7, [], [⟨6, 10, 1, 100, true, false⟩], [⟨5, "hashA", 0, 6, none⟩],
          [], [], [], [], [], [], []⟩ : DB), ([Op.createTxs] : List Op)).1.txs =
        t1 ++ new ∧
      List.Forall₂ (txRefreshOnly [c8tx]) c8db.txs t1 := by
  have hok : IndexNewBlockT noFaults c8db 10 100 [c8tx] 1 =
      .ok ((⟨7, [], [⟨6, 10, 1, 100, true, false⟩], [⟨5, "hashA", 0, 6, none⟩],
        [], [], [], [], [], [], []⟩ : DB), [Op.createTxs]) := by rfl
  exact c8_conflict_refresh hok

/-! ## Shared machinery for C7/C1: map folds, batch key uniqueness, tx-hash
resolution -/

theorem assocFind_assocUpd {β : Type} :
    ∀ (m : List (String × β)) (k q : String) (v : β),
    assocFind (assocUpd m k v) q = if k = q then some v else assocFind m q
  | [], k, q, v => by
    by_cases h : k = q <;> simp [assocUpd, assocFind, h]
  | (k1, v1) :: tl, k, q, v => by
    by_cases h : k1 = k
    · subst h
      by_cases hq : k1 = q <;> simp [assocUpd, assocFind, hq]
    · by_cases hq : k1 = q
      · have hkq : ¬ (k = q) := fun hh => h (hq.trans hh.symm)
        have hqk : ¬ (q = k) := fun hh => hkq hh.symm
        simp [assocUpd, assocFind, h, hq, hkq, hqk]
      · simp [assocUpd, assocFind, h, hq, assocFind_assocUpd tl k q v]

/-- Folding inserts whose keys avoid `q` leaves the binding of `q` alone. -/
theorem foldl_assocUpd_find_preserve {β γ : Type} (k : γ → String) (v : γ → β) :
    ∀ (es : List γ) (m : List (String × β)) (q : String),
    (∀ e ∈ es, k e ≠ q) →
    assocFind (es.foldl (fun m2 e => assocUpd m2 (k e) (v e)) m) q = assocFind m q
  | [], _, _, _ => rfl
  | e :: tl, m, q, h => by
    simp only [List.foldl_cons]
    rw [foldl_assocUpd_find_preserve k v tl _ q
      (fun e2 he2 => h e2 (List.mem_cons_of_mem _ he2))]
    rw [assocFind_assocUpd, if_neg (h e (List.mem_cons_self _ _))]

/-- A binding every further insert for its key re-establishes is kept. -/
theorem foldl_assocUpd_find_from {β γ : Type} (k : γ → String) (v : γ → β) :
    ∀ (es : List γ) (m : List (String × β)) (q : String) (r : β),
    assocFind m q = some r → (∀ e ∈ es, k e = q → v e = r) →
    assocFind (es.foldl (fun m2 e => assocUpd m2 (k e) (v e)) m) q = some r
  | [], _, _, _, hm, _ => hm
  | e :: tl, m, q, r, hm, h => by
    simp only [List.foldl_cons]
    refine foldl_assocUpd_find_from k v tl _ q r ?_
      (fun e2 he2 => h e2 (List.mem_cons_of_mem _ he2))
    rw [assocFind_assocUpd]
    by_cases hk : k e = q
    · rw [if_pos hk, h e (List.mem_cons_self _ _) hk]
    · rw [if_neg hk]
      exact hm

/-- With a unique value for key `q` among the inserts, the fold binds `q`
to it. -/
theorem foldl_assocUpd_find {β γ : Type} (k : γ → String) (v : γ → β) :
    ∀ (es : List γ) (m : List (String × β)) (q : String) (r : γ),
    r ∈ es → k r = q → (∀ e ∈ es, k e = q → v e = v r) →
    assocFind (es.foldl (fun m2 e => assocUpd m2 (k e) (v e)) m) q = some (v r)
  | [], _, _, r, hr, _, _ => absurd hr (by simp)
  | e :: tl, m, q, r, hr, hk, huniq => by
    simp only [List.foldl_cons]
    by_cases hke : k e = q
    · refine foldl_assocUpd_find_from k v tl _ q (v r) ?_
        (fun e2 he2 hk2 => huniq e2 (List.mem_cons_of_mem _ he2) hk2)
      rw [assocFind_assocUpd, if_pos hke, huniq e (List.mem_cons_self _ _) hke]
    · have hrtl : r ∈ tl := by
        rcases List.mem_cons.mp hr with rfl | h2
        · exact absurd hk hke
        · exact h2
      exact foldl_assocUpd_find k v tl _ q r hrtl hk
        (fun e2 he2 hk2 => huniq e2 (List.mem_cons_of_mem _ he2) hk2)

theorem foldl_assocUpd_gen_keys_nodup {β γ : Type} (k : γ → String) (v : γ → β) :
    ∀ (es : List γ) (m : List (String × β)), (m.map Prod.fst).Nodup →
    ((es.foldl (fun m2 e => assocUpd m2 (k e) (v e)) m).map Prod.fst).Nodup
  | [], _, h => h
  | e :: tl, m, h => by
    simp only [List.foldl_cons]
    exact foldl_assocUpd_gen_keys_nodup k v tl _ (assocUpd_keys_nodup h _ _)

theorem foldl_assocUpd_gen_mono {β γ : Type} (k : γ → String) (v : γ → β) :
    ∀ (es : List γ) (m : List (String × β)) (x : String),
    x ∈ m.map Prod.fst →
    x ∈ (es.foldl (fun m2 e => assocUpd m2 (k e) (v e)) m).map Prod.fst
  | [], _, _, h => h
  | e :: tl, m, x, h => by
    simp only [List.foldl_cons]
    refine foldl_assocUpd_gen_mono k v tl _ x ?_
    rw [assocUpd_keys]
    by_cases hk : k e ∈ m.map Prod.fst
    · rw [if_pos hk]
      exact h
    · rw [if_neg hk]
      exact List.mem_append.mpr (Or.inl h)

theorem foldl_assocUpd_gen_mem {β γ : Type} (k : γ → String) (v : γ → β) :
    ∀ (es : List γ) (m : List (String × β)) (r : γ), r ∈ es →
    k r ∈ (es.foldl (fun m2 e => assocUpd m2 (k e) (v e)) m).map Prod.fst
  | [], _, r, hr => absurd hr (by simp)
  | e :: tl, m, r, hr => by
    simp only [List.foldl_cons]
    rcases List.mem_cons.mp hr with rfl | h2
    · refine foldl_assocUpd_gen_mono k v tl _ _ ?_
      rw [assocUpd_keys]
      by_cases hk : k r ∈ m.map Prod.fst
      · rw [if_pos hk]
        exact hk
      · rw [if_neg hk]
        exact List.mem_append.mpr (Or.inr (by simp))
    · exact foldl_assocUpd_gen_mem k v tl _ r h2

/-- Mapping the values of a coherent association list by their key function
recovers the key list. -/
theorem map_snd_key {β : Type} (key : β → String) :
    ∀ (l : List (String × β)), (∀ p ∈ l, key p.2 = p.1) →
    (l.map Prod.snd).map key = l.map Prod.fst
  | [], _ => rfl
  | p :: tl, h => by
    simp only [List.map_cons]
    rw [h p (List.mem_cons_self _ _),
      map_snd_key key tl (fun q hq => h q (List.mem_cons_of_mem _ hq))]

/-- Keys of the two-level dedup merge are pairwise distinct. -/
theorem merged_fold_keys_nodup {β : Type} (get : TxDBWrapper → List (String × β)) :
    ∀ (ws : List TxDBWrapper) (m : List (String × β)), (m.map Prod.fst).Nodup →
    (((ws.foldl (fun m2 w => (get w).foldl
      (fun m3 kv => assocUpd m3 kv.1 kv.2) m2) m)).map Prod.fst).Nodup
  | [], _, h => h
  | w :: tl, m, h => by
    simp only [List.foldl_cons]
    exact merged_fold_keys_nodup get tl _
      (foldl_assocUpd_gen_keys_nodup Prod.fst Prod.snd (get w) m h)

theorem merged_fold_mono {β : Type} (get : TxDBWrapper → List (String × β)) :
    ∀ (ws : List TxDBWrapper) (m : List (String × β)) (x : String),
    x ∈ m.map Prod.fst →
    x ∈ ((ws.foldl (fun m2 w => (get w).foldl
      (fun m3 kv => assocUpd m3 kv.1 kv.2) m2) m)).map Prod.fst
  | [], _, _, h => h
  | w :: tl, m, x, h => by
    simp only [List.foldl_cons]
    exact merged_fold_mono get tl _ x
      (foldl_assocUpd_gen_mono Prod.fst Prod.snd (get w) m x h)

/-- A key some transaction registers ends up in the merged dedup map. -/
theorem merged_fold_of_mem {β : Type} (get : TxDBWrapper → List (String × β)) :
    ∀ (ws : List TxDBWrapper) (m : List (String × β)) (w : TxDBWrapper)
      (x : String), w ∈ ws → x ∈ (get w).map Prod.fst →
    x ∈ ((ws.foldl (fun m2 w2 => (get w2).foldl
      (fun m3 kv => assocUpd m3 kv.1 kv.2) m2) m)).map Prod.fst
  | [], _, _, _, hw, _ => absurd hw (by simp)
  | w2 :: tl, m, w, x, hw, hx => by
    simp only [List.foldl_cons]
    rcases List.mem_cons.mp hw with rfl | h2
    · refine merged_fold_mono get tl _ x ?_
      obtain ⟨p, hp, hpx⟩ := List.mem_map.mp hx
      rw [← hpx]
      exact foldl_assocUpd_gen_mem Prod.fst Prod.snd (get w) m p hp
    · exact merged_fold_of_mem get tl _ w x h2 hx

section MoreBatch

variable {α κ : Type} [DecidableEq κ] {s : UpsertSpec α κ}

/-- An upsert never creates a duplicate conflict value in the table. -/
theorem upsert1_keys_nodup (hL : UpsertLaws s) {t : List α} (x : α) (n : Nat)
    (h : (t.map s.key).Nodup) : ((upsert1 s t n x).table.map s.key).Nodup := by
  unfold upsert1
  cases hu : updateFirstMatch (umP s x) (umU s x) t with
  | some pr =>
    obtain ⟨t2, r⟩ := pr
    obtain ⟨l1, a, l2, hteq, hl1, hpa, ht2, hr⟩ := ufm_eq_some hu
    show (t2.map s.key).Nodup
    rw [ht2]
    have hax : s.key a = s.key x := of_decide_eq_true hpa
    have hkeyeq : (l1 ++ umU s x a :: l2).map s.key = (l1 ++ a :: l2).map s.key := by
      simp only [List.map_append, List.map_cons]
      rw [show s.key (umU s x a) = s.key a from hL.key_refresh a x hax]
    rw [hkeyeq, ← hteq]
    exact h
  | none =>
    show ((t ++ [s.withID x n]).map s.key).Nodup
    rw [List.map_append, List.nodup_append]
    refine ⟨h, by simp, fun y hy hmem => ?_⟩
    obtain ⟨b, hb, hbk⟩ := List.mem_map.mp hy
    have hall := ufm_eq_none.mp hu b hb
    have hbx : s.key b ≠ s.key x := by
      simpa [umP] using hall
    simp only [List.map_cons, List.map_nil, List.mem_singleton] at hmem
    rw [hmem, hL.key_withID] at hbk
    exact hbx hbk

theorem batch_keys_nodup (hL : UpsertLaws s) :
    ∀ (rows : List α) {t : List α} {n : Nat}, (t.map s.key).Nodup →
    ((batchUpsert s t n rows).table.map s.key).Nodup
  | [], _, _, h => h
  | x :: xs, t, n, h => by
    show ((batchUpsert s (upsert1 s t n x).table
      (upsert1 s t n x).next xs).table.map s.key).Nodup
    exact batch_keys_nodup hL xs (upsert1_keys_nodup hL x n h)

/-- The returned rows of a stable batch carry the slice's conflict values,
positionally. -/
theorem bstablew_rets_keys (hL : UpsertLaws s) :
    ∀ {rows t R : List α}, BStableW s t rows R →
    R.map s.key = rows.map s.key := by
  intro rows
  induction rows with
  | nil =>
    intro t R h
    obtain ⟨hlen, -⟩ := h
    have hR : R = [] := List.eq_nil_of_length_eq_zero (by simpa using hlen.symm)
    rw [hR]
  | cons x xs ih =>
    intro t R h
    obtain ⟨hlen, hall⟩ := h
    cases R with
    | nil => exact absurd hlen (by simp)
    | cons r rs =>
      obtain ⟨row, hst, hret⟩ := hall (x, r)
        (by rw [List.zip_cons_cons]; exact List.mem_cons_self _ _)
      have hxs : BStableW s t xs rs :=
        ⟨by simpa using hlen, fun pr hpr => hall pr
          (by rw [List.zip_cons_cons]; exact List.mem_cons_of_mem _ hpr)⟩
      have hret2 : r = s.withID x (s.rid row) := hret
      simp only [List.map_cons]
      rw [ih hxs, hret2, hL.key_withID]

/-- Pair a member of the first zip component with its mate. -/
theorem zip_exists_right {β : Type} :
    ∀ {l1 : List α} {l2 : List β}, l1.length = l2.length → ∀ a ∈ l1,
    ∃ b, (a, b) ∈ l1.zip l2
  | [], [], _, a, ha => absurd ha (by simp)
  | [], _ :: _, h, _, _ => absurd h (by simp)
  | _ :: _, [], h, a, ha => absurd h (by simp)
  | a :: tl1, c :: tl2, h, b, hb => by
    rcases List.mem_cons.mp hb with rfl | hb
    · exact ⟨c, by simp [List.zip_cons_cons]⟩
    · obtain ⟨b2, hb2⟩ := zip_exists_right (by simpa using h) b hb
      exact ⟨b2, by rw [List.zip_cons_cons]; exact List.mem_cons_of_mem _ hb2⟩

end MoreBatch

/-- A key two positions of a `Nodup`-keyed split cannot share. -/
theorem nodup_split_ne {γ : Type} (g : γ → String) {l1 l2 : List γ} {a : γ}
    (h : ((l1 ++ a :: l2).map g).Nodup) : ∀ b ∈ l2, g b ≠ g a := by
  rw [List.map_append, List.nodup_append] at h
  obtain ⟨-, h2, -⟩ := h
  rw [List.map_cons, List.nodup_cons] at h2
  intro b hb he
  exact h2.1 (he ▸ List.mem_map_of_mem g hb)

/-- Resolution of per-transaction ids after the Tx batch: the backfilled
map binds each decoded transaction's hash to exactly one returned row,
which names a live Tx row; returned hashes and ids are pairwise distinct. -/
theorem createTxs_resolution {flag : Bool} {d : DB} {txs : List TxDBWrapper}
    {bid : Nat} {o : StepOut Tx}
    (hwfT : TableWF txSpec d.txs d.nextID) (hin : InputOK txs)
    (h : createTxs flag d ((uniqueTxList txs bid).map Prod.snd) = .ok o) :
    (o.rets.map Tx.hash).Nodup ∧ (o.rets.map Tx.id).Nodup ∧
    ∀ w ∈ txs, ∃ r ∈ o.rets,
      assocFind (o.rets.foldl (fun m t2 => assocUpd m t2.hash t2)
        (uniqueTxList txs bid)) w.tx.hash = some r ∧
      r.hash = w.tx.hash ∧
      ∃ txrow ∈ o.db.txs, txrow.id = r.id ∧ txrow.hash = w.tx.hash := by
  have hcoh : ∀ p ∈ uniqueTxList txs bid, p.2.hash = p.1 := by
    intro p hp
    rcases uniqueTxList_values bid txs [] p hp with h0 | ⟨w, hw, hpe⟩
    · exact absurd h0 (by simp)
    · subst hpe
      rfl
  have hknd : ((uniqueTxList txs bid).map Prod.fst).Nodup :=
    foldl_assocUpd_gen_keys_nodup (fun w => w.tx.hash)
      (fun w => { w.tx with blockID := bid }) txs [] (by simp)
  have hkeq : (((uniqueTxList txs bid).map Prod.snd).map txSpec.key) =
      (uniqueTxList txs bid).map Prod.fst := map_snd_key Tx.hash _ hcoh
  have hrnd : (((uniqueTxList txs bid).map Prod.snd).map txSpec.key).Nodup := by
    rw [hkeq]
    exact hknd
  obtain ⟨-, hemp, hne⟩ := createTxs_shape h
  cases he : ((uniqueTxList txs bid).map Prod.snd).isEmpty with
  | true =>
    obtain ⟨-, hrets, -⟩ := hemp he
    rw [hrets]
    refine ⟨by simp, by simp, fun w hw => ?_⟩
    have hmemk : w.tx.hash ∈ (uniqueTxList txs bid).map Prod.fst :=
      foldl_assocUpd_gen_mem (fun w2 => w2.tx.hash)
        (fun w2 => { w2.tx with blockID := bid }) txs [] w hw
    rw [List.isEmpty_eq_true, List.map_eq_nil_iff] at he
    rw [he] at hmemk
    exact absurd hmemk (by simp)
  | false =>
    obtain ⟨htab, -, hrets, -⟩ := hne he
    have bst := bstablew_establish txLaws hrnd
      (rfl : batchUpsert txSpec d.txs d.nextID
        ((uniqueTxList txs bid).map Prod.snd) =
       batchUpsert txSpec d.txs d.nextID ((uniqueTxList txs bid).map Prod.snd))
    have hretkeys : (batchUpsert txSpec d.txs d.nextID
        ((uniqueTxList txs bid).map Prod.snd)).rets.map txSpec.key =
        ((uniqueTxList txs bid).map Prod.snd).map txSpec.key :=
      bstablew_rets_keys txLaws bst
    have hretnd : (o.rets.map Tx.hash).Nodup := by
      rw [hrets]
      show ((batchUpsert txSpec d.txs d.nextID
        ((uniqueTxList txs bid).map Prod.snd)).rets.map txSpec.key).Nodup
      rw [hretkeys, hkeq]
      exact hknd
    have hwfb := batch_wf txLaws ((uniqueTxList txs bid).map Prod.snd) hwfT
    have hrowed := bstablew_rowed txLaws bst
    have hridnd : (o.rets.map Tx.id).Nodup := by
      rw [hrets]
      show ((batchUpsert txSpec d.txs d.nextID
        ((uniqueTxList txs bid).map Prod.snd)).rets.map txSpec.rid).Nodup
      exact rowed_rets_rid_nodup txLaws hrowed hrnd hwfb.1
    refine ⟨hretnd, hridnd, fun w hw => ?_⟩
    -- the returned row for w's hash
    have hmemk : w.tx.hash ∈ (uniqueTxList txs bid).map Prod.fst :=
      foldl_assocUpd_gen_mem (fun w2 => w2.tx.hash)
        (fun w2 => { w2.tx with blockID := bid }) txs [] w hw
    have hmemr : w.tx.hash ∈ o.rets.map Tx.hash := by
      rw [hrets]
      show w.tx.hash ∈ (batchUpsert txSpec d.txs d.nextID
        ((uniqueTxList txs bid).map Prod.snd)).rets.map txSpec.key
      rw [hretkeys, hkeq]
      exact hmemk
    obtain ⟨r, hr, hrk⟩ := List.mem_map.mp hmemr
    have huniqr : ∀ e ∈ o.rets, e.hash = w.tx.hash → e = r := by
      intro e heq hek
      exact List.inj_on_of_nodup_map hretnd heq hr (by rw [hek, hrk])
    have hfind : assocFind (o.rets.foldl (fun m t2 => assocUpd m t2.hash t2)
        (uniqueTxList txs bid)) w.tx.hash = some r :=
      foldl_assocUpd_find Tx.hash (fun t2 => t2) o.rets _ w.tx.hash r hr hrk
        (fun e he hek => huniqr e he hek)
    -- the live row r names
    have hlen : ((uniqueTxList txs bid).map Prod.snd).length = o.rets.length := by
      rw [hrets, batch_rets_length]
    have hrmem : r ∈ (batchUpsert txSpec d.txs d.nextID
        ((uniqueTxList txs bid).map Prod.snd)).rets := by
      rw [← hrets]
      exact hr
    obtain ⟨x, hxz⟩ := zip_exists_left hlen r hr
    obtain ⟨row, hst, hret⟩ := bst.2 (x, r) (by
      rw [hrets] at hxz
      exact hxz)
    have hret2 : r = txSpec.withID x (txSpec.rid row) := hret
    obtain ⟨hrowmem, hrowkey, -⟩ := ustable_row_mem txLaws hst
    have hst2 : UStable txSpec x (batchUpsert txSpec d.txs d.nextID
        ((uniqueTxList txs bid).map Prod.snd)).table row := hst
    have hxkey : txSpec.key r = txSpec.key x := by
      rw [hret2, txLaws.key_withID]
    refine ⟨r, hr, hfind, hrk, row, ?_, ?_, ?_⟩
    · rw [htab]
      exact hrowmem
    · show row.id = r.id
      rw [hret2]
      rfl
    · show row.hash = w.tx.hash
      rw [show row.hash = txSpec.key row from rfl, hrowkey]
      show txSpec.key x = w.tx.hash
      rw [← hxkey]
      exact hrk
  
/-! ### Which round-trips each stage reports -/

theorem blockFirstOrCreate_next_ge (d : DB) (hh : Int) (t c : Nat) :
    d.nextID ≤ (blockFirstOrCreate d hh t c).1.nextID := by
  unfold blockFirstOrCreate
  cases updateFirstMatch (blockWhereMatches hh c) (blockAssign t) d.blocks with
  | some pr =>
    obtain ⟨bs, b⟩ := pr
    exact le_refl _
  | none => exact Nat.le_succ _

theorem createTxs_ops {flag : Bool} {d : DB} {rows : List Tx} {o : StepOut Tx}
    (h : createTxs flag d rows = .ok o) : o.ops = [] ∨ o.ops = [Op.createTxs] := by
  obtain ⟨-, hemp, hne⟩ := createTxs_shape h
  cases he : rows.isEmpty with
  | true => exact Or.inl (hemp he).2.2
  | false => exact Or.inr (hne he).2.2.2

theorem createMessageTypes_ops {flag : Bool} {d : DB} {rows : List MessageType}
    {o : StepOut MessageType} (h : createMessageTypes flag d rows = .ok o) :
    o.ops = [] ∨ o.ops = [Op.createMessageTypes] := by
  obtain ⟨-, hemp, hne⟩ := createMessageTypes_shape h
  cases he : rows.isEmpty with
  | true => exact Or.inl (hemp he).2.2
  | false => exact Or.inr (hne he).2.2.2

theorem createMessageEventTypes_ops {flag : Bool} {d : DB}
    {rows : List MessageEventType} {o : StepOut MessageEventType}
    (h : createMessageEventTypes flag d rows = .ok o) :
    o.ops = [] ∨ o.ops = [Op.createMessageEventTypes] := by
  obtain ⟨-, hemp, hne⟩ := createMessageEventTypes_shape h
  cases he : rows.isEmpty with
  | true => exact Or.inl (hemp he).2.2
  | false => exact Or.inr (hne he).2.2.2

theorem createMessageEventAttributeKeys_ops {flag : Bool} {d : DB}
    {rows : List MessageEventAttributeKey} {o : StepOut MessageEventAttributeKey}
    (h : createMessageEventAttributeKeys flag d rows = .ok o) :
    o.ops = [] ∨ o.ops = [Op.createMessageEventAttributeKeys] := by
  obtain ⟨-, hemp, hne⟩ := createMessageEventAttributeKeys_shape h
  cases he : rows.isEmpty with
  | true => exact Or.inl (hemp he).2.2
  | false => exact Or.inr (hne he).2.2.2

theorem createMessages_ops {flag : Bool} {d : DB} {rows : List Message}
    {o : StepOut Message} (h : createMessages flag d rows = .ok o) :
    o.ops = [] ∨ o.ops = [Op.createMessages] := by
  obtain ⟨-, hemp, hne⟩ := createMessages_shape h
  cases he : rows.isEmpty with
  | true => exact Or.inl (hemp he).2.2
  | false => exact Or.inr (hne he).2.2.2.2

theorem createMessageEvents_ops {flag : Bool} {d : DB} {rows : List MessageEvent}
    {o : StepOut MessageEvent} (h : createMessageEvents flag d rows = .ok o) :
    o.ops = [] ∨ o.ops = [Op.createMessageEvents] := by
  obtain ⟨-, hemp, hne⟩ := createMessageEvents_shape h
  cases he : rows.isEmpty with
  | true => exact Or.inl (hemp he).2.2
  | false => exact Or.inr (hne he).2.2.2.2

theorem createMessageEventAttributes_ops {flag : Bool} {d : DB}
    {rows : List MessageEventAttribute} {o : StepOut MessageEventAttribute}
    (h : createMessageEventAttributes flag d rows = .ok o) :
    o.ops = [] ∨ o.ops = [Op.createMessageEventAttributes] := by
  obtain ⟨-, hemp, hne⟩ := createMessageEventAttributes_shape h
  cases he : rows.isEmpty with
  | true => exact Or.inl (hemp he).2.2
  | false => exact Or.inr (hne he).2.2.2.2

theorem indexMT_ops {flag : Bool} {d : DB} {txs : List TxDBWrapper}
    {om : DB × List Op × List (String × MessageType)}
    (h : indexMessageTypes flag d txs = .ok om) :
    om.2.1 = [] ∨ om.2.1 = [Op.createMessageTypes] := by
  simp only [indexMessageTypes] at h
  cases hc : createMessageTypes flag d ((mergedMessageTypes txs).map Prod.snd) with
  | error e => rw [hc, ebind_error] at h; exact absurd h (by simp)
  | ok o =>
    rw [hc, ebind_ok] at h
    simp only [Except.ok.injEq] at h
    have h21 : om.2.1 = o.ops := by rw [← h]
    rw [h21]
    exact createMessageTypes_ops hc

theorem indexET_ops {flag : Bool} {d : DB} {txs : List TxDBWrapper}
    {oe : DB × List Op × List (String × MessageEventType)}
    (h : indexMessageEventTypes flag d txs = .ok oe) :
    oe.2.1 = [] ∨ oe.2.1 = [Op.createMessageEventTypes] := by
  simp only [indexMessageEventTypes] at h
  cases hc : createMessageEventTypes flag d
      ((mergedMessageEventTypes txs).map Prod.snd) with
  | error e => rw [hc, ebind_error] at h; exact absurd h (by simp)
  | ok o =>
    rw [hc, ebind_ok] at h
    simp only [Except.ok.injEq] at h
    have h21 : oe.2.1 = o.ops := by rw [← h]
    rw [h21]
    exact createMessageEventTypes_ops hc

theorem indexAK_ops {flag : Bool} {d : DB} {txs : List TxDBWrapper}
    {oa : DB × List Op × List (String × MessageEventAttributeKey)}
    (h : indexMessageEventAttributeKeys flag d txs = .ok oa) :
    oa.2.1 = [] ∨ oa.2.1 = [Op.createMessageEventAttributeKeys] := by
  simp only [indexMessageEventAttributeKeys] at h
  cases hc : createMessageEventAttributeKeys flag d
      ((mergedMessageAttributeKeys txs).map Prod.snd) with
  | error e => rw [hc, ebind_error] at h; exact absurd h (by simp)
  | ok o =>
    rw [hc, ebind_ok] at h
    simp only [Except.ok.injEq] at h
    have h21 : oa.2.1 = o.ops := by rw [← h]
    rw [h21]
    exact createMessageEventAttributeKeys_ops hc

/-- The loop only reports message-level round-trips. -/
theorem persistOneTx_ops {f : Faults} {uniq : List (String × Tx)} {maps : RefMaps}
    {d : DB} {w : TxDBWrapper} {out : DB × List Op}
    (h : persistOneTx f uniq maps d w = .ok out) :
    ∀ op ∈ out.2, op = Op.createMessages ∨ op = Op.createMessageEvents ∨
      op = Op.createMessageEventAttributes := by
  simp only [persistOneTx] at h
  cases h1 : createMessages f.failMessageCreate d (msgRowsOf uniq maps w) with
  | error e => rw [h1, ebind_error] at h; exact absurd h (by simp)
  | ok o1 =>
    rw [h1, ebind_ok] at h
    cases h2 : createMessageEvents f.failMessageEventCreate o1.db
        ((evGroupsOf maps o1.rets w).map Prod.fst) with
    | error e => rw [h2, ebind_error] at h; exact absurd h (by simp)
    | ok o2 =>
      rw [h2, ebind_ok] at h
      cases h3 : createMessageEventAttributes f.failAttributeCreate o2.db
          (attrRowsOf maps o2.rets (evGroupsOf maps o1.rets w)) with
      | error e => rw [h3, ebind_error] at h; exact absurd h (by simp)
      | ok o3 =>
        rw [h3, ebind_ok] at h
        cases h
        intro op hop
        rcases List.mem_append.mp hop with h12 | h3m
        · rcases List.mem_append.mp h12 with h1m | h2m
          · rcases createMessages_ops h1 with he | he
            · rw [he] at h1m
              exact absurd h1m (by simp)
            · rw [he] at h1m
              exact Or.inl (by simpa using h1m)
          · rcases createMessageEvents_ops h2 with he | he
            · rw [he] at h2m
              exact absurd h2m (by simp)
            · rw [he] at h2m
              exact Or.inr (Or.inl (by simpa using h2m))
        · rcases createMessageEventAttributes_ops h3 with he | he
          · rw [he] at h3m
            exact absurd h3m (by simp)
          · rw [he] at h3m
            exact Or.inr (Or.inr (by simpa using h3m))

theorem txLoop_ops {f : Faults} {uniq : List (String × Tx)} {maps : RefMaps} :
    ∀ (ws : List TxDBWrapper) (d : DB) (ops : List Op) {out : DB × List Op},
    txLoop f uniq maps d ops ws = .ok out →
    ∃ l, out.2 = ops ++ l ∧ ∀ op ∈ l, op = Op.createMessages ∨
      op = Op.createMessageEvents ∨ op = Op.createMessageEventAttributes
  | [], d, ops, out, h => by
    cases h
    exact ⟨[], by simp, by simp⟩
  | w :: ws, d, ops, out, h => by
    unfold txLoop at h
    cases h1 : persistOneTx f uniq maps d w with
    | error e => rw [h1, ebind_error] at h; exact absurd h (by simp)
    | ok o =>
      rw [h1, ebind_ok] at h
      obtain ⟨l, hl, hall⟩ := txLoop_ops ws o.1 (ops ++ o.2) h
      refine ⟨o.2 ++ l, by rw [hl, List.append_assoc], ?_⟩
      intro op hop
      rcases List.mem_append.mp hop with h2 | h2
      · exact persistOneTx_ops h1 op h2
      · exact hall op h2

/-! ### What one loop iteration writes to the messages table -/

/-- A persisted transaction leaves, for each of its decoded messages, a live
`messages` row keyed by its resolved tx id and message index, with the
foreign key of the row the loop built. -/
theorem persistOneTx_msg_write {f : Faults} {uniq : List (String × Tx)}
    {maps : RefMaps} {d : DB} {w : TxDBWrapper} {out : DB × List Op}
    (h : persistOneTx f uniq maps d w = .ok out)
    (hidx : (w.messages.map (fun m2 => m2.messageIndex)).Nodup)
    {m : MessageDBWrapper} (hm : m ∈ w.messages) :
    ∃ msgrow ∈ out.1.messages,
      msgrow.txID = ((assocFind uniq w.tx.hash).getD zeroTx).id ∧
      msgrow.messageIndex = m.messageIndex ∧
      msgrow.messageTypeID = (buildMessageRow
        ((assocFind uniq w.tx.hash).getD zeroTx).id maps.mt m).messageTypeID := by
  simp only [persistOneTx] at h
  cases h1 : createMessages f.failMessageCreate d (msgRowsOf uniq maps w) with
  | error e => rw [h1, ebind_error] at h; exact absurd h (by simp)
  | ok o1 =>
    rw [h1, ebind_ok] at h
    have hxm : buildMessageRow ((assocFind uniq w.tx.hash).getD zeroTx).id maps.mt m
        ∈ msgRowsOf uniq maps w := List.mem_map_of_mem _ hm
    have hne : (msgRowsOf uniq maps w).isEmpty = false := by
      rw [List.isEmpty_eq_false]
      intro hnil
      rw [hnil] at hxm
      exact absurd hxm (by simp)
    obtain ⟨-, -, hst⟩ := createMessages_shape h1
    obtain ⟨-, htab, -, hrets, -⟩ := hst hne
    have hkmap : (msgRowsOf uniq maps w).map msgSpec.key =
        w.messages.map (fun m2 =>
          (((assocFind uniq w.tx.hash).getD zeroTx).id, m2.messageIndex)) := by
      unfold msgRowsOf
      rw [List.map_map]
      rfl
    have hkmap2 : w.messages.map (fun m2 =>
          (((assocFind uniq w.tx.hash).getD zeroTx).id, m2.messageIndex)) =
        (w.messages.map (fun m2 => m2.messageIndex)).map
          (fun i => (((assocFind uniq w.tx.hash).getD zeroTx).id, i)) := by
      rw [List.map_map]
      rfl
    have hknd : ((msgRowsOf uniq maps w).map msgSpec.key).Nodup := by
      rw [hkmap, hkmap2]
      exact List.Nodup.map (fun a b hab => by simpa using hab) hidx
    have bst := bstablew_establish msgLaws hknd
      (rfl : batchUpsert msgSpec d.messages d.nextID (msgRowsOf uniq maps w) =
        batchUpsert msgSpec d.messages d.nextID (msgRowsOf uniq maps w))
    have hlen : (msgRowsOf uniq maps w).length =
        (batchUpsert msgSpec d.messages d.nextID (msgRowsOf uniq maps w)).rets.length
      := (batch_rets_length _ _ _).symm
    obtain ⟨retm, hretz⟩ := zip_exists_right hlen _ hxm
    obtain ⟨rowm, hstm, hretm⟩ := bst.2 (_, retm) hretz
    obtain ⟨hrowmem, hrowkey, hrowfix⟩ := ustable_row_mem msgLaws hstm
    have htid : rowm.txID = ((assocFind uniq w.tx.hash).getD zeroTx).id := by
      have hk2 : (rowm.txID, rowm.messageIndex) =
          (((assocFind uniq w.tx.hash).getD zeroTx).id, m.messageIndex) := hrowkey
      have e := congrArg Prod.fst hk2
      exact e
    have hidx2 : rowm.messageIndex = m.messageIndex := by
      have hk2 : (rowm.txID, rowm.messageIndex) =
          (((assocFind uniq w.tx.hash).getD zeroTx).id, m.messageIndex) := hrowkey
      have e := congrArg Prod.snd hk2
      exact e
    have hmid : rowm.messageTypeID = (buildMessageRow
        ((assocFind uniq w.tx.hash).getD zeroTx).id maps.mt m).messageTypeID := by
      have e := congrArg Message.messageTypeID hrowfix
      exact e.symm
    -- survive the event and attribute batches of this iteration
    cases h2 : createMessageEvents f.failMessageEventCreate o1.db
        ((evGroupsOf maps o1.rets w).map Prod.fst) with
    | error e => rw [h2, ebind_error] at h; exact absurd h (by simp)
    | ok o2 =>
      rw [h2, ebind_ok] at h
      cases h3 : createMessageEventAttributes f.failAttributeCreate o2.db
          (attrRowsOf maps o2.rets (evGroupsOf maps o1.rets w)) with
      | error e => rw [h3, ebind_error] at h; exact absurd h (by simp)
      | ok o3 =>
        rw [h3, ebind_ok] at h
        cases h
        have e2 : o2.db.messages = o1.db.messages := by
          have e := congrArg DB.messages (createMessageEvents_shape h2).1
          exact e
        have e3 : o3.db.messages = o2.db.messages := by
          have e := congrArg DB.messages (createMessageEventAttributes_shape h3).1
          exact e
        refine ⟨rowm, ?_, htid, hidx2, hmid⟩
        show rowm ∈ o3.db.messages
        rw [e3, e2, htab]
        exact hrowmem

/-- A live messages row whose tx id no remaining transaction resolves to
survives the rest of the loop. -/
theorem txLoop_msg_preserve {f : Faults} {uniq : List (String × Tx)}
    {maps : RefMaps} {tid : Nat} :
    ∀ (ws : List TxDBWrapper) (d : DB) (ops : List Op) {out : DB × List Op},
    txLoop f uniq maps d ops ws = .ok out →
    (∀ w2 ∈ ws, ((assocFind uniq w2.tx.hash).getD zeroTx).id ≠ tid) →
    ∀ {row : Message}, row ∈ d.messages → row.txID = tid →
    row ∈ out.1.messages
  | [], d, ops, out, h, _, row, hrow, _ => by
    cases h
    exact hrow
  | w :: ws, d, ops, out, h, hne, row, hrow, hrtid => by
    unfold txLoop at h
    cases h1 : persistOneTx f uniq maps d w with
    | error e => rw [h1, ebind_error] at h; exact absurd h (by simp)
    | ok o =>
      rw [h1, ebind_ok] at h
      have hrow2 : row ∈ o.1.messages := by
        simp only [persistOneTx] at h1
        cases hc1 : createMessages f.failMessageCreate d (msgRowsOf uniq maps w) with
        | error e => rw [hc1, ebind_error] at h1; exact absurd h1 (by simp)
        | ok o1 =>
          rw [hc1, ebind_ok] at h1
          have hrow1 : row ∈ o1.db.messages := by
            obtain ⟨-, hemp, hst⟩ := createMessages_shape hc1
            cases he : (msgRowsOf uniq maps w).isEmpty with
            | true =>
              obtain ⟨hdb, -, -⟩ := hemp he
              rw [hdb]
              exact hrow
            | false =>
              obtain ⟨-, htab, -, -, -⟩ := hst he
              rw [htab]
              refine batch_mem_preserve msgLaws _ hrow ?_ _
              intro y hy
              unfold msgRowsOf at hy
              obtain ⟨m2, hm2, hym⟩ := List.mem_map.mp hy
              intro hkeq
              have hk2 : (row.txID, row.messageIndex) =
                  (y.txID, y.messageIndex) := hkeq
              have ef : row.txID = y.txID := by
                have e := congrArg Prod.fst hk2
                exact e
              have hyt : y.txID = ((assocFind uniq w.tx.hash).getD zeroTx).id := by
                rw [← hym]
                rfl
              have : tid = ((assocFind uniq w.tx.hash).getD zeroTx).id := by
                rw [← hrtid, ef, hyt]
              exact hne w (List.mem_cons_self _ _) this.symm
          cases hc2 : createMessageEvents f.failMessageEventCreate o1.db
              ((evGroupsOf maps o1.rets w).map Prod.fst) with
          | error e => rw [hc2, ebind_error] at h1; exact absurd h1 (by simp)
          | ok o2 =>
            rw [hc2, ebind_ok] at h1
            cases hc3 : createMessageEventAttributes f.failAttributeCreate o2.db
                (attrRowsOf maps o2.rets (evGroupsOf maps o1.rets w)) with
            | error e => rw [hc3, ebind_error] at h1; exact absurd h1 (by simp)
            | ok o3 =>
              rw [hc3, ebind_ok] at h1
              cases h1
              have e2 : o2.db.messages = o1.db.messages := by
                have e := congrArg DB.messages (createMessageEvents_shape hc2).1
                exact e
              have e3 : o3.db.messages = o2.db.messages := by
                have e := congrArg DB.messages
                  (createMessageEventAttributes_shape hc3).1
                exact e
              show row ∈ o3.db.messages
              rw [e3, e2]
              exact hrow1
      exact txLoop_msg_preserve ws o.1 (ops ++ o.2) h
        (fun w2 hw2 => hne w2 (List.mem_cons_of_mem _ hw2)) hrow2 hrtid

/-- Each decoded message of any transaction of the block ends the loop with
a live row keyed by its resolved tx id, carrying the foreign key the loop
resolved through the dedup map. -/
theorem txLoop_msg_write {f : Faults} {uniq : List (String × Tx)}
    {maps : RefMaps} {v : String} {mid : Nat}
    (hbind : ((assocFind maps.mt v).getD zeroMessageType).id = mid) :
    ∀ (ws : List TxDBWrapper) (d : DB) (ops : List Op) {out : DB × List Op},
    txLoop f uniq maps d ops ws = .ok out →
    (ws.map (fun w2 => w2.tx.hash)).Nodup →
    (∀ w2 ∈ ws, ∀ w3 ∈ ws, ((assocFind uniq w2.tx.hash).getD zeroTx).id =
      ((assocFind uniq w3.tx.hash).getD zeroTx).id → w2.tx.hash = w3.tx.hash) →
    (∀ w2 ∈ ws, (w2.messages.map (fun m2 => m2.messageIndex)).Nodup) →
    ∀ w ∈ ws, ∀ m ∈ w.messages, m.messageType.messageType = v →
    ∃ msgrow ∈ out.1.messages,
      msgrow.txID = ((assocFind uniq w.tx.hash).getD zeroTx).id ∧
      msgrow.messageIndex = m.messageIndex ∧ msgrow.messageTypeID = mid
  | [], d, ops, out, h, _, _, _, w, hw, _, _, _ => absurd hw (by simp)
  | w0 :: ws, d, ops, out, h, hhnd, hinj, hidxs, w, hw, m, hm, hmv => by
    unfold txLoop at h
    cases h1 : persistOneTx f uniq maps d w0 with
    | error e => rw [h1, ebind_error] at h; exact absurd h (by simp)
    | ok o =>
      rw [h1, ebind_ok] at h
      rcases List.mem_cons.mp hw with rfl | hwtl
      · -- w is the head: establish, then preserve through the tail
        obtain ⟨rowm, hrowmem, htid, hidx2, hmid⟩ := persistOneTx_msg_write h1
          (hidxs w (List.mem_cons_self _ _)) hm
        have hmid2 : rowm.messageTypeID = mid := by
          rw [hmid]
          unfold buildMessageRow
          rw [hmv]
          exact hbind
        refine ⟨rowm, ?_, htid, hidx2, hmid2⟩
        refine txLoop_msg_preserve ws o.1 (ops ++ o.2) h ?_ hrowmem htid
        intro w2 hw2 heq
        have hhash : w2.tx.hash = w.tx.hash :=
          hinj w2 (List.mem_cons_of_mem _ hw2) w (List.mem_cons_self _ _) heq
        have hhnd0 : ((([] : List TxDBWrapper) ++ w :: ws).map
            (fun w3 => w3.tx.hash)).Nodup := hhnd
        have hne := nodup_split_ne (fun w3 => w3.tx.hash) hhnd0 w2 hw2
        exact hne hhash
      · -- w is in the tail: recurse
        have hhnd2 : (ws.map (fun w2 => w2.tx.hash)).Nodup := by
          rw [List.map_cons, List.nodup_cons] at hhnd
          exact hhnd.2
        exact txLoop_msg_write hbind ws o.1 (ops ++ o.2) h hhnd2
          (fun w2 hw2 w3 hw3 => hinj w2 (List.mem_cons_of_mem _ hw2)
            w3 (List.mem_cons_of_mem _ hw3))
          (fun w2 hw2 => hidxs w2 (List.mem_cons_of_mem _ hw2))
          w hwtl m hm hmv

/-- C7.  With the block's per-transaction reference maps merged: a message
type value `v` that two transactions both introduce has exactly one stored
`message_types` row after persistence; every decoded message of any
transaction whose type is `v` ends up as a stored message row referencing
that row's surrogate key (through its transaction's stored Tx row); and at
most one batch round-trip is performed per reference kind for the whole
block. -/
theorem c7_dedup {db : DB} {hgt : Int} {t : Nat} {txs : List TxDBWrapper}
    {c : Nat} {out : DB × List Op} {v : String} {w1 w2 : TxDBWrapper}
    (hwf : DBWF db) (hin : InputOK txs)
    (hnd : (db.messageTypes.map MessageType.messageType).Nodup)
    (hok : IndexNewBlockT noFaults db hgt t txs c = .ok out)
    (hw1 : w1 ∈ txs) (hw2 : w2 ∈ txs)
    (hv1 : v ∈ w1.uniqueMessageTypes.map Prod.fst)
    (hv2 : v ∈ w2.uniqueMessageTypes.map Prod.fst) :
    ∃ mtv ∈ out.1.messageTypes, mtv.messageType = v ∧
      (∀ r ∈ out.1.messageTypes, r.messageType = v → r = mtv) ∧
      (∀ w ∈ txs, ∀ m ∈ w.messages, m.messageType.messageType = v →
        ∃ txrow ∈ out.1.txs, txrow.hash = w.tx.hash ∧
        ∃ msgrow ∈ out.1.messages, msgrow.txID = txrow.id ∧
          msgrow.messageIndex = m.messageIndex ∧ msgrow.messageTypeID = mtv.id) ∧
      out.2.count Op.createMessageTypes ≤ 1 ∧
      out.2.count Op.createMessageEventTypes ≤ 1 ∧
      out.2.count Op.createMessageEventAttributeKeys ≤ 1 := by
  simp only [IndexNewBlockT] at hok
  rw [if_neg (by decide : ¬(noFaults.failDeleteFailedBlocks = true)),
      if_neg (by decide : ¬(noFaults.failBlockUpsert = true))] at hok
  cases h1 : createTxs noFaults.failTxCreate
      (blockFirstOrCreate { db with
        failedBlocks := db.failedBlocks.filter (fbKeep hgt c) } hgt t c).1
      ((uniqueTxList txs (blockFirstOrCreate { db with
        failedBlocks := db.failedBlocks.filter (fbKeep hgt c) } hgt t c).2.id).map
        Prod.snd) with
  | error e => rw [h1, ebind_error] at hok; exact absurd hok (by simp)
  | ok ot =>
    rw [h1, ebind_ok] at hok
    cases h2 : indexMessageTypes noFaults.failMessageTypeCreate ot.db txs with
    | error e => rw [h2, ebind_error] at hok; exact absurd hok (by simp)
    | ok om =>
      rw [h2, ebind_ok] at hok
      cases h3 : indexMessageEventTypes noFaults.failMessageEventTypeCreate
          om.1 txs with
      | error e => rw [h3, ebind_error] at hok; exact absurd hok (by simp)
      | ok oe =>
        rw [h3, ebind_ok] at hok
        cases h4 : indexMessageEventAttributeKeys noFaults.failAttributeKeyCreate
            oe.1 txs with
        | error e => rw [h4, ebind_error] at hok; exact absurd hok (by simp)
        | ok oa =>
          rw [h4, ebind_ok] at hok
          -- tx resolution
          have hpbtxs : (blockFirstOrCreate { db with
              failedBlocks := db.failedBlocks.filter (fbKeep hgt c) }
                hgt t c).1.txs = db.txs := by
            have e := congrArg DB.txs (blockFirstOrCreate_frame { db with
              failedBlocks := db.failedBlocks.filter (fbKeep hgt c) } hgt t c)
            exact e
          have hpbnext : db.nextID ≤ (blockFirstOrCreate { db with
              failedBlocks := db.failedBlocks.filter (fbKeep hgt c) }
                hgt t c).1.nextID :=
            blockFirstOrCreate_next_ge { db with
              failedBlocks := db.failedBlocks.filter (fbKeep hgt c) } hgt t c
          have hwfT : TableWF txSpec (blockFirstOrCreate { db with
              failedBlocks := db.failedBlocks.filter (fbKeep hgt c) }
                hgt t c).1.txs (blockFirstOrCreate { db with
              failedBlocks := db.failedBlocks.filter (fbKeep hgt c) }
                hgt t c).1.nextID := by
            rw [hpbtxs]
            exact tablewf_mono hwf.txsWF hpbnext
          obtain ⟨hrhash, hrid, hres⟩ := createTxs_resolution hwfT hin h1
          -- messageTypes stage
          have hotmt : ot.db.messageTypes = db.messageTypes := by
            have e1 : ot.db.messageTypes = (blockFirstOrCreate { db with
                failedBlocks := db.failedBlocks.filter (fbKeep hgt c) }
                  hgt t c).1.messageTypes := by
              have e := congrArg DB.messageTypes (createTxs_shape h1).1
              exact e
            have e2 : (blockFirstOrCreate { db with
                failedBlocks := db.failedBlocks.filter (fbKeep hgt c) }
                  hgt t c).1.messageTypes = db.messageTypes := by
              have e := congrArg DB.messageTypes (blockFirstOrCreate_frame { db with
                failedBlocks := db.failedBlocks.filter (fbKeep hgt c) } hgt t c)
              exact e
            exact e1.trans e2
          simp only [indexMessageTypes] at h2
          cases h2c : createMessageTypes noFaults.failMessageTypeCreate ot.db
              ((mergedMessageTypes txs).map Prod.snd) with
          | error e => rw [h2c, ebind_error] at h2; exact absurd h2 (by simp)
          | ok o2c =>
            rw [h2c, ebind_ok] at h2
            simp only [Except.ok.injEq] at h2
            have hom1 : om.1 = o2c.db := by rw [← h2]
            have hom22 : om.2.2 = o2c.rets.foldl
                (fun m mt => assocUpd m mt.messageType mt)
                (mergedMessageTypes txs) := by rw [← h2]
            have hcohm : ∀ p ∈ mergedMessageTypes txs, p.2.messageType = p.1 :=
              merged_mt_coherent hin
            have hvmem : v ∈ (mergedMessageTypes txs).map Prod.fst :=
              merged_fold_of_mem (fun w => w.uniqueMessageTypes) txs [] w1 v hw1 hv1
            have hmknd : ((mergedMessageTypes txs).map Prod.fst).Nodup :=
              merged_fold_keys_nodup (fun w => w.uniqueMessageTypes) txs [] (by simp)
            have hmrows_keys : ((mergedMessageTypes txs).map Prod.snd).map mtSpec.key =
                (mergedMessageTypes txs).map Prod.fst :=
              map_snd_key MessageType.messageType _ hcohm
            have hmrnd : (((mergedMessageTypes txs).map Prod.snd).map mtSpec.key).Nodup
                := by
              rw [hmrows_keys]
              exact hmknd
            obtain ⟨pv, hpv, hpveq⟩ := List.mem_map.mp hvmem
            have hxv : pv.2 ∈ (mergedMessageTypes txs).map Prod.snd :=
              List.mem_map_of_mem Prod.snd hpv
            have hxvkey : mtSpec.key pv.2 = v := by
              show pv.2.messageType = v
              rw [hcohm pv hpv, hpveq]
            have hne2 : ((mergedMessageTypes txs).map Prod.snd).isEmpty = false := by
              rw [List.isEmpty_eq_false]
              intro hnil
              rw [hnil] at hxv
              exact absurd hxv (by simp)
            obtain ⟨hfr2c, hst2⟩ := createMessageTypes_shape h2c
            obtain ⟨htabmt, -, hretsmt, -⟩ := hst2.2 hne2
            have hmtprend : (ot.db.messageTypes.map mtSpec.key).Nodup := by
              rw [hotmt]
              exact hnd
            have bstmt := bstablew_establish mtLaws hmrnd
              (rfl : batchUpsert mtSpec ot.db.messageTypes ot.db.nextID
                ((mergedMessageTypes txs).map Prod.snd) =
               batchUpsert mtSpec ot.db.messageTypes ot.db.nextID
                ((mergedMessageTypes txs).map Prod.snd))
            have htabnd : ((batchUpsert mtSpec ot.db.messageTypes ot.db.nextID
                ((mergedMessageTypes txs).map Prod.snd)).table.map mtSpec.key).Nodup :=
              batch_keys_nodup mtLaws _ hmtprend
            have hlenmt : ((mergedMessageTypes txs).map Prod.snd).length =
                (batchUpsert mtSpec ot.db.messageTypes ot.db.nextID
                  ((mergedMessageTypes txs).map Prod.snd)).rets.length :=
              (batch_rets_length _ _ _).symm
            obtain ⟨retv, hretvz⟩ := zip_exists_right hlenmt pv.2 hxv
            obtain ⟨rowv, hstv, hretveq⟩ := bstmt.2 (pv.2, retv) hretvz
            have hretv2 : retv = mtSpec.withID pv.2 (mtSpec.rid rowv) := hretveq
            obtain ⟨hrowvmem, hrowvkey, -⟩ := ustable_row_mem mtLaws hstv
            have hrowvv : rowv.messageType = v := by
              show mtSpec.key rowv = v
              rw [hrowvkey]
              exact hxvkey
            have hretvid : retv.id = rowv.id := by
              rw [hretv2]
              rfl
            have hretvkey : retv.messageType = v := by
              show mtSpec.key retv = v
              rw [hretv2, mtLaws.key_withID]
              exact hxvkey
            have huniqtab : ∀ r ∈ (batchUpsert mtSpec ot.db.messageTypes ot.db.nextID
                ((mergedMessageTypes txs).map Prod.snd)).table,
                r.messageType = v → r = rowv := by
              intro r hr hrv
              exact List.inj_on_of_nodup_map htabnd hr hrowvmem
                (hrv.trans hrowvv.symm)
            have hretsnd : ((batchUpsert mtSpec ot.db.messageTypes ot.db.nextID
                ((mergedMessageTypes txs).map Prod.snd)).rets.map mtSpec.key).Nodup
                := by
              rw [bstablew_rets_keys mtLaws bstmt, hmrows_keys]
              exact hmknd
            have hretvmem : retv ∈ (batchUpsert mtSpec ot.db.messageTypes ot.db.nextID
                ((mergedMessageTypes txs).map Prod.snd)).rets :=
              (List.of_mem_zip hretvz).2
            have hfindv : assocFind om.2.2 v = some retv := by
              rw [hom22, hretsmt]
              exact foldl_assocUpd_find MessageType.messageType (fun e => e) _ _
                v retv hretvmem hretvkey
                (fun e he hek => List.inj_on_of_nodup_map hretsnd he hretvmem
                  (hek.trans hretvkey.symm))
            -- chains to the final state
            have hmtchain : out.1.messageTypes =
                (batchUpsert mtSpec ot.db.messageTypes ot.db.nextID
                  ((mergedMessageTypes txs).map Prod.snd)).table := by
              have e1 : out.1.messageTypes = oa.1.messageTypes := by
                have e := congrArg DB.messageTypes (txLoop_shape hok)
                exact e
              have e2 : oa.1.messageTypes = oe.1.messageTypes := by
                have e := congrArg DB.messageTypes (indexAK_frame h4)
                exact e
              have e3 : oe.1.messageTypes = om.1.messageTypes := by
                have e := congrArg DB.messageTypes (indexET_frame h3)
                exact e
              have e4 : om.1.messageTypes = o2c.db.messageTypes := by rw [hom1]
              exact (((e1.trans e2).trans e3).trans e4).trans htabmt
            have htxchain : out.1.txs = ot.db.txs := by
              have e1 : out.1.txs = oa.1.txs := by
                have e := congrArg DB.txs (txLoop_shape hok)
                exact e
              have e2 : oa.1.txs = oe.1.txs := by
                have e := congrArg DB.txs (indexAK_frame h4)
                exact e
              have e3 : oe.1.txs = om.1.txs := by
                have e := congrArg DB.txs (indexET_frame h3)
                exact e
              have e4 : om.1.txs = o2c.db.txs := by rw [hom1]
              have e5 : o2c.db.txs = ot.db.txs := by
                have e := congrArg DB.txs hfr2c
                exact e
              exact ((e1.trans e2).trans e3).trans (e4.trans e5)
            -- resolved-id injectivity
            have hinj : ∀ w3 ∈ txs, ∀ w4 ∈ txs,
                ((assocFind (ot.rets.foldl (fun m t2 => assocUpd m t2.hash t2)
                  (uniqueTxList txs (blockFirstOrCreate { db with
                    failedBlocks := db.failedBlocks.filter (fbKeep hgt c) }
                      hgt t c).2.id)) w3.tx.hash).getD zeroTx).id =
                ((assocFind (ot.rets.foldl (fun m t2 => assocUpd m t2.hash t2)
                  (uniqueTxList txs (blockFirstOrCreate { db with
                    failedBlocks := db.failedBlocks.filter (fbKeep hgt c) }
                      hgt t c).2.id)) w4.tx.hash).getD zeroTx).id →
                w3.tx.hash = w4.tx.hash := by
              intro w3 hw3 w4 hw4 heq
              obtain ⟨r3, hr3, hf3, hh3, -⟩ := hres w3 hw3
              obtain ⟨r4, hr4, hf4, hh4, -⟩ := hres w4 hw4
              rw [hf3, hf4] at heq
              have heq2 : r3.id = r4.id := heq
              have hre : r3 = r4 := List.inj_on_of_nodup_map hrid hr3 hr4 heq2
              rw [← hh3, ← hh4, hre]
            -- the binding handed to the loop
            have hbind : ((assocFind (RefMaps.mk om.2.2 oe.2.2 oa.2.2).mt v).getD
                zeroMessageType).id = rowv.id := by
              show ((assocFind om.2.2 v).getD zeroMessageType).id = rowv.id
              rw [hfindv]
              show retv.id = rowv.id
              exact hretvid
            have hmsg := txLoop_msg_write hbind txs oa.1 _ hok
              hin.hashesNodup hinj hin.msgIdxNodup
            -- round-trip counts
            obtain ⟨lops, hlops, hlkind⟩ := txLoop_ops txs oa.1 _ hok
            have hcl : ∀ k : Op, k = Op.createMessageTypes ∨
                k = Op.createMessageEventTypes ∨
                k = Op.createMessageEventAttributeKeys → lops.count k = 0 := by
              intro k hk
              rw [List.count_eq_zero]
              intro hmem
              rcases hk with rfl | rfl | rfl <;>
                rcases hlkind _ hmem with hh | hh | hh <;> exact absurd hh (by decide)
            refine ⟨rowv, ?_, hrowvv, ?_, ?_, ?_, ?_, ?_⟩
            · rw [hmtchain]
              exact hrowvmem
            · intro r hr hrv
              rw [hmtchain] at hr
              exact huniqtab r hr hrv
            · intro w hw m hm hmv
              obtain ⟨r2, hr2, hf2, hh2, txrow, htxmem, htxid, htxhash⟩ := hres w hw
              obtain ⟨msgrow, hmr, hmrtid, hmridx, hmrmid⟩ := hmsg w hw m hm hmv
              refine ⟨txrow, ?_, htxhash, msgrow, hmr, ?_, hmridx, hmrmid⟩
              · rw [htxchain]
                exact htxmem
              · rw [hmrtid, hf2]
                show r2.id = txrow.id
                exact htxid.symm
            · have c1 : ot.ops.count Op.createMessageTypes = 0 := by
                rcases createTxs_ops h1 with hh | hh <;> rw [hh] <;> decide
              have c2 : om.2.1.count Op.createMessageTypes ≤ 1 := by
                rcases indexMT_ops (by
                  show indexMessageTypes noFaults.failMessageTypeCreate ot.db txs =
                    .ok om
                  simp only [indexMessageTypes]
                  rw [h2c, ebind_ok, h2]) with hh | hh <;> rw [hh] <;> decide
              have c3 : oe.2.1.count Op.createMessageTypes = 0 := by
                rcases indexET_ops h3 with hh | hh <;> rw [hh] <;> decide
              have c4 : oa.2.1.count Op.createMessageTypes = 0 := by
                rcases indexAK_ops h4 with hh | hh <;> rw [hh] <;> decide
              rw [hlops]
              simp only [List.count_append, c1, c3, c4,
                hcl Op.createMessageTypes (Or.inl rfl)]
              omega
            · have c1 : ot.ops.count Op.createMessageEventTypes = 0 := by
                rcases createTxs_ops h1 with hh | hh <;> rw [hh] <;> decide
              have c2 : om.2.1.count Op.createMessageEventTypes = 0 := by
                rcases indexMT_ops (by
                  show indexMessageTypes noFaults.failMessageTypeCreate ot.db txs =
                    .ok om
                  simp only [indexMessageTypes]
                  rw [h2c, ebind_ok, h2]) with hh | hh <;> rw [hh] <;> decide
              have c3 : oe.2.1.count Op.createMessageEventTypes ≤ 1 := by
                rcases indexET_ops h3 with hh | hh <;> rw [hh] <;> decide
              have c4 : oa.2.1.count Op.createMessageEventTypes = 0 := by
                rcases indexAK_ops h4 with hh | hh <;> rw [hh] <;> decide
              rw [hlops]
              simp only [List.count_append, c1, c2, c4,
                hcl Op.createMessageEventTypes (Or.inr (Or.inl rfl))]
              omega
            · have c1 : ot.ops.count Op.createMessageEventAttributeKeys = 0 := by
                rcases createTxs_ops h1 with hh | hh <;> rw [hh] <;> decide
              have c2 : om.2.1.count Op.createMessageEventAttributeKeys = 0 := by
                rcases indexMT_ops (by
                  show indexMessageTypes noFaults.failMessageTypeCreate ot.db txs =
                    .ok om
                  simp only [indexMessageTypes]
                  rw [h2c, ebind_ok, h2]) with hh | hh <;> rw [hh] <;> decide
              have c3 : oe.2.1.count Op.createMessageEventAttributeKeys = 0 := by
                rcases indexET_ops h3 with hh | hh <;> rw [hh] <;> decide
              have c4 : oa.2.1.count Op.createMessageEventAttributeKeys ≤ 1 := by
                rcases indexAK_ops h4 with hh | hh <;> rw [hh] <;> decide
              rw [hlops]
              simp only [List.count_append, c1, c2, c3,
                hcl Op.createMessageEventAttributeKeys (Or.inr (Or.inr rfl))]
              omega

/-- Two decoded transactions that both register message type `"send"` and
each carry one `"send"` message. -/
def c7txA : TxDBWrapper :=
  ⟨⟨0, "hashA", 0, 0, none⟩, [⟨0, ⟨0, "send"⟩, []⟩], [("send", ⟨0, "send"⟩)], [], []⟩

def c7txB : TxDBWrapper :=
  ⟨⟨0, "hashB", 0, 0, none⟩, [⟨1, ⟨0, "send"⟩, []⟩], [("send", ⟨0, "send"⟩)], [], []⟩

/-- The store state and round-trips of persisting `[c7txA, c7txB]` on the
empty store: one `"send"` row (id 4) referenced by both messages, and one
round-trip for the message-type reference kind. -/
def c7out : DB × List Op :=
  (⟨7, [], [⟨1, 10, 1, 100, true, false⟩],
    [⟨2, "hashA", 0, 1, none⟩, ⟨3, "hashB", 0, 1, none⟩], [⟨4, "send"⟩], [], [],
    [⟨5, 2, 4, 0⟩, ⟨6, 3, 4, 1⟩], [], [], []⟩,
   [Op.createTxs, Op.createMessageTypes, Op.createMessages, Op.createMessages])

/-- C7 witness: persisting the two `"send"` transactions on the empty store
leaves exactly one `"send"` row, both messages referencing it, with at most
one round-trip per reference kind. -/
theorem c7_dedup_witness :
    ∃ mtv ∈ c7out.1.messageTypes, mtv.messageType = "send" ∧
      (∀ r ∈ c7out.1.messageTypes, r.messageType = "send" → r = mtv) ∧
      (∀ w ∈ [c7txA, c7txB], ∀ m ∈ w.messages, m.messageType.messageType = "send" →
        ∃ txrow ∈ c7out.1.txs, txrow.hash = w.tx.hash ∧
        ∃ msgrow ∈ c7out.1.messages, msgrow.txID = txrow.id ∧
          msgrow.messageIndex = m.messageIndex ∧ msgrow.messageTypeID = mtv.id) ∧
      c7out.2.count Op.createMessageTypes ≤ 1 ∧
      c7out.2.count Op.createMessageEventTypes ≤ 1 ∧
      c7out.2.count Op.createMessageEventAttributeKeys ≤ 1 := by
  have hok : IndexNewBlockT noFaults emptyDB 10 100 [c7txA, c7txB] 1 =
      .ok c7out := by rfl
  exact c7_dedup
    ⟨by decide, by unfold TableWF; decide, by unfold TablePos; decide,
     by unfold TableWF; decide, by unfold TablePos; decide,
     by unfold TableWF; decide, by unfold TablePos; decide,
     by unfold TableWF; decide, by unfold TablePos; decide,
     by unfold TableWF; decide, by unfold TablePos; decide,
     by unfold TableWF; decide, by unfold TablePos; decide,
     by unfold TableWF; decide, by unfold TablePos; decide⟩
    ⟨by decide, by decide, by decide, by decide, by decide, by decide, by decide⟩
    (by decide) hok (List.mem_cons_self c7txA _)
    (List.mem_cons_of_mem _ (List.mem_cons_self c7txB _))
    (by decide) (by decide)

/-! ## C1: idempotence — key structure of the per-transaction row sets -/

theorem map_flatMap_comm {γ δ ε : Type} (g : δ → ε) (f : γ → List δ) :
    ∀ (l : List γ), (l.flatMap f).map g = l.flatMap (fun x => (f x).map g)
  | [] => rfl
  | x :: tl => by
    rw [List.flatMap_cons, List.flatMap_cons, List.map_append,
      map_flatMap_comm g f tl]

/-- Pairs of an outer key and an inner key are pairwise distinct when the
outer keys are and each inner key list is. -/
theorem flatmap_pair_keys_nodup {γ δ κ1 κ2 : Type} (g1 : γ → κ1) (g2 : δ → κ2)
    (f : γ → List δ) :
    ∀ (l : List γ), (l.map g1).Nodup → (∀ x ∈ l, ((f x).map g2).Nodup) →
    (l.flatMap (fun x => (f x).map (fun e => (g1 x, g2 e)))).Nodup
  | [], _, _ => by simp
  | x :: tl, hnd, hin => by
    rw [List.flatMap_cons, List.nodup_append]
    have hnd2 : (tl.map g1).Nodup := by
      rw [List.map_cons, List.nodup_cons] at hnd
      exact hnd.2
    have hx1 : g1 x ∉ tl.map g1 := by
      rw [List.map_cons, List.nodup_cons] at hnd
      exact hnd.1
    refine ⟨?_, flatmap_pair_keys_nodup g1 g2 f tl hnd2
      (fun y hy => hin y (List.mem_cons_of_mem _ hy)), ?_⟩
    · have : (f x).map (fun e => (g1 x, g2 e)) =
          ((f x).map g2).map (fun k => (g1 x, k)) := by
        rw [List.map_map]
        rfl
      rw [this]
      exact List.Nodup.map (fun a b hab => by simpa using hab)
        (hin x (List.mem_cons_self _ _))
    · intro a ha hamem
      obtain ⟨e, he, hae⟩ := List.mem_map.mp ha
      rw [List.mem_flatMap] at hamem
      obtain ⟨y, hy, hay⟩ := hamem
      obtain ⟨e2, he2, hae2⟩ := List.mem_map.mp hay
      have h1 : a.1 = g1 x := by
        rw [← hae]
      have h2 : a.1 = g1 y := by
        rw [← hae2]
      have hxy : g1 x = g1 y := h1.symm.trans h2
      rw [hxy] at hx1
      exact hx1 (List.mem_map_of_mem g1 hy)

/-- The conflict keys of one transaction's message batch. -/
theorem msgRowsOf_keys (uniq : List (String × Tx)) (maps : RefMaps)
    (w : TxDBWrapper) :
    (msgRowsOf uniq maps w).map msgSpec.key =
    w.messages.map (fun m2 =>
      (((assocFind uniq w.tx.hash).getD zeroTx).id, m2.messageIndex)) := by
  unfold msgRowsOf
  rw [List.map_map]
  rfl

theorem msgRowsOf_keys_nodup (uniq : List (String × Tx)) (maps : RefMaps)
    (w : TxDBWrapper)
    (hidx : (w.messages.map (fun m2 => m2.messageIndex)).Nodup) :
    ((msgRowsOf uniq maps w).map msgSpec.key).Nodup := by
  rw [msgRowsOf_keys]
  have : w.messages.map (fun m2 =>
      (((assocFind uniq w.tx.hash).getD zeroTx).id, m2.messageIndex)) =
      (w.messages.map (fun m2 => m2.messageIndex)).map
        (fun i => (((assocFind uniq w.tx.hash).getD zeroTx).id, i)) := by
    rw [List.map_map]
    rfl
  rw [this]
  exact List.Nodup.map (fun a b hab => by simpa using hab) hidx

/-- The conflict keys of one transaction's event batch. -/
theorem evRows_keys (maps : RefMaps) (rets : List Message) (w : TxDBWrapper) :
    ((evGroupsOf maps rets w).map Prod.fst).map evSpec.key =
    (rets.zip w.messages).flatMap
      (fun p => p.2.messageEvents.map (fun ew => (p.1.id, ew.index))) := by
  unfold evGroupsOf
  rw [List.map_map, map_flatMap_comm]
  simp only [List.map_map]
  rfl

theorem evRows_keys_nodup (maps : RefMaps) (rets : List Message)
    (w : TxDBWrapper) (hlen : rets.length = w.messages.length)
    (hrid : (rets.map Message.id).Nodup)
    (hev : ∀ m ∈ w.messages, (m.messageEvents.map (fun e => e.index)).Nodup) :
    (((evGroupsOf maps rets w).map Prod.fst).map evSpec.key).Nodup := by
  rw [evRows_keys]
  refine flatmap_pair_keys_nodup
    (fun (p : Message × MessageDBWrapper) => p.1.id)
    (fun (ew : MessageEventDBWrapper) => ew.index)
    (fun (p : Message × MessageDBWrapper) => p.2.messageEvents) _ ?_ ?_
  · have h1 : (rets.zip w.messages).map
        (fun p => (p.1 : Message).id) =
        ((rets.zip w.messages).map Prod.fst).map Message.id := by
      rw [List.map_map]
      rfl
    rw [h1, List.map_fst_zip rets w.messages (le_of_eq hlen)]
    exact hrid
  · intro p hp
    exact hev p.2 (List.of_mem_zip hp).2

/-- The conflict keys of one transaction's attribute batch. -/
theorem attrRows_keys (maps : RefMaps) (evRets : List MessageEvent)
    (evGroups : List (MessageEvent × List AttributeInput)) :
    (attrRowsOf maps evRets evGroups).map attrSpec.key =
    (evRets.zip (evGroups.map Prod.snd)).flatMap
      (fun p => p.2.map (fun a => (p.1.id, a.index))) := by
  unfold attrRowsOf
  rw [map_flatMap_comm]
  simp only [List.map_map]
  rfl

theorem attrRows_keys_nodup (maps : RefMaps) (evRets : List MessageEvent)
    (evGroups : List (MessageEvent × List AttributeInput))
    (hlen : evRets.length = evGroups.length)
    (hrid : (evRets.map MessageEvent.id).Nodup)
    (hat : ∀ al ∈ evGroups.map Prod.snd,
      (al.map (fun a => a.index)).Nodup) :
    ((attrRowsOf maps evRets evGroups).map attrSpec.key).Nodup := by
  rw [attrRows_keys]
  refine flatmap_pair_keys_nodup
    (fun (p : MessageEvent × List AttributeInput) => p.1.id)
    (fun (a : AttributeInput) => a.index)
    (fun (p : MessageEvent × List AttributeInput) => p.2) _ ?_ ?_
  · have h1 : (evRets.zip (evGroups.map Prod.snd)).map
        (fun p => (p.1 : MessageEvent).id) =
        ((evRets.zip (evGroups.map Prod.snd)).map Prod.fst).map
          MessageEvent.id := by
      rw [List.map_map]
      rfl
    rw [h1, List.map_fst_zip evRets (evGroups.map Prod.snd)
      (by rw [List.length_map]; exact le_of_eq hlen)]
    exact hrid
  · intro p hp
    exact hat p.2 (List.of_mem_zip hp).2

/-! ### Replaying a batch create on a table that already carries its result -/

theorem createMessages_flag {flag : Bool} {d : DB} {rows : List Message}
    {o : StepOut Message} (h : createMessages flag d rows = .ok o)
    (hne : rows.isEmpty = false) : flag = false := by
  unfold createMessages at h
  split at h
  · simp_all
  · split at h
    · exact absurd h (by simp)
    · cases flag
      · rfl
      · simp_all

theorem createMessageEvents_flag {flag : Bool} {d : DB} {rows : List MessageEvent}
    {o : StepOut MessageEvent} (h : createMessageEvents flag d rows = .ok o)
    (hne : rows.isEmpty = false) : flag = false := by
  unfold createMessageEvents at h
  split at h
  · simp_all
  · split at h
    · exact absurd h (by simp)
    · cases flag
      · rfl
      · simp_all

theorem createMessageEventAttributes_flag {flag : Bool} {d : DB}
    {rows : List MessageEventAttribute} {o : StepOut MessageEventAttribute}
    (h : createMessageEventAttributes flag d rows = .ok o)
    (hne : rows.isEmpty = false) : flag = false := by
  unfold createMessageEventAttributes at h
  split at h
  · simp_all
  · split at h
    · exact absurd h (by simp)
    · cases flag
      · rfl
      · simp_all

theorem createMessages_stable {flag : Bool} {d d2 : DB} {rows : List Message}
    {o : StepOut Message}
    (h : createMessages flag d rows = .ok o)
    (hbst : rows.isEmpty = false → BStableW msgSpec d2.messages rows o.rets)
    (hfk : messageFKOk d2 rows = messageFKOk d rows) :
    createMessages flag d2 rows = .ok ⟨d2, o.ops, o.rets⟩ := by
  obtain ⟨-, hemp, hfull⟩ := createMessages_shape h
  cases he : rows.isEmpty with
  | true =>
    obtain ⟨-, hrets, hops⟩ := hemp he
    unfold createMessages
    rw [if_pos he, hops, hrets]
  | false =>
    obtain ⟨hfkd, -, -, -, hops⟩ := hfull he
    have hfl := createMessages_flag h he
    subst hfl
    simp only [createMessages]
    rw [if_neg (by simp [he]), if_neg (by simp),
      if_pos (show messageFKOk d2 rows = true by rw [hfk]; exact hfkd),
      batch_of_bstablew (hbst he) d2.nextID, hops]

theorem createMessageEvents_stable {flag : Bool} {d d2 : DB}
    {rows : List MessageEvent} {o : StepOut MessageEvent}
    (h : createMessageEvents flag d rows = .ok o)
    (hbst : rows.isEmpty = false → BStableW evSpec d2.messageEvents rows o.rets)
    (hfk : eventFKOk d2 rows = eventFKOk d rows) :
    createMessageEvents flag d2 rows = .ok ⟨d2, o.ops, o.rets⟩ := by
  obtain ⟨-, hemp, hfull⟩ := createMessageEvents_shape h
  cases he : rows.isEmpty with
  | true =>
    obtain ⟨-, hrets, hops⟩ := hemp he
    unfold createMessageEvents
    rw [if_pos he, hops, hrets]
  | false =>
    obtain ⟨hfkd, -, -, -, hops⟩ := hfull he
    have hfl := createMessageEvents_flag h he
    subst hfl
    simp only [createMessageEvents]
    rw [if_neg (by simp [he]), if_neg (by simp),
      if_pos (show eventFKOk d2 rows = true by rw [hfk]; exact hfkd),
      batch_of_bstablew (hbst he) d2.nextID, hops]

theorem createMessageEventAttributes_stable {flag : Bool} {d d2 : DB}
    {rows : List MessageEventAttribute} {o : StepOut MessageEventAttribute}
    (h : createMessageEventAttributes flag d rows = .ok o)
    (hbst : rows.isEmpty = false →
      BStableW attrSpec d2.messageEventAttributes rows o.rets)
    (hfk : attrFKOk d2 rows = attrFKOk d rows) :
    createMessageEventAttributes flag d2 rows = .ok ⟨d2, o.ops, o.rets⟩ := by
  obtain ⟨-, hemp, hfull⟩ := createMessageEventAttributes_shape h
  cases he : rows.isEmpty with
  | true =>
    obtain ⟨-, hrets, hops⟩ := hemp he
    unfold createMessageEventAttributes
    rw [if_pos he, hops, hrets]
  | false =>
    obtain ⟨hfkd, -, -, -, hops⟩ := hfull he
    have hfl := createMessageEventAttributes_flag h he
    subst hfl
    simp only [createMessageEventAttributes]
    rw [if_neg (by simp [he]), if_neg (by simp),
      if_pos (show attrFKOk d2 rows = true by rw [hfk]; exact hfkd),
      batch_of_bstablew (hbst he) d2.nextID, hops]

/-- The foreign-key checks depend only on the reference tables. -/
theorem messageFKOk_congr {d d2 : DB} (h : d2.messageTypes = d.messageTypes)
    (rows : List Message) : messageFKOk d2 rows = messageFKOk d rows := by
  unfold messageFKOk
  rw [h]

theorem eventFKOk_congr {d d2 : DB}
    (h : d2.messageEventTypes = d.messageEventTypes)
    (rows : List MessageEvent) : eventFKOk d2 rows = eventFKOk d rows := by
  unfold eventFKOk
  rw [h]

theorem attrFKOk_congr {d d2 : DB}
    (h : d2.messageEventAttributeKeys = d.messageEventAttributeKeys)
    (rows : List MessageEventAttribute) :
    attrFKOk d2 rows = attrFKOk d rows := by
  unfold attrFKOk
  rw [h]

/-! ### Replaying one loop iteration on its own post-state -/

theorem persistOneTx_dissect {f : Faults} {uniq : List (String × Tx)}
    {maps : RefMaps} {d : DB} {w : TxDBWrapper} {o : DB × List Op}
    (h : persistOneTx f uniq maps d w = .ok o) :
    ∃ o1 o2 o3,
      createMessages f.failMessageCreate d (msgRowsOf uniq maps w) = .ok o1 ∧
      createMessageEvents f.failMessageEventCreate o1.db
        ((evGroupsOf maps o1.rets w).map Prod.fst) = .ok o2 ∧
      createMessageEventAttributes f.failAttributeCreate o2.db
        (attrRowsOf maps o2.rets (evGroupsOf maps o1.rets w)) = .ok o3 ∧
      o = (o3.db, o1.ops ++ o2.ops ++ o3.ops) := by
  simp only [persistOneTx] at h
  cases h1 : createMessages f.failMessageCreate d (msgRowsOf uniq maps w) with
  | error e =>
    rw [h1, ebind_error] at h
    exact absurd h (by simp)
  | ok o1 =>
    rw [h1, ebind_ok] at h
    cases h2 : createMessageEvents f.failMessageEventCreate o1.db
        ((evGroupsOf maps o1.rets w).map Prod.fst) with
    | error e =>
      rw [h2, ebind_error] at h
      exact absurd h (by simp)
    | ok o2 =>
      rw [h2, ebind_ok] at h
      cases h3 : createMessageEventAttributes f.failAttributeCreate o2.db
          (attrRowsOf maps o2.rets (evGroupsOf maps o1.rets w)) with
      | error e =>
        rw [h3, ebind_error] at h
        exact absurd h (by simp)
      | ok o3 =>
        rw [h3, ebind_ok] at h
        simp only [Except.ok.injEq] at h
        exact ⟨o1, o2, o3, rfl, h2, h3, h.symm⟩

/-- Re-running one transaction's three batch inserts on their own post-state
rewrites the same rows in place: same final state, same round-trips. -/
theorem persistOneTx_stable_post {f : Faults} {uniq : List (String × Tx)}
    {maps : RefMaps} {d : DB} {w : TxDBWrapper} {o : DB × List Op}
    (h : persistOneTx f uniq maps d w = .ok o)
    (hidx : (w.messages.map (fun m2 => m2.messageIndex)).Nodup)
    (hev : ∀ m ∈ w.messages, (m.messageEvents.map (fun e => e.index)).Nodup)
    (hat : ∀ m ∈ w.messages, ∀ e ∈ m.messageEvents,
      (e.attributes.map (fun a => a.index)).Nodup)
    (hwfm : TableWF msgSpec d.messages d.nextID)
    (hwfe : TableWF evSpec d.messageEvents d.nextID) :
    persistOneTx f uniq maps o.1 w = .ok (o.1, o.2) := by
  obtain ⟨o1, o2, o3, h1, h2, h3, ho⟩ := persistOneTx_dissect h
  obtain ⟨hfr1, hemp1, hfull1⟩ := createMessages_shape h1
  obtain ⟨hfr2, hemp2, hfull2⟩ := createMessageEvents_shape h2
  obtain ⟨hfr3, hemp3, hfull3⟩ := createMessageEventAttributes_shape h3
  have ho1 : o.1 = o3.db := by rw [ho]
  have ho2 : o.2 = o1.ops ++ o2.ops ++ o3.ops := by rw [ho]
  have hm2 : o2.db.messages = o1.db.messages := by
    have e := congrArg DB.messages hfr2
    exact e
  have hm3 : o3.db.messages = o2.db.messages := by
    have e := congrArg DB.messages hfr3
    exact e
  have he1 : o1.db.messageEvents = d.messageEvents := by
    have e := congrArg DB.messageEvents hfr1
    exact e
  have he3 : o3.db.messageEvents = o2.db.messageEvents := by
    have e := congrArg DB.messageEvents hfr3
    exact e
  have hmt1 : o1.db.messageTypes = d.messageTypes := by
    have e := congrArg DB.messageTypes hfr1
    exact e
  have hmt2 : o2.db.messageTypes = o1.db.messageTypes := by
    have e := congrArg DB.messageTypes hfr2
    exact e
  have hmt3 : o3.db.messageTypes = o2.db.messageTypes := by
    have e := congrArg DB.messageTypes hfr3
    exact e
  have het1 : o1.db.messageEventTypes = d.messageEventTypes := by
    have e := congrArg DB.messageEventTypes hfr1
    exact e
  have het2 : o2.db.messageEventTypes = o1.db.messageEventTypes := by
    have e := congrArg DB.messageEventTypes hfr2
    exact e
  have het3 : o3.db.messageEventTypes = o2.db.messageEventTypes := by
    have e := congrArg DB.messageEventTypes hfr3
    exact e
  have hak3 : o3.db.messageEventAttributeKeys =
      o2.db.messageEventAttributeKeys := by
    have e := congrArg DB.messageEventAttributeKeys hfr3
    exact e
  have hn1 : d.nextID ≤ o1.db.nextID := by
    cases hq : (msgRowsOf uniq maps w).isEmpty with
    | true =>
      obtain ⟨hd, -, -⟩ := hemp1 hq
      rw [hd]
    | false =>
      obtain ⟨-, -, hn, -, -⟩ := hfull1 hq
      rw [hn]
      exact batch_next_ge _ _ _
  have hknd1 : ((msgRowsOf uniq maps w).map msgSpec.key).Nodup :=
    msgRowsOf_keys_nodup uniq maps w hidx
  have hbm : (msgRowsOf uniq maps w).isEmpty = false →
      BStableW msgSpec o1.db.messages (msgRowsOf uniq maps w) o1.rets := by
    intro hq
    obtain ⟨-, htab, -, hrets, -⟩ := hfull1 hq
    have hb := bstablew_establish msgLaws hknd1
      (rfl : batchUpsert msgSpec d.messages d.nextID (msgRowsOf uniq maps w) =
        batchUpsert msgSpec d.messages d.nextID (msgRowsOf uniq maps w))
    rw [← htab, ← hrets] at hb
    exact hb
  have hwfm1 : (o1.db.messages.map msgSpec.rid).Nodup := by
    cases hq : (msgRowsOf uniq maps w).isEmpty with
    | true =>
      obtain ⟨hd, -, -⟩ := hemp1 hq
      rw [hd]
      exact hwfm.1
    | false =>
      obtain ⟨-, htab, -, -, -⟩ := hfull1 hq
      rw [htab]
      exact (batch_wf msgLaws _ hwfm).1
  have hwfe1 : TableWF evSpec o1.db.messageEvents o1.db.nextID := by
    rw [he1]
    exact tablewf_mono hwfe hn1
  have hmsgs_of_empty : (msgRowsOf uniq maps w).isEmpty = true →
      w.messages = [] := by
    intro hq
    unfold msgRowsOf at hq
    simpa using hq
  have hlen1 : o1.rets.length = w.messages.length := by
    cases hq : (msgRowsOf uniq maps w).isEmpty with
    | true =>
      obtain ⟨-, hrets, -⟩ := hemp1 hq
      rw [hrets, hmsgs_of_empty hq]
      rfl
    | false =>
      obtain ⟨-, -, -, hrets, -⟩ := hfull1 hq
      rw [hrets, batch_rets_length]
      unfold msgRowsOf
      rw [List.length_map]
  have hrid1 : (o1.rets.map msgSpec.rid).Nodup := by
    cases hq : (msgRowsOf uniq maps w).isEmpty with
    | true =>
      obtain ⟨-, hrets, -⟩ := hemp1 hq
      rw [hrets]
      simp
    | false =>
      exact rowed_rets_rid_nodup msgLaws (bstablew_rowed msgLaws (hbm hq))
        hknd1 hwfm1
  have hknd2 : (((evGroupsOf maps o1.rets w).map Prod.fst).map
      evSpec.key).Nodup :=
    evRows_keys_nodup maps o1.rets w hlen1 hrid1 hev
  have hbe : ((evGroupsOf maps o1.rets w).map Prod.fst).isEmpty = false →
      BStableW evSpec o2.db.messageEvents
        ((evGroupsOf maps o1.rets w).map Prod.fst) o2.rets := by
    intro hq
    obtain ⟨-, htab, -, hrets, -⟩ := hfull2 hq
    have hb := bstablew_establish evLaws hknd2
      (rfl : batchUpsert evSpec o1.db.messageEvents o1.db.nextID
          ((evGroupsOf maps o1.rets w).map Prod.fst) =
        batchUpsert evSpec o1.db.messageEvents o1.db.nextID
          ((evGroupsOf maps o1.rets w).map Prod.fst))
    rw [← htab, ← hrets] at hb
    exact hb
  have hevg_of_empty : ((evGroupsOf maps o1.rets w).map Prod.fst).isEmpty =
      true → evGroupsOf maps o1.rets w = [] := by
    intro hq
    simpa using hq
  have hlen2 : o2.rets.length = (evGroupsOf maps o1.rets w).length := by
    cases hq : ((evGroupsOf maps o1.rets w).map Prod.fst).isEmpty with
    | true =>
      obtain ⟨-, hrets, -⟩ := hemp2 hq
      rw [hrets, hevg_of_empty hq]
      rfl
    | false =>
      obtain ⟨-, -, -, hrets, -⟩ := hfull2 hq
      rw [hrets, batch_rets_length, List.length_map]
  have hrid2 : (o2.rets.map evSpec.rid).Nodup := by
    cases hq : ((evGroupsOf maps o1.rets w).map Prod.fst).isEmpty with
    | true =>
      obtain ⟨-, hrets, -⟩ := hemp2 hq
      rw [hrets]
      simp
    | false =>
      refine rowed_rets_rid_nodup evLaws (bstablew_rowed evLaws (hbe hq))
        hknd2 ?_
      obtain ⟨-, htab, -, -, -⟩ := hfull2 hq
      rw [htab]
      exact (batch_wf evLaws _ hwfe1).1
  have hat2 : ∀ al ∈ (evGroupsOf maps o1.rets w).map Prod.snd,
      (al.map (fun a => a.index)).Nodup := by
    intro al hal
    obtain ⟨p, hp, hpal⟩ := List.mem_map.mp hal
    unfold evGroupsOf at hp
    rw [List.mem_flatMap] at hp
    obtain ⟨q, hq2, hpq⟩ := hp
    obtain ⟨ew, hew, hpew⟩ := List.mem_map.mp hpq
    have hpe : p.2 = ew.attributes := by rw [← hpew]
    rw [← hpal, hpe]
    exact hat q.2 (List.of_mem_zip hq2).2 ew hew
  have hknd3 : ((attrRowsOf maps o2.rets (evGroupsOf maps o1.rets w)).map
      attrSpec.key).Nodup :=
    attrRows_keys_nodup maps o2.rets (evGroupsOf maps o1.rets w)
      hlen2 hrid2 hat2
  have hmtfinal : o.1.messageTypes = d.messageTypes := by
    rw [ho1]
    exact hmt3.trans (hmt2.trans hmt1)
  have hetfinal : o.1.messageEventTypes = o1.db.messageEventTypes := by
    rw [ho1]
    exact het3.trans het2
  have hakfinal : o.1.messageEventAttributeKeys =
      o2.db.messageEventAttributeKeys := by
    rw [ho1]
    exact hak3
  have hmfinal : o.1.messages = o1.db.messages := by
    rw [ho1]
    exact hm3.trans hm2
  have hefinal : o.1.messageEvents = o2.db.messageEvents := by
    rw [ho1]
    exact he3
  have hafinal : o.1.messageEventAttributes = o3.db.messageEventAttributes := by
    rw [ho1]
  have hs1 : createMessages f.failMessageCreate o.1 (msgRowsOf uniq maps w) =
      .ok ⟨o.1, o1.ops, o1.rets⟩ := by
    refine createMessages_stable h1 ?_ (messageFKOk_congr hmtfinal _)
    intro hq
    rw [hmfinal]
    exact hbm hq
  have hs2 : createMessageEvents f.failMessageEventCreate o.1
      ((evGroupsOf maps o1.rets w).map Prod.fst) =
      .ok ⟨o.1, o2.ops, o2.rets⟩ := by
    refine createMessageEvents_stable h2 ?_ (eventFKOk_congr hetfinal _)
    intro hq
    rw [hefinal]
    exact hbe hq
  have hs3 : createMessageEventAttributes f.failAttributeCreate o.1
      (attrRowsOf maps o2.rets (evGroupsOf maps o1.rets w)) =
      .ok ⟨o.1, o3.ops, o3.rets⟩ := by
    refine createMessageEventAttributes_stable h3 ?_ (attrFKOk_congr hakfinal _)
    intro hq
    obtain ⟨-, htab, -, hrets, -⟩ := hfull3 hq
    have hb := bstablew_establish attrLaws hknd3
      (rfl : batchUpsert attrSpec o2.db.messageEventAttributes o2.db.nextID
          (attrRowsOf maps o2.rets (evGroupsOf maps o1.rets w)) =
        batchUpsert attrSpec o2.db.messageEventAttributes o2.db.nextID
          (attrRowsOf maps o2.rets (evGroupsOf maps o1.rets w)))
    rw [← htab, ← hrets] at hb
    rw [hafinal]
    exact hb
  simp only [persistOneTx]
  rw [hs1, ebind_ok]
  show ebind (createMessageEvents f.failMessageEventCreate o.1
      ((evGroupsOf maps o1.rets w).map Prod.fst)) (fun q2 =>
    ebind (createMessageEventAttributes f.failAttributeCreate q2.db
        (attrRowsOf maps q2.rets (evGroupsOf maps o1.rets w))) (fun q3 =>
      .ok (q3.db, o1.ops ++ q2.ops ++ q3.ops))) = .ok (o.1, o.2)
  rw [hs2, ebind_ok]
  show ebind (createMessageEventAttributes f.failAttributeCreate o.1
      (attrRowsOf maps o2.rets (evGroupsOf maps o1.rets w))) (fun q3 =>
    .ok (q3.db, o1.ops ++ o2.ops ++ q3.ops)) = .ok (o.1, o.2)
  rw [hs3, ebind_ok]
  show (Except.ok (o.1, o1.ops ++ o2.ops ++ o3.ops) :
    Except String (DB × List Op)) = .ok (o.1, o.2)
  rw [ho2]

/-! ### Key disjointness between different transactions' row sets -/

/-- Every message row built for `w` carries `w`'s resolved tx id. -/
theorem msgRowsOf_txID (uniq : List (String × Tx)) (maps : RefMaps)
    (w : TxDBWrapper) : ∀ y ∈ msgRowsOf uniq maps w,
    y.txID = ((assocFind uniq w.tx.hash).getD zeroTx).id := by
  intro y hy
  obtain ⟨m, hm, hym⟩ := List.mem_map.mp hy
  rw [← hym]
  rfl

/-- Every event row built for `w` points at one of the returned message
rows. -/
theorem evRowsOf_messageID (maps : RefMaps) (rets : List Message)
    (w : TxDBWrapper) : ∀ y ∈ (evGroupsOf maps rets w).map Prod.fst,
    ∃ r ∈ rets, y.messageID = r.id := by
  intro y hy
  obtain ⟨p, hp, hyp⟩ := List.mem_map.mp hy
  unfold evGroupsOf at hp
  rw [List.mem_flatMap] at hp
  obtain ⟨q, hq, hpq⟩ := hp
  obtain ⟨ew, hew, hqew⟩ := List.mem_map.mp hpq
  refine ⟨q.1, (List.of_mem_zip hq).1, ?_⟩
  have h1 : p.1 = buildEventRow q.1.id maps.et ew := by
    rw [← hqew]
  rw [← hyp, h1]
  rfl

theorem msgRows_keys_disjoint {uniq : List (String × Tx)} {maps : RefMaps}
    {w w2 : TxDBWrapper}
    (htid : ((assocFind uniq w2.tx.hash).getD zeroTx).id ≠
      ((assocFind uniq w.tx.hash).getD zeroTx).id) :
    ∀ k ∈ (msgRowsOf uniq maps w).map msgSpec.key,
      k ∉ (msgRowsOf uniq maps w2).map msgSpec.key := by
  intro k hk hk2
  rw [msgRowsOf_keys] at hk hk2
  obtain ⟨m, hm, hmk⟩ := List.mem_map.mp hk
  obtain ⟨m2, hm2, hmk2⟩ := List.mem_map.mp hk2
  have e1 : k.1 = ((assocFind uniq w.tx.hash).getD zeroTx).id := by
    rw [← hmk]
  have e2 : k.1 = ((assocFind uniq w2.tx.hash).getD zeroTx).id := by
    rw [← hmk2]
  exact htid (e2.symm.trans e1)

/-- Event batches of two transactions touch disjoint `(message_id, index)`
keys when their message rows live in one well-formed table under distinct
tx ids. -/
theorem evRows_keys_disjoint {maps : RefMaps} {w w2 : TxDBWrapper}
    {R1 R1b : List Message} {T : List Message} {tid tid2 : Nat}
    (htid : tid2 ≠ tid)
    (hnd : (T.map Message.id).Nodup)
    (hrow1 : ∀ r ∈ R1, ∃ row ∈ T, row.id = r.id ∧ row.txID = tid)
    (hrow2 : ∀ r ∈ R1b, ∃ row ∈ T, row.id = r.id ∧ row.txID = tid2) :
    ∀ k ∈ ((evGroupsOf maps R1 w).map Prod.fst).map evSpec.key,
      k ∉ ((evGroupsOf maps R1b w2).map Prod.fst).map evSpec.key := by
  intro k hk hk2
  rw [evRows_keys] at hk hk2
  rw [List.mem_flatMap] at hk hk2
  obtain ⟨p, hp, hkp⟩ := hk
  obtain ⟨p2, hp2, hkp2⟩ := hk2
  obtain ⟨ew, hew, hewk⟩ := List.mem_map.mp hkp
  obtain ⟨ew2, hew2, hewk2⟩ := List.mem_map.mp hkp2
  have e1 : k.1 = p.1.id := by
    rw [← hewk]
  have e2 : k.1 = p2.1.id := by
    rw [← hewk2]
  obtain ⟨row, hrowT, hrowid, hrowtid⟩ := hrow1 p.1 (List.of_mem_zip hp).1
  obtain ⟨row2, hrow2T, hrow2id, hrow2tid⟩ := hrow2 p2.1 (List.of_mem_zip hp2).1
  have hre : row = row2 := List.inj_on_of_nodup_map hnd hrowT hrow2T
    (by rw [hrowid, hrow2id, ← e1, ← e2])
  rw [hre] at hrowtid
  exact htid (hrow2tid.symm.trans hrowtid)

/-- Attribute batches of two transactions touch disjoint
`(message_event_id, index)` keys when their event rows resolve, through
well-formed tables, to messages of distinct tx ids. -/
theorem attrRows_keys_disjoint {maps : RefMaps}
    {evG evGb : List (MessageEvent × List AttributeInput)}
    {R2 R2b : List MessageEvent} {TE : List MessageEvent} {TM : List Message}
    {tid tid2 : Nat}
    (htid : tid2 ≠ tid)
    (hndM : (TM.map Message.id).Nodup)
    (hndE : (TE.map MessageEvent.id).Nodup)
    (hrow1 : ∀ r ∈ R2, ∃ row ∈ TE, row.id = r.id ∧
      ∃ mrow ∈ TM, mrow.id = row.messageID ∧ mrow.txID = tid)
    (hrow2 : ∀ r ∈ R2b, ∃ row ∈ TE, row.id = r.id ∧
      ∃ mrow ∈ TM, mrow.id = row.messageID ∧ mrow.txID = tid2) :
    ∀ k ∈ (attrRowsOf maps R2 evG).map attrSpec.key,
      k ∉ (attrRowsOf maps R2b evGb).map attrSpec.key := by
  intro k hk hk2
  rw [attrRows_keys] at hk hk2
  rw [List.mem_flatMap] at hk hk2
  obtain ⟨p, hp, hkp⟩ := hk
  obtain ⟨p2, hp2, hkp2⟩ := hk2
  obtain ⟨a, ha, hak⟩ := List.mem_map.mp hkp
  obtain ⟨a2, ha2, hak2⟩ := List.mem_map.mp hkp2
  have e1 : k.1 = p.1.id := by
    rw [← hak]
  have e2 : k.1 = p2.1.id := by
    rw [← hak2]
  obtain ⟨row, hrowT, hrowid, mrow, hmrowT, hmrowid, hmrowtid⟩ :=
    hrow1 p.1 (List.of_mem_zip hp).1
  obtain ⟨row2, hrow2T, hrow2id, mrow2, hmrow2T, hmrow2id, hmrow2tid⟩ :=
    hrow2 p2.1 (List.of_mem_zip hp2).1
  have hre : row = row2 := List.inj_on_of_nodup_map hndE hrowT hrow2T
    (by rw [hrowid, hrow2id, ← e1, ← e2])
  have hme : mrow = mrow2 := List.inj_on_of_nodup_map hndM hmrowT hmrow2T
    (by rw [hmrowid, hmrow2id, hre])
  rw [hme] at hmrowtid
  exact htid (hmrow2tid.symm.trans hmrowtid)

/-- A loop iteration for `w` that has already reached its fixed point stays
a fixed point after an iteration for a different transaction `w2`. -/
theorem persistOneTx_stable_step {f : Faults} {uniq : List (String × Tx)}
    {maps : RefMaps} {d : DB} {w w2 : TxDBWrapper} {opsw : List Op}
    {o2 : DB × List Op}
    (hP : persistOneTx f uniq maps d w = .ok (d, opsw))
    (hstep : persistOneTx f uniq maps d w2 = .ok o2)
    (htid : ((assocFind uniq w2.tx.hash).getD zeroTx).id ≠
      ((assocFind uniq w.tx.hash).getD zeroTx).id)
    (hidx : (w.messages.map (fun m2 => m2.messageIndex)).Nodup)
    (hev : ∀ m ∈ w.messages, (m.messageEvents.map (fun e => e.index)).Nodup)
    (hat : ∀ m ∈ w.messages, ∀ e ∈ m.messageEvents,
      (e.attributes.map (fun a => a.index)).Nodup)
    (hidx2 : (w2.messages.map (fun m2 => m2.messageIndex)).Nodup)
    (hev2 : ∀ m ∈ w2.messages, (m.messageEvents.map (fun e => e.index)).Nodup)
    (hwfm : TableWF msgSpec d.messages d.nextID)
    (hwfe : TableWF evSpec d.messageEvents d.nextID) :
    persistOneTx f uniq maps o2.1 w = .ok (o2.1, opsw) := by
  obtain ⟨p1, p2, p3, hp1, hp2, hp3, hpo⟩ := persistOneTx_dissect hP
  obtain ⟨q1, q2, q3, hq1, hq2, hq3, hqo⟩ := persistOneTx_dissect hstep
  have hd3 : p3.db = d := by
    have e : d = p3.db := congrArg Prod.fst hpo
    exact e.symm
  have hops : opsw = p1.ops ++ p2.ops ++ p3.ops := congrArg Prod.snd hpo
  have ho21 : o2.1 = q3.db := by rw [hqo]
  obtain ⟨pfr1, pemp1, pfull1⟩ := createMessages_shape hp1
  obtain ⟨pfr2, pemp2, pfull2⟩ := createMessageEvents_shape hp2
  obtain ⟨pfr3, pemp3, pfull3⟩ := createMessageEventAttributes_shape hp3
  obtain ⟨qfr1, qemp1, qfull1⟩ := createMessages_shape hq1
  obtain ⟨qfr2, qemp2, qfull2⟩ := createMessageEvents_shape hq2
  obtain ⟨qfr3, qemp3, qfull3⟩ := createMessageEventAttributes_shape hq3
  -- frame facts of the stable run
  have hpm32 : p3.db.messages = p2.db.messages := by
    have e := congrArg DB.messages pfr3
    exact e
  have hpm21 : p2.db.messages = p1.db.messages := by
    have e := congrArg DB.messages pfr2
    exact e
  have hpm : p1.db.messages = d.messages := by
    rw [← hpm21, ← hpm32, hd3]
  have hpe1 : p1.db.messageEvents = d.messageEvents := by
    have e := congrArg DB.messageEvents pfr1
    exact e
  have hpe32 : p3.db.messageEvents = p2.db.messageEvents := by
    have e := congrArg DB.messageEvents pfr3
    exact e
  have hpe : p2.db.messageEvents = d.messageEvents := by
    rw [← hpe32, hd3]
  have hpattr : p3.db.messageEventAttributes = d.messageEventAttributes := by
    rw [hd3]
  have hpet : p1.db.messageEventTypes = d.messageEventTypes := by
    have e := congrArg DB.messageEventTypes pfr1
    exact e
  have hpak1 : p1.db.messageEventAttributeKeys =
      d.messageEventAttributeKeys := by
    have e := congrArg DB.messageEventAttributeKeys pfr1
    exact e
  have hpak : p2.db.messageEventAttributeKeys =
      d.messageEventAttributeKeys := by
    have e := congrArg DB.messageEventAttributeKeys pfr2
    have e2 : p2.db.messageEventAttributeKeys =
        p1.db.messageEventAttributeKeys := e
    exact e2.trans hpak1
  -- frame facts of the stepping run
  have hq1e : q1.db.messageEvents = d.messageEvents := by
    have e := congrArg DB.messageEvents qfr1
    exact e
  have hq2m : q2.db.messages = q1.db.messages := by
    have e := congrArg DB.messages qfr2
    exact e
  have hq3m : q3.db.messages = q2.db.messages := by
    have e := congrArg DB.messages qfr3
    exact e
  have hq3e : q3.db.messageEvents = q2.db.messageEvents := by
    have e := congrArg DB.messageEvents qfr3
    exact e
  have hq1a : q1.db.messageEventAttributes = d.messageEventAttributes := by
    have e := congrArg DB.messageEventAttributes qfr1
    exact e
  have hq2a : q2.db.messageEventAttributes = d.messageEventAttributes := by
    have e := congrArg DB.messageEventAttributes qfr2
    have e2 : q2.db.messageEventAttributes =
        q1.db.messageEventAttributes := e
    exact e2.trans hq1a
  have hq1n : d.nextID ≤ q1.db.nextID := by
    cases hqe : (msgRowsOf uniq maps w2).isEmpty with
    | true =>
      obtain ⟨hdq, -, -⟩ := qemp1 hqe
      rw [hdq]
    | false =>
      obtain ⟨-, -, hn, -, -⟩ := qfull1 hqe
      rw [hn]
      exact batch_next_ge _ _ _
  -- emptiness helpers
  have hmsgs_of_emptyP : (msgRowsOf uniq maps w).isEmpty = true →
      w.messages = [] := by
    intro hqe
    unfold msgRowsOf at hqe
    simpa using hqe
  have hmsgs_of_emptyQ : (msgRowsOf uniq maps w2).isEmpty = true →
      w2.messages = [] := by
    intro hqe
    unfold msgRowsOf at hqe
    simpa using hqe
  -- stable-run batches are stable on d's tables
  have hknd1 : ((msgRowsOf uniq maps w).map msgSpec.key).Nodup :=
    msgRowsOf_keys_nodup uniq maps w hidx
  have hbmP : (msgRowsOf uniq maps w).isEmpty = false →
      BStableW msgSpec d.messages (msgRowsOf uniq maps w) p1.rets := by
    intro hqe
    obtain ⟨-, htab, -, hrets, -⟩ := pfull1 hqe
    have hb := bstablew_establish msgLaws hknd1
      (rfl : batchUpsert msgSpec d.messages d.nextID (msgRowsOf uniq maps w) =
        batchUpsert msgSpec d.messages d.nextID (msgRowsOf uniq maps w))
    rw [← htab, ← hrets, hpm] at hb
    exact hb
  have hlen1P : p1.rets.length = w.messages.length := by
    cases hqe : (msgRowsOf uniq maps w).isEmpty with
    | true =>
      obtain ⟨-, hrets, -⟩ := pemp1 hqe
      rw [hrets, hmsgs_of_emptyP hqe]
      rfl
    | false =>
      obtain ⟨-, -, -, hrets, -⟩ := pfull1 hqe
      rw [hrets, batch_rets_length]
      unfold msgRowsOf
      rw [List.length_map]
  have hrid1P : (p1.rets.map msgSpec.rid).Nodup := by
    cases hqe : (msgRowsOf uniq maps w).isEmpty with
    | true =>
      obtain ⟨-, hrets, -⟩ := pemp1 hqe
      rw [hrets]
      simp
    | false =>
      exact rowed_rets_rid_nodup msgLaws (bstablew_rowed msgLaws (hbmP hqe))
        hknd1 hwfm.1
  have hknd2P : (((evGroupsOf maps p1.rets w).map Prod.fst).map
      evSpec.key).Nodup :=
    evRows_keys_nodup maps p1.rets w hlen1P hrid1P hev
  have hbeP : ((evGroupsOf maps p1.rets w).map Prod.fst).isEmpty = false →
      BStableW evSpec d.messageEvents
        ((evGroupsOf maps p1.rets w).map Prod.fst) p2.rets := by
    intro hqe
    obtain ⟨-, htab, -, hrets, -⟩ := pfull2 hqe
    have hb := bstablew_establish evLaws hknd2P
      (rfl : batchUpsert evSpec p1.db.messageEvents p1.db.nextID
          ((evGroupsOf maps p1.rets w).map Prod.fst) =
        batchUpsert evSpec p1.db.messageEvents p1.db.nextID
          ((evGroupsOf maps p1.rets w).map Prod.fst))
    rw [← htab, ← hrets, hpe] at hb
    exact hb
  have hevg_of_emptyP : ((evGroupsOf maps p1.rets w).map Prod.fst).isEmpty =
      true → evGroupsOf maps p1.rets w = [] := by
    intro hqe
    simpa using hqe
  have hlen2P : p2.rets.length = (evGroupsOf maps p1.rets w).length := by
    cases hqe : ((evGroupsOf maps p1.rets w).map Prod.fst).isEmpty with
    | true =>
      obtain ⟨-, hrets, -⟩ := pemp2 hqe
      rw [hrets, hevg_of_emptyP hqe]
      rfl
    | false =>
      obtain ⟨-, -, -, hrets, -⟩ := pfull2 hqe
      rw [hrets, batch_rets_length, List.length_map]
  have hrid2P : (p2.rets.map evSpec.rid).Nodup := by
    cases hqe : ((evGroupsOf maps p1.rets w).map Prod.fst).isEmpty with
    | true =>
      obtain ⟨-, hrets, -⟩ := pemp2 hqe
      rw [hrets]
      simp
    | false =>
      exact rowed_rets_rid_nodup evLaws (bstablew_rowed evLaws (hbeP hqe))
        hknd2P hwfe.1
  have hat2P : ∀ al ∈ (evGroupsOf maps p1.rets w).map Prod.snd,
      (al.map (fun a => a.index)).Nodup := by
    intro al hal
    obtain ⟨p, hp, hpal⟩ := List.mem_map.mp hal
    unfold evGroupsOf at hp
    rw [List.mem_flatMap] at hp
    obtain ⟨q, hq0, hpq⟩ := hp
    obtain ⟨ew, hew, hpew⟩ := List.mem_map.mp hpq
    have hpe2 : p.2 = ew.attributes := by rw [← hpew]
    rw [← hpal, hpe2]
    exact hat q.2 (List.of_mem_zip hq0).2 ew hew
  have hknd3P : ((attrRowsOf maps p2.rets (evGroupsOf maps p1.rets w)).map
      attrSpec.key).Nodup :=
    attrRows_keys_nodup maps p2.rets (evGroupsOf maps p1.rets w)
      hlen2P hrid2P hat2P
  have hbaP : (attrRowsOf maps p2.rets (evGroupsOf maps p1.rets w)).isEmpty =
      false → BStableW attrSpec d.messageEventAttributes
        (attrRowsOf maps p2.rets (evGroupsOf maps p1.rets w)) p3.rets := by
    intro hqe
    obtain ⟨-, htab, -, hrets, -⟩ := pfull3 hqe
    have hb := bstablew_establish attrLaws hknd3P
      (rfl : batchUpsert attrSpec p2.db.messageEventAttributes p2.db.nextID
          (attrRowsOf maps p2.rets (evGroupsOf maps p1.rets w)) =
        batchUpsert attrSpec p2.db.messageEventAttributes p2.db.nextID
          (attrRowsOf maps p2.rets (evGroupsOf maps p1.rets w)))
    rw [← htab, ← hrets, hpattr] at hb
    exact hb
  -- stepping-run facts
  have hknd1b : ((msgRowsOf uniq maps w2).map msgSpec.key).Nodup :=
    msgRowsOf_keys_nodup uniq maps w2 hidx2
  have hbmQ : (msgRowsOf uniq maps w2).isEmpty = false →
      BStableW msgSpec q1.db.messages (msgRowsOf uniq maps w2) q1.rets := by
    intro hqe
    obtain ⟨-, htab, -, hrets, -⟩ := qfull1 hqe
    have hb := bstablew_establish msgLaws hknd1b
      (rfl : batchUpsert msgSpec d.messages d.nextID (msgRowsOf uniq maps w2) =
        batchUpsert msgSpec d.messages d.nextID (msgRowsOf uniq maps w2))
    rw [← htab, ← hrets] at hb
    exact hb
  have hndMq : (q1.db.messages.map msgSpec.rid).Nodup := by
    cases hqe : (msgRowsOf uniq maps w2).isEmpty with
    | true =>
      obtain ⟨hdq, -, -⟩ := qemp1 hqe
      rw [hdq]
      exact hwfm.1
    | false =>
      obtain ⟨-, htab, -, -, -⟩ := qfull1 hqe
      rw [htab]
      exact (batch_wf msgLaws _ hwfm).1
  have hlen1Q : q1.rets.length = w2.messages.length := by
    cases hqe : (msgRowsOf uniq maps w2).isEmpty with
    | true =>
      obtain ⟨-, hrets, -⟩ := qemp1 hqe
      rw [hrets, hmsgs_of_emptyQ hqe]
      rfl
    | false =>
      obtain ⟨-, -, -, hrets, -⟩ := qfull1 hqe
      rw [hrets, batch_rets_length]
      unfold msgRowsOf
      rw [List.length_map]
  have hrid1Q : (q1.rets.map msgSpec.rid).Nodup := by
    cases hqe : (msgRowsOf uniq maps w2).isEmpty with
    | true =>
      obtain ⟨-, hrets, -⟩ := qemp1 hqe
      rw [hrets]
      simp
    | false =>
      exact rowed_rets_rid_nodup msgLaws (bstablew_rowed msgLaws (hbmQ hqe))
        hknd1b hndMq
  have hknd2Q : (((evGroupsOf maps q1.rets w2).map Prod.fst).map
      evSpec.key).Nodup :=
    evRows_keys_nodup maps q1.rets w2 hlen1Q hrid1Q hev2
  have hbeQ : ((evGroupsOf maps q1.rets w2).map Prod.fst).isEmpty = false →
      BStableW evSpec q2.db.messageEvents
        ((evGroupsOf maps q1.rets w2).map Prod.fst) q2.rets := by
    intro hqe
    obtain ⟨-, htab, -, hrets, -⟩ := qfull2 hqe
    have hb := bstablew_establish evLaws hknd2Q
      (rfl : batchUpsert evSpec q1.db.messageEvents q1.db.nextID
          ((evGroupsOf maps q1.rets w2).map Prod.fst) =
        batchUpsert evSpec q1.db.messageEvents q1.db.nextID
          ((evGroupsOf maps q1.rets w2).map Prod.fst))
    rw [← htab, ← hrets] at hb
    exact hb
  -- the message rows of both runs, located in q1's message table
  have hrow1M : ∀ r ∈ p1.rets, ∃ row ∈ q1.db.messages, row.id = r.id ∧
      row.txID = ((assocFind uniq w.tx.hash).getD zeroTx).id := by
    intro r hr
    cases hqe : (msgRowsOf uniq maps w).isEmpty with
    | true =>
      obtain ⟨-, hrets, -⟩ := pemp1 hqe
      rw [hrets] at hr
      exact absurd hr (by simp)
    | false =>
      have hrowed := bstablew_rowed msgLaws (hbmP hqe)
      obtain ⟨x, hx⟩ := zip_exists_left hrowed.1 r hr
      obtain ⟨row, hrowT, hrid0, hkey0, -⟩ := hrowed.2 (x, r) hx
      have hxmem : x ∈ msgRowsOf uniq maps w := (List.of_mem_zip hx).1
      have hridr : row.id = r.id := hrid0
      have htidx : row.txID = x.txID := by
        have e := congrArg Prod.fst hkey0
        exact e
      have hxtid : x.txID = ((assocFind uniq w.tx.hash).getD zeroTx).id :=
        msgRowsOf_txID uniq maps w x hxmem
      refine ⟨row, ?_, hridr, htidx.trans hxtid⟩
      cases hqe2 : (msgRowsOf uniq maps w2).isEmpty with
      | true =>
        obtain ⟨hdq, -, -⟩ := qemp1 hqe2
        rw [hdq]
        exact hrowT
      | false =>
        obtain ⟨-, htab, -, -, -⟩ := qfull1 hqe2
        rw [htab]
        refine batch_mem_preserve msgLaws (msgRowsOf uniq maps w2) hrowT ?_ d.nextID
        intro y hy hkk
        have hytid : y.txID = ((assocFind uniq w2.tx.hash).getD zeroTx).id :=
          msgRowsOf_txID uniq maps w2 y hy
        have htidy : row.txID = y.txID := by
          have e := congrArg Prod.fst hkk
          exact e
        exact htid (((hytid.symm.trans htidy.symm).trans htidx).trans hxtid)
  have hrow2M : ∀ r ∈ q1.rets, ∃ row ∈ q1.db.messages, row.id = r.id ∧
      row.txID = ((assocFind uniq w2.tx.hash).getD zeroTx).id := by
    intro r hr
    cases hqe : (msgRowsOf uniq maps w2).isEmpty with
    | true =>
      obtain ⟨-, hrets, -⟩ := qemp1 hqe
      rw [hrets] at hr
      exact absurd hr (by simp)
    | false =>
      have hrowed := bstablew_rowed msgLaws (hbmQ hqe)
      obtain ⟨x, hx⟩ := zip_exists_left hrowed.1 r hr
      obtain ⟨row, hrowT, hrid0, hkey0, -⟩ := hrowed.2 (x, r) hx
      have hxmem : x ∈ msgRowsOf uniq maps w2 := (List.of_mem_zip hx).1
      have hridr : row.id = r.id := hrid0
      have htidx : row.txID = x.txID := by
        have e := congrArg Prod.fst hkey0
        exact e
      exact ⟨row, hrowT, hridr,
        htidx.trans (msgRowsOf_txID uniq maps w2 x hxmem)⟩
  -- the event rows of both runs, located in q2's event table
  have hndEq : (q2.db.messageEvents.map evSpec.rid).Nodup := by
    cases hqe : ((evGroupsOf maps q1.rets w2).map Prod.fst).isEmpty with
    | true =>
      obtain ⟨hdq, -, -⟩ := qemp2 hqe
      have e : q2.db.messageEvents = q1.db.messageEvents :=
        congrArg DB.messageEvents hdq
      rw [e, hq1e]
      exact hwfe.1
    | false =>
      obtain ⟨-, htab, -, -, -⟩ := qfull2 hqe
      rw [htab]
      refine (batch_wf evLaws _ ?_).1
      rw [hq1e]
      exact tablewf_mono hwfe hq1n
  have hEmemQ : ∀ row ∈ d.messageEvents,
      (∃ mrow ∈ q1.db.messages, mrow.id = row.messageID ∧
        mrow.txID = ((assocFind uniq w.tx.hash).getD zeroTx).id) →
      row ∈ q2.db.messageEvents := by
    intro row hrow hm
    obtain ⟨mrow, hmT, hmid, hmtid⟩ := hm
    cases hqe : ((evGroupsOf maps q1.rets w2).map Prod.fst).isEmpty with
    | true =>
      obtain ⟨hdq, -, -⟩ := qemp2 hqe
      have e : q2.db.messageEvents = q1.db.messageEvents :=
        congrArg DB.messageEvents hdq
      rw [e, hq1e]
      exact hrow
    | false =>
      obtain ⟨-, htab, -, -, -⟩ := qfull2 hqe
      rw [htab]
      have hrow1 : row ∈ q1.db.messageEvents := by
        rw [hq1e]
        exact hrow
      refine batch_mem_preserve evLaws ((evGroupsOf maps q1.rets w2).map
        Prod.fst) hrow1 ?_ q1.db.nextID
      intro y hy hkk
      obtain ⟨rm2, hrm2, hymid⟩ := evRowsOf_messageID maps q1.rets w2 y hy
      obtain ⟨mrow2, hm2T, hm2id, hm2tid⟩ := hrow2M rm2 hrm2
      have hmidy : row.messageID = y.messageID := by
        have e := congrArg Prod.fst hkk
        exact e
      have hmeq : mrow = mrow2 := List.inj_on_of_nodup_map hndMq hmT hm2T
        (by show mrow.id = mrow2.id; rw [hmid, hm2id, ← hymid, hmidy])
      rw [hmeq] at hmtid
      exact htid (hmtid ▸ hm2tid.symm) |>.elim
  have hrowE1 : ∀ r ∈ p2.rets, ∃ row ∈ q2.db.messageEvents, row.id = r.id ∧
      ∃ mrow ∈ q1.db.messages, mrow.id = row.messageID ∧
        mrow.txID = ((assocFind uniq w.tx.hash).getD zeroTx).id := by
    intro r hr
    cases hqe : ((evGroupsOf maps p1.rets w).map Prod.fst).isEmpty with
    | true =>
      obtain ⟨-, hrets, -⟩ := pemp2 hqe
      rw [hrets] at hr
      exact absurd hr (by simp)
    | false =>
      have hrowed := bstablew_rowed evLaws (hbeP hqe)
      obtain ⟨y, hy⟩ := zip_exists_left hrowed.1 r hr
      obtain ⟨row, hrowT, hrid0, hkey0, -⟩ := hrowed.2 (y, r) hy
      have hymem : y ∈ (evGroupsOf maps p1.rets w).map Prod.fst :=
        (List.of_mem_zip hy).1
      have hridr : row.id = r.id := hrid0
      have hmidy : row.messageID = y.messageID := by
        have e := congrArg Prod.fst hkey0
        exact e
      obtain ⟨rm, hrm, hymid⟩ := evRowsOf_messageID maps p1.rets w y hymem
      obtain ⟨mrow, hmT, hmid, hmtid⟩ := hrow1M rm hrm
      have hmrow : ∃ mrow2 ∈ q1.db.messages, mrow2.id = row.messageID ∧
          mrow2.txID = ((assocFind uniq w.tx.hash).getD zeroTx).id :=
        ⟨mrow, hmT, by rw [hmid, ← hymid, hmidy], hmtid⟩
      exact ⟨row, hEmemQ row hrowT hmrow, hridr, hmrow⟩
  have hrowE2 : ∀ r ∈ q2.rets, ∃ row ∈ q2.db.messageEvents, row.id = r.id ∧
      ∃ mrow ∈ q1.db.messages, mrow.id = row.messageID ∧
        mrow.txID = ((assocFind uniq w2.tx.hash).getD zeroTx).id := by
    intro r hr
    cases hqe : ((evGroupsOf maps q1.rets w2).map Prod.fst).isEmpty with
    | true =>
      obtain ⟨-, hrets, -⟩ := qemp2 hqe
      rw [hrets] at hr
      exact absurd hr (by simp)
    | false =>
      have hrowed := bstablew_rowed evLaws (hbeQ hqe)
      obtain ⟨y, hy⟩ := zip_exists_left hrowed.1 r hr
      obtain ⟨row, hrowT, hrid0, hkey0, -⟩ := hrowed.2 (y, r) hy
      have hymem : y ∈ (evGroupsOf maps q1.rets w2).map Prod.fst :=
        (List.of_mem_zip hy).1
      have hridr : row.id = r.id := hrid0
      have hmidy : row.messageID = y.messageID := by
        have e := congrArg Prod.fst hkey0
        exact e
      obtain ⟨rm, hrm, hymid⟩ := evRowsOf_messageID maps q1.rets w2 y hymem
      obtain ⟨mrow, hmT, hmid, hmtid⟩ := hrow2M rm hrm
      exact ⟨row, hrowT, hridr, mrow, hmT,
        by rw [hmid, ← hymid, hmidy], hmtid⟩
  -- transported stability at the state after w2's iteration
  have hbmO : (msgRowsOf uniq maps w).isEmpty = false →
      BStableW msgSpec o2.1.messages (msgRowsOf uniq maps w) p1.rets := by
    intro hqe
    have hb := hbmP hqe
    have hfin : o2.1.messages = q1.db.messages := by
      rw [ho21]
      exact hq3m.trans hq2m
    cases hqe2 : (msgRowsOf uniq maps w2).isEmpty with
    | true =>
      obtain ⟨hdq, -, -⟩ := qemp1 hqe2
      rw [hfin, hdq]
      exact hb
    | false =>
      obtain ⟨-, htab, -, -, -⟩ := qfull1 hqe2
      rw [hfin, htab]
      exact bstablew_preserve_batch msgLaws hb (msgRowsOf uniq maps w2)
        (msgRows_keys_disjoint htid) d.nextID
  have hbeO : ((evGroupsOf maps p1.rets w).map Prod.fst).isEmpty = false →
      BStableW evSpec o2.1.messageEvents
        ((evGroupsOf maps p1.rets w).map Prod.fst) p2.rets := by
    intro hqe
    have hb := hbeP hqe
    have hfin : o2.1.messageEvents = q2.db.messageEvents := by
      rw [ho21]
      exact hq3e
    cases hqe2 : ((evGroupsOf maps q1.rets w2).map Prod.fst).isEmpty with
    | true =>
      obtain ⟨hdq, -, -⟩ := qemp2 hqe2
      have e : q2.db.messageEvents = q1.db.messageEvents :=
        congrArg DB.messageEvents hdq
      rw [hfin, e, hq1e]
      exact hb
    | false =>
      obtain ⟨-, htab, -, -, -⟩ := qfull2 hqe2
      rw [hfin, htab, hq1e]
      exact bstablew_preserve_batch evLaws hb
        ((evGroupsOf maps q1.rets w2).map Prod.fst)
        (evRows_keys_disjoint htid hndMq hrow1M hrow2M) q1.db.nextID
  have hbaO : (attrRowsOf maps p2.rets (evGroupsOf maps p1.rets w)).isEmpty =
      false → BStableW attrSpec o2.1.messageEventAttributes
        (attrRowsOf maps p2.rets (evGroupsOf maps p1.rets w)) p3.rets := by
    intro hqe
    have hb := hbaP hqe
    have hfin : o2.1.messageEventAttributes =
        q3.db.messageEventAttributes := by
      rw [ho21]
    cases hqe2 : (attrRowsOf maps q2.rets
        (evGroupsOf maps q1.rets w2)).isEmpty with
    | true =>
      obtain ⟨hdq, -, -⟩ := qemp3 hqe2
      have e : q3.db.messageEventAttributes =
          q2.db.messageEventAttributes := congrArg DB.messageEventAttributes hdq
      rw [hfin, e, hq2a]
      exact hb
    | false =>
      obtain ⟨-, htab, -, -, -⟩ := qfull3 hqe2
      rw [hfin, htab, hq2a]
      exact bstablew_preserve_batch attrLaws hb
        (attrRowsOf maps q2.rets (evGroupsOf maps q1.rets w2))
        (attrRows_keys_disjoint htid hndMq hndEq hrowE1 hrowE2) q2.db.nextID
  -- reference tables after w2's iteration
  have hmtO : o2.1.messageTypes = d.messageTypes := by
    have e := congrArg DB.messageTypes (persistOneTx_shape hstep)
    exact e
  have hetO : o2.1.messageEventTypes = d.messageEventTypes := by
    have e := congrArg DB.messageEventTypes (persistOneTx_shape hstep)
    exact e
  have hakO : o2.1.messageEventAttributeKeys =
      d.messageEventAttributeKeys := by
    have e := congrArg DB.messageEventAttributeKeys (persistOneTx_shape hstep)
    exact e
  -- replay
  have hs1 : createMessages f.failMessageCreate o2.1 (msgRowsOf uniq maps w) =
      .ok ⟨o2.1, p1.ops, p1.rets⟩ :=
    createMessages_stable hp1 hbmO (messageFKOk_congr hmtO _)
  have hs2 : createMessageEvents f.failMessageEventCreate o2.1
      ((evGroupsOf maps p1.rets w).map Prod.fst) =
      .ok ⟨o2.1, p2.ops, p2.rets⟩ :=
    createMessageEvents_stable hp2 hbeO
      ((eventFKOk_congr hetO _).trans (eventFKOk_congr hpet _).symm)
  have hs3 : createMessageEventAttributes f.failAttributeCreate o2.1
      (attrRowsOf maps p2.rets (evGroupsOf maps p1.rets w)) =
      .ok ⟨o2.1, p3.ops, p3.rets⟩ :=
    createMessageEventAttributes_stable hp3 hbaO
      ((attrFKOk_congr hakO _).trans (attrFKOk_congr hpak _).symm)
  simp only [persistOneTx]
  rw [hs1, ebind_ok]
  show ebind (createMessageEvents f.failMessageEventCreate o2.1
      ((evGroupsOf maps p1.rets w).map Prod.fst)) (fun r2 =>
    ebind (createMessageEventAttributes f.failAttributeCreate r2.db
        (attrRowsOf maps r2.rets (evGroupsOf maps p1.rets w))) (fun r3 =>
      .ok (r3.db, p1.ops ++ r2.ops ++ r3.ops))) = .ok (o2.1, opsw)
  rw [hs2, ebind_ok]
  show ebind (createMessageEventAttributes f.failAttributeCreate o2.1
      (attrRowsOf maps p2.rets (evGroupsOf maps p1.rets w))) (fun r3 =>
    .ok (r3.db, p1.ops ++ p2.ops ++ r3.ops)) = .ok (o2.1, opsw)
  rw [hs3, ebind_ok]
  show (Except.ok (o2.1, p1.ops ++ p2.ops ++ p3.ops) :
    Except String (DB × List Op)) = .ok (o2.1, opsw)
  rw [hops]

/-- One loop iteration keeps the message and event tables well-formed. -/
theorem persistOneTx_wf {f : Faults} {uniq : List (String × Tx)}
    {maps : RefMaps} {d : DB} {w : TxDBWrapper} {o : DB × List Op}
    (h : persistOneTx f uniq maps d w = .ok o)
    (hwfm : TableWF msgSpec d.messages d.nextID)
    (hwfe : TableWF evSpec d.messageEvents d.nextID) :
    TableWF msgSpec o.1.messages o.1.nextID ∧
    TableWF evSpec o.1.messageEvents o.1.nextID := by
  obtain ⟨o1, o2, o3, h1, h2, h3, ho⟩ := persistOneTx_dissect h
  obtain ⟨hfr1, hemp1, hfull1⟩ := createMessages_shape h1
  obtain ⟨hfr2, hemp2, hfull2⟩ := createMessageEvents_shape h2
  obtain ⟨hfr3, hemp3, hfull3⟩ := createMessageEventAttributes_shape h3
  have ho1 : o.1 = o3.db := by rw [ho]
  have hm2 : o2.db.messages = o1.db.messages := by
    have e := congrArg DB.messages hfr2
    exact e
  have hm3 : o3.db.messages = o2.db.messages := by
    have e := congrArg DB.messages hfr3
    exact e
  have he1 : o1.db.messageEvents = d.messageEvents := by
    have e := congrArg DB.messageEvents hfr1
    exact e
  have he3 : o3.db.messageEvents = o2.db.messageEvents := by
    have e := congrArg DB.messageEvents hfr3
    exact e
  have hwf1 : TableWF msgSpec o1.db.messages o1.db.nextID := by
    cases hq : (msgRowsOf uniq maps w).isEmpty with
    | true =>
      obtain ⟨hd, -, -⟩ := hemp1 hq
      rw [hd]
      exact hwfm
    | false =>
      obtain ⟨-, htab, hnext, -, -⟩ := hfull1 hq
      rw [htab, hnext]
      exact batch_wf msgLaws _ hwfm
  have hn1 : d.nextID ≤ o1.db.nextID := by
    cases hq : (msgRowsOf uniq maps w).isEmpty with
    | true =>
      obtain ⟨hd, -, -⟩ := hemp1 hq
      rw [hd]
    | false =>
      obtain ⟨-, -, hn, -, -⟩ := hfull1 hq
      rw [hn]
      exact batch_next_ge _ _ _
  have hn2 : o1.db.nextID ≤ o2.db.nextID := by
    cases hq : ((evGroupsOf maps o1.rets w).map Prod.fst).isEmpty with
    | true =>
      obtain ⟨hd, -, -⟩ := hemp2 hq
      rw [hd]
    | false =>
      obtain ⟨-, -, hn, -, -⟩ := hfull2 hq
      rw [hn]
      exact batch_next_ge _ _ _
  have hn3 : o2.db.nextID ≤ o3.db.nextID := by
    cases hq : (attrRowsOf maps o2.rets (evGroupsOf maps o1.rets w)).isEmpty with
    | true =>
      obtain ⟨hd, -, -⟩ := hemp3 hq
      rw [hd]
    | false =>
      obtain ⟨-, -, hn, -, -⟩ := hfull3 hq
      rw [hn]
      exact batch_next_ge _ _ _
  have hwfe1 : TableWF evSpec o1.db.messageEvents o1.db.nextID := by
    rw [he1]
    exact tablewf_mono hwfe hn1
  have hwfe2 : TableWF evSpec o2.db.messageEvents o2.db.nextID := by
    cases hq : ((evGroupsOf maps o1.rets w).map Prod.fst).isEmpty with
    | true =>
      obtain ⟨hd, -, -⟩ := hemp2 hq
      rw [hd]
      exact hwfe1
    | false =>
      obtain ⟨-, htab, hn, -, -⟩ := hfull2 hq
      rw [htab, hn]
      exact batch_wf evLaws _ hwfe1
  constructor
  · rw [ho1]
    have e : o3.db.messages = o1.db.messages := hm3.trans hm2
    rw [e]
    exact tablewf_mono (tablewf_mono hwf1 hn2) hn3
  · rw [ho1, he3]
    exact tablewf_mono hwfe2 hn3

/-- A fixed-point iteration stays a fixed point through the rest of the
loop (all remaining transactions having different resolved tx ids). -/
theorem txLoop_fixed_preserve {f : Faults} {uniq : List (String × Tx)}
    {maps : RefMaps} {w : TxDBWrapper} {opsw : List Op} :
    ∀ (ws : List TxDBWrapper) (d : DB) (ops : List Op) {out : DB × List Op},
    txLoop f uniq maps d ops ws = .ok out →
    TableWF msgSpec d.messages d.nextID →
    TableWF evSpec d.messageEvents d.nextID →
    (∀ w2 ∈ ws, (w2.messages.map (fun m2 => m2.messageIndex)).Nodup) →
    (∀ w2 ∈ ws, ∀ m ∈ w2.messages,
      (m.messageEvents.map (fun e => e.index)).Nodup) →
    persistOneTx f uniq maps d w = .ok (d, opsw) →
    (w.messages.map (fun m2 => m2.messageIndex)).Nodup →
    (∀ m ∈ w.messages, (m.messageEvents.map (fun e => e.index)).Nodup) →
    (∀ m ∈ w.messages, ∀ e ∈ m.messageEvents,
      (e.attributes.map (fun a => a.index)).Nodup) →
    (∀ w2 ∈ ws, ((assocFind uniq w2.tx.hash).getD zeroTx).id ≠
      ((assocFind uniq w.tx.hash).getD zeroTx).id) →
    persistOneTx f uniq maps out.1 w = .ok (out.1, opsw)
  | [], d, ops, out, h, _, _, _, _, hP, _, _, _, _ => by
    unfold txLoop at h
    simp only [Except.ok.injEq] at h
    rw [← h]
    exact hP
  | w0 :: ws, d, ops, out, h, hwfm, hwfe, hidxs, hevs, hP, hidx, hev, hat,
      htids => by
    unfold txLoop at h
    cases h1 : persistOneTx f uniq maps d w0 with
    | error e =>
      rw [h1, ebind_error] at h
      exact absurd h (by simp)
    | ok o =>
      rw [h1, ebind_ok] at h
      have hP2 := persistOneTx_stable_step hP h1
        (htids w0 (List.mem_cons_self _ _)) hidx hev hat
        (hidxs w0 (List.mem_cons_self _ _)) (hevs w0 (List.mem_cons_self _ _))
        hwfm hwfe
      obtain ⟨hwfm2, hwfe2⟩ := persistOneTx_wf h1 hwfm hwfe
      exact txLoop_fixed_preserve ws o.1 (ops ++ o.2) h hwfm2 hwfe2
        (fun w2 hw2 => hidxs w2 (List.mem_cons_of_mem _ hw2))
        (fun w2 hw2 => hevs w2 (List.mem_cons_of_mem _ hw2))
        hP2 hidx hev hat
        (fun w2 hw2 => htids w2 (List.mem_cons_of_mem _ hw2))

/-- Replaying the whole per-transaction loop on its own final state leaves
the state unchanged and performs the same round-trips. -/
theorem txLoop_idem {f : Faults} {uniq : List (String × Tx)}
    {maps : RefMaps} :
    ∀ (ws : List TxDBWrapper) (d : DB) (ops : List Op) {out : DB × List Op},
    txLoop f uniq maps d ops ws = .ok out →
    TableWF msgSpec d.messages d.nextID →
    TableWF evSpec d.messageEvents d.nextID →
    (∀ w2 ∈ ws, (w2.messages.map (fun m2 => m2.messageIndex)).Nodup) →
    (∀ w2 ∈ ws, ∀ m ∈ w2.messages,
      (m.messageEvents.map (fun e => e.index)).Nodup) →
    (∀ w2 ∈ ws, ∀ m ∈ w2.messages, ∀ e ∈ m.messageEvents,
      (e.attributes.map (fun a => a.index)).Nodup) →
    (ws.map (fun w2 => w2.tx.hash)).Nodup →
    (∀ w2 ∈ ws, ∀ w3 ∈ ws, ((assocFind uniq w2.tx.hash).getD zeroTx).id =
      ((assocFind uniq w3.tx.hash).getD zeroTx).id → w2.tx.hash = w3.tx.hash) →
    txLoop f uniq maps out.1 ops ws = .ok out
  | [], d, ops, out, h, _, _, _, _, _, _, _ => by
    unfold txLoop at h ⊢
    simp only [Except.ok.injEq] at h
    rw [← h]
  | w0 :: ws, d, ops, out, h, hwfm, hwfe, hidxs, hevs, hats, hhnd, hinj => by
    unfold txLoop at h
    cases h1 : persistOneTx f uniq maps d w0 with
    | error e =>
      rw [h1, ebind_error] at h
      exact absurd h (by simp)
    | ok o =>
      rw [h1, ebind_ok] at h
      have hfix0 := persistOneTx_stable_post h1
        (hidxs w0 (List.mem_cons_self _ _)) (hevs w0 (List.mem_cons_self _ _))
        (hats w0 (List.mem_cons_self _ _)) hwfm hwfe
      obtain ⟨hwfm2, hwfe2⟩ := persistOneTx_wf h1 hwfm hwfe
      have htids : ∀ w2 ∈ ws, ((assocFind uniq w2.tx.hash).getD zeroTx).id ≠
          ((assocFind uniq w0.tx.hash).getD zeroTx).id := by
        intro w2 hw2 heq
        have hhash : w2.tx.hash = w0.tx.hash :=
          hinj w2 (List.mem_cons_of_mem _ hw2) w0 (List.mem_cons_self _ _) heq
        have hhnd0 : ((([] : List TxDBWrapper) ++ w0 :: ws).map
            (fun w3 => w3.tx.hash)).Nodup := hhnd
        exact nodup_split_ne (fun w3 => w3.tx.hash) hhnd0 w2 hw2 hhash
      have hfix := txLoop_fixed_preserve ws o.1 (ops ++ o.2) h hwfm2 hwfe2
        (fun w2 hw2 => hidxs w2 (List.mem_cons_of_mem _ hw2))
        (fun w2 hw2 => hevs w2 (List.mem_cons_of_mem _ hw2))
        hfix0 (hidxs w0 (List.mem_cons_self _ _))
        (hevs w0 (List.mem_cons_self _ _)) (hats w0 (List.mem_cons_self _ _))
        htids
      have hih := txLoop_idem ws o.1 (ops ++ o.2) h hwfm2 hwfe2
        (fun w2 hw2 => hidxs w2 (List.mem_cons_of_mem _ hw2))
        (fun w2 hw2 => hevs w2 (List.mem_cons_of_mem _ hw2))
        (fun w2 hw2 => hats w2 (List.mem_cons_of_mem _ hw2))
        (by rw [List.map_cons, List.nodup_cons] at hhnd; exact hhnd.2)
        (fun w2 hw2 w3 hw3 => hinj w2 (List.mem_cons_of_mem _ hw2) w3
          (List.mem_cons_of_mem _ hw3))
      show ebind (persistOneTx f uniq maps out.1 w0)
        (fun o2 => txLoop f uniq maps o2.1 (ops ++ o2.2) ws) = .ok out
      rw [hfix, ebind_ok]
      show txLoop f uniq maps out.1 (ops ++ o.2) ws = .ok out
      exact hih

/-! ### Replaying the outer batch creates and the block upsert -/

theorem createTxs_flag {flag : Bool} {d : DB} {rows : List Tx}
    {o : StepOut Tx} (h : createTxs flag d rows = .ok o)
    (hne : rows.isEmpty = false) : flag = false := by
  unfold createTxs at h
  split at h
  · simp_all
  · split at h
    · exact absurd h (by simp)
    · cases flag
      · rfl
      · simp_all

theorem createMessageTypes_flag {flag : Bool} {d : DB} {rows : List MessageType}
    {o : StepOut MessageType} (h : createMessageTypes flag d rows = .ok o)
    (hne : rows.isEmpty = false) : flag = false := by
  unfold createMessageTypes at h
  split at h
  · simp_all
  · split at h
    · exact absurd h (by simp)
    · cases flag
      · rfl
      · simp_all

theorem createMessageEventTypes_flag {flag : Bool} {d : DB}
    {rows : List MessageEventType} {o : StepOut MessageEventType}
    (h : createMessageEventTypes flag d rows = .ok o)
    (hne : rows.isEmpty = false) : flag = false := by
  unfold createMessageEventTypes at h
  split at h
  · simp_all
  · split at h
    · exact absurd h (by simp)
    · cases flag
      · rfl
      · simp_all

theorem createMessageEventAttributeKeys_flag {flag : Bool} {d : DB}
    {rows : List MessageEventAttributeKey} {o : StepOut MessageEventAttributeKey}
    (h : createMessageEventAttributeKeys flag d rows = .ok o)
    (hne : rows.isEmpty = false) : flag = false := by
  unfold createMessageEventAttributeKeys at h
  split at h
  · simp_all
  · split at h
    · exact absurd h (by simp)
    · cases flag
      · rfl
      · simp_all

theorem createTxs_stable {flag : Bool} {d d2 : DB} {rows : List Tx}
    {o : StepOut Tx}
    (h : createTxs flag d rows = .ok o)
    (hbst : rows.isEmpty = false → BStableW txSpec d2.txs rows o.rets) :
    createTxs flag d2 rows = .ok ⟨d2, o.ops, o.rets⟩ := by
  obtain ⟨-, hemp, hfull⟩ := createTxs_shape h
  cases he : rows.isEmpty with
  | true =>
    obtain ⟨-, hrets, hops⟩ := hemp he
    unfold createTxs
    rw [if_pos he, hops, hrets]
  | false =>
    obtain ⟨-, -, -, hops⟩ := hfull he
    have hfl := createTxs_flag h he
    subst hfl
    simp only [createTxs]
    rw [if_neg (by simp [he]), if_neg (by simp),
      batch_of_bstablew (hbst he) d2.nextID, hops]

theorem createMessageTypes_stable {flag : Bool} {d d2 : DB}
    {rows : List MessageType} {o : StepOut MessageType}
    (h : createMessageTypes flag d rows = .ok o)
    (hbst : rows.isEmpty = false →
      BStableW mtSpec d2.messageTypes rows o.rets) :
    createMessageTypes flag d2 rows = .ok ⟨d2, o.ops, o.rets⟩ := by
  obtain ⟨-, hemp, hfull⟩ := createMessageTypes_shape h
  cases he : rows.isEmpty with
  | true =>
    obtain ⟨-, hrets, hops⟩ := hemp he
    unfold createMessageTypes
    rw [if_pos he, hops, hrets]
  | false =>
    obtain ⟨-, -, -, hops⟩ := hfull he
    have hfl := createMessageTypes_flag h he
    subst hfl
    simp only [createMessageTypes]
    rw [if_neg (by simp [he]), if_neg (by simp),
      batch_of_bstablew (hbst he) d2.nextID, hops]

theorem createMessageEventTypes_stable {flag : Bool} {d d2 : DB}
    {rows : List MessageEventType} {o : StepOut MessageEventType}
    (h : createMessageEventTypes flag d rows = .ok o)
    (hbst : rows.isEmpty = false →
      BStableW etSpec d2.messageEventTypes rows o.rets) :
    createMessageEventTypes flag d2 rows = .ok ⟨d2, o.ops, o.rets⟩ := by
  obtain ⟨-, hemp, hfull⟩ := createMessageEventTypes_shape h
  cases he : rows.isEmpty with
  | true =>
    obtain ⟨-, hrets, hops⟩ := hemp he
    unfold createMessageEventTypes
    rw [if_pos he, hops, hrets]
  | false =>
    obtain ⟨-, -, -, hops⟩ := hfull he
    have hfl := createMessageEventTypes_flag h he
    subst hfl
    simp only [createMessageEventTypes]
    rw [if_neg (by simp [he]), if_neg (by simp),
      batch_of_bstablew (hbst he) d2.nextID, hops]

theorem createMessageEventAttributeKeys_stable {flag : Bool} {d d2 : DB}
    {rows : List MessageEventAttributeKey} {o : StepOut MessageEventAttributeKey}
    (h : createMessageEventAttributeKeys flag d rows = .ok o)
    (hbst : rows.isEmpty = false →
      BStableW akSpec d2.messageEventAttributeKeys rows o.rets) :
    createMessageEventAttributeKeys flag d2 rows = .ok ⟨d2, o.ops, o.rets⟩ := by
  obtain ⟨-, hemp, hfull⟩ := createMessageEventAttributeKeys_shape h
  cases he : rows.isEmpty with
  | true =>
    obtain ⟨-, hrets, hops⟩ := hemp he
    unfold createMessageEventAttributeKeys
    rw [if_pos he, hops, hrets]
  | false =>
    obtain ⟨-, -, -, hops⟩ := hfull he
    have hfl := createMessageEventAttributeKeys_flag h he
    subst hfl
    simp only [createMessageEventAttributeKeys]
    rw [if_neg (by simp [he]), if_neg (by simp),
      batch_of_bstablew (hbst he) d2.nextID, hops]

/-- The block `Assign` leaves height and chain untouched. -/
theorem blockWhereMatches_assign (hh : Int) (c : Nat) (t : Nat) (b : Block) :
    blockWhereMatches hh c (blockAssign t b) = blockWhereMatches hh c b := rfl

theorem blockAssign_idem (t : Nat) (b : Block) :
    blockAssign t (blockAssign t b) = blockAssign t b := rfl

/-- A store whose blocks table already answers the `FirstOrCreate` lookup
with itself is a fixed point of the block upsert. -/
theorem blockFirstOrCreate_of_ufm {db2 : DB} {hh : Int} {t : Nat} {c : Nat}
    {b : Block}
    (h : updateFirstMatch (blockWhereMatches hh c) (blockAssign t) db2.blocks =
      some (db2.blocks, b)) :
    blockFirstOrCreate db2 hh t c = (db2, b) := by
  unfold blockFirstOrCreate
  rw [h]

/-- After the block upsert, looking the block up again refreshes it in
place: same table, same returned row. -/
theorem blockFirstOrCreate_ufm_stable (db : DB) (hh : Int) (t : Nat) (c : Nat) :
    updateFirstMatch (blockWhereMatches hh c) (blockAssign t)
      (blockFirstOrCreate db hh t c).1.blocks =
    some ((blockFirstOrCreate db hh t c).1.blocks,
      (blockFirstOrCreate db hh t c).2) := by
  unfold blockFirstOrCreate
  cases hu : updateFirstMatch (blockWhereMatches hh c) (blockAssign t)
      db.blocks with
  | some pr =>
    obtain ⟨bs, b⟩ := pr
    obtain ⟨l1, a, l2, hteq, hl1, hpa, hbs, hb⟩ := ufm_eq_some hu
    show updateFirstMatch (blockWhereMatches hh c) (blockAssign t) bs =
      some (bs, b)
    have hc2 : blockWhereMatches hh c (blockAssign t a) = true := by
      rw [blockWhereMatches_assign]
      exact hpa
    have e : updateFirstMatch (blockWhereMatches hh c) (blockAssign t)
        (l1 ++ blockAssign t a :: l2) =
        some (l1 ++ blockAssign t (blockAssign t a) :: l2,
          blockAssign t (blockAssign t a)) :=
      ufm_append_first l2 hl1 hc2
    rw [blockAssign_idem] at e
    rw [hbs, hb]
    exact e
  | none =>
    show updateFirstMatch (blockWhereMatches hh c) (blockAssign t)
        (db.blocks ++ [⟨db.nextID, hh, c, t, true, false⟩]) =
      some (db.blocks ++ [⟨db.nextID, hh, c, t, true, false⟩],
        (⟨db.nextID, hh, c, t, true, false⟩ : Block))
    have hl1 : ∀ b2 ∈ db.blocks, blockWhereMatches hh c b2 = false :=
      ufm_eq_none.mp hu
    have hc : blockWhereMatches hh c (⟨db.nextID, hh, c, t, true, false⟩ :
        Block) = true := by
      unfold blockWhereMatches
      simp
    have e : updateFirstMatch (blockWhereMatches hh c) (blockAssign t)
        (db.blocks ++ (⟨db.nextID, hh, c, t, true, false⟩ : Block) :: []) =
        some (db.blocks ++
            blockAssign t (⟨db.nextID, hh, c, t, true, false⟩ : Block) :: [],
          blockAssign t (⟨db.nextID, hh, c, t, true, false⟩ : Block)) :=
      ufm_append_first ([] : List Block) hl1 hc
    have hidem : blockAssign t (⟨db.nextID, hh, c, t, true, false⟩ : Block) =
        ⟨db.nextID, hh, c, t, true, false⟩ := rfl
    rw [hidem] at e
    exact e

/-- A successful `IndexNewBlock` transaction replayed on its own committed
state succeeds with the same final state and the same round-trips. -/
theorem indexNewBlockT_idem {db : DB} {hgt : Int} {t : Nat}
    {txs : List TxDBWrapper} {c : Nat} {out : DB × List Op}
    (hwf : DBWF db) (hin : InputOK txs)
    (hok : IndexNewBlockT noFaults db hgt t txs c = .ok out) :
    IndexNewBlockT noFaults out.1 hgt t txs c = .ok out := by
  have hout := indexNewBlockT_outer hok
  simp only [IndexNewBlockT] at hok
  rw [if_neg (by decide : ¬(noFaults.failDeleteFailedBlocks = true)),
      if_neg (by decide : ¬(noFaults.failBlockUpsert = true))] at hok
  cases h1 : createTxs noFaults.failTxCreate
      (blockFirstOrCreate { db with
        failedBlocks := db.failedBlocks.filter (fbKeep hgt c) } hgt t c).1
      ((uniqueTxList txs (blockFirstOrCreate { db with
        failedBlocks := db.failedBlocks.filter (fbKeep hgt c) } hgt t c).2.id).map
        Prod.snd) with
  | error e => rw [h1, ebind_error] at hok; exact absurd hok (by simp)
  | ok ot =>
    rw [h1, ebind_ok] at hok
    cases h2 : indexMessageTypes noFaults.failMessageTypeCreate ot.db txs with
    | error e => rw [h2, ebind_error] at hok; exact absurd hok (by simp)
    | ok om =>
      rw [h2, ebind_ok] at hok
      cases h3 : indexMessageEventTypes noFaults.failMessageEventTypeCreate
          om.1 txs with
      | error e => rw [h3, ebind_error] at hok; exact absurd hok (by simp)
      | ok oe =>
        rw [h3, ebind_ok] at hok
        cases h4 : indexMessageEventAttributeKeys noFaults.failAttributeKeyCreate
            oe.1 txs with
        | error e => rw [h4, ebind_error] at hok; exact absurd hok (by simp)
        | ok oa =>
          rw [h4, ebind_ok] at hok
          have hfr2 := indexMT_frame h2
          have hfr3 := indexET_frame h3
          have hfr4 := indexAK_frame h4
          simp only [indexMessageTypes] at h2
          simp only [indexMessageEventTypes] at h3
          simp only [indexMessageEventAttributeKeys] at h4
          cases h2c : createMessageTypes noFaults.failMessageTypeCreate ot.db
              ((mergedMessageTypes txs).map Prod.snd) with
          | error e => rw [h2c, ebind_error] at h2; exact absurd h2 (by simp)
          | ok o2c =>
            rw [h2c, ebind_ok] at h2
            simp only [Except.ok.injEq] at h2
            cases h3c : createMessageEventTypes
                noFaults.failMessageEventTypeCreate om.1
                ((mergedMessageEventTypes txs).map Prod.snd) with
            | error e => rw [h3c, ebind_error] at h3; exact absurd h3 (by simp)
            | ok o3c =>
              rw [h3c, ebind_ok] at h3
              simp only [Except.ok.injEq] at h3
              cases h4c : createMessageEventAttributeKeys
                  noFaults.failAttributeKeyCreate oe.1
                  ((mergedMessageAttributeKeys txs).map Prod.snd) with
              | error e => rw [h4c, ebind_error] at h4; exact absurd h4 (by simp)
              | ok o4c =>
                rw [h4c, ebind_ok] at h4
                simp only [Except.ok.injEq] at h4
                have hom1 : om.1 = o2c.db := by rw [← h2]
                have hoe1 : oe.1 = o3c.db := by rw [← h3]
                have hoa1 : oa.1 = o4c.db := by rw [← h4]
                have hom21 : om.2.1 = o2c.ops := by rw [← h2]
                have hoe21 : oe.2.1 = o3c.ops := by rw [← h3]
                have hoa21 : oa.2.1 = o4c.ops := by rw [← h4]
                have hom22 : om.2.2 = o2c.rets.foldl
                    (fun m mt => assocUpd m mt.messageType mt)
                    (mergedMessageTypes txs) := by rw [← h2]
                have hoe22 : oe.2.2 = o3c.rets.foldl
                    (fun m et => assocUpd m et.typ et)
                    (mergedMessageEventTypes txs) := by rw [← h3]
                have hoa22 : oa.2.2 = o4c.rets.foldl
                    (fun m ak => assocUpd m ak.key ak)
                    (mergedMessageAttributeKeys txs) := by rw [← h4]
                have sl := txLoop_shape hok
                have st := (createTxs_shape h1).1
                have sb1 := blockFirstOrCreate_frame { db with
                  failedBlocks := db.failedBlocks.filter (fbKeep hgt c) } hgt t c
                -- table frame chains
                have hpbtxs : (blockFirstOrCreate { db with
                    failedBlocks := db.failedBlocks.filter (fbKeep hgt c) }
                      hgt t c).1.txs = db.txs := by
                  have e := congrArg DB.txs sb1
                  exact e
                have hpbnext : db.nextID ≤ (blockFirstOrCreate { db with
                    failedBlocks := db.failedBlocks.filter (fbKeep hgt c) }
                      hgt t c).1.nextID :=
                  blockFirstOrCreate_next_ge { db with
                    failedBlocks := db.failedBlocks.filter (fbKeep hgt c) } hgt t c
                have hwfT : TableWF txSpec (blockFirstOrCreate { db with
                    failedBlocks := db.failedBlocks.filter (fbKeep hgt c) }
                      hgt t c).1.txs (blockFirstOrCreate { db with
                    failedBlocks := db.failedBlocks.filter (fbKeep hgt c) }
                      hgt t c).1.nextID := by
                  rw [hpbtxs]
                  exact tablewf_mono hwf.txsWF hpbnext
                obtain ⟨hrhash, hrid, hres⟩ := createTxs_resolution hwfT hin h1
                have hblocks : out.1.blocks = (blockFirstOrCreate { db with
                    failedBlocks := db.failedBlocks.filter (fbKeep hgt c) }
                      hgt t c).1.blocks := by
                  have e1 : out.1.blocks = oa.1.blocks := by
                    have e := congrArg DB.blocks sl
                    exact e
                  have e2 : oa.1.blocks = oe.1.blocks := by
                    have e := congrArg DB.blocks hfr4
                    exact e
                  have e3 : oe.1.blocks = om.1.blocks := by
                    have e := congrArg DB.blocks hfr3
                    exact e
                  have e4 : om.1.blocks = ot.db.blocks := by
                    have e := congrArg DB.blocks hfr2
                    exact e
                  have e5 : ot.db.blocks = (blockFirstOrCreate { db with
                      failedBlocks := db.failedBlocks.filter (fbKeep hgt c) }
                        hgt t c).1.blocks := by
                    have e := congrArg DB.blocks st
                    exact e
                  exact (((e1.trans e2).trans e3).trans e4).trans e5
                have htxs : out.1.txs = ot.db.txs := by
                  have e1 : out.1.txs = oa.1.txs := by
                    have e := congrArg DB.txs sl
                    exact e
                  have e2 : oa.1.txs = oe.1.txs := by
                    have e := congrArg DB.txs hfr4
                    exact e
                  have e3 : oe.1.txs = om.1.txs := by
                    have e := congrArg DB.txs hfr3
                    exact e
                  have e4 : om.1.txs = ot.db.txs := by
                    have e := congrArg DB.txs hfr2
                    exact e
                  exact ((e1.trans e2).trans e3).trans e4
                have hmts : out.1.messageTypes = o2c.db.messageTypes := by
                  have e1 : out.1.messageTypes = oa.1.messageTypes := by
                    have e := congrArg DB.messageTypes sl
                    exact e
                  have e2 : oa.1.messageTypes = oe.1.messageTypes := by
                    have e := congrArg DB.messageTypes hfr4
                    exact e
                  have e3 : oe.1.messageTypes = om.1.messageTypes := by
                    have e := congrArg DB.messageTypes hfr3
                    exact e
                  have e4 : om.1.messageTypes = o2c.db.messageTypes := by
                    rw [hom1]
                  exact ((e1.trans e2).trans e3).trans e4
                have hets : out.1.messageEventTypes =
                    o3c.db.messageEventTypes := by
                  have e1 : out.1.messageEventTypes =
                      oa.1.messageEventTypes := by
                    have e := congrArg DB.messageEventTypes sl
                    exact e
                  have e2 : oa.1.messageEventTypes =
                      oe.1.messageEventTypes := by
                    have e := congrArg DB.messageEventTypes hfr4
                    exact e
                  have e3 : oe.1.messageEventTypes =
                      o3c.db.messageEventTypes := by
                    rw [hoe1]
                  exact (e1.trans e2).trans e3
                have haks : out.1.messageEventAttributeKeys =
                    o4c.db.messageEventAttributeKeys := by
                  have e1 : out.1.messageEventAttributeKeys =
                      oa.1.messageEventAttributeKeys := by
                    have e := congrArg DB.messageEventAttributeKeys sl
                    exact e
                  have e2 : oa.1.messageEventAttributeKeys =
                      o4c.db.messageEventAttributeKeys := by
                    rw [hoa1]
                  exact e1.trans e2
                -- messages/events untouched by the reference stages
                have hmsgsL : oa.1.messages = db.messages := by
                  have e1 : oa.1.messages = oe.1.messages := by
                    have e := congrArg DB.messages hfr4
                    exact e
                  have e2 : oe.1.messages = om.1.messages := by
                    have e := congrArg DB.messages hfr3
                    exact e
                  have e3 : om.1.messages = ot.db.messages := by
                    have e := congrArg DB.messages hfr2
                    exact e
                  have e4 : ot.db.messages = (blockFirstOrCreate { db with
                      failedBlocks := db.failedBlocks.filter (fbKeep hgt c) }
                        hgt t c).1.messages := by
                    have e := congrArg DB.messages st
                    exact e
                  have e5 : (blockFirstOrCreate { db with
                      failedBlocks := db.failedBlocks.filter (fbKeep hgt c) }
                        hgt t c).1.messages = db.messages := by
                    have e := congrArg DB.messages sb1
                    exact e
                  exact (((e1.trans e2).trans e3).trans e4).trans e5
                have hevsL : oa.1.messageEvents = db.messageEvents := by
                  have e1 : oa.1.messageEvents = oe.1.messageEvents := by
                    have e := congrArg DB.messageEvents hfr4
                    exact e
                  have e2 : oe.1.messageEvents = om.1.messageEvents := by
                    have e := congrArg DB.messageEvents hfr3
                    exact e
                  have e3 : om.1.messageEvents = ot.db.messageEvents := by
                    have e := congrArg DB.messageEvents hfr2
                    exact e
                  have e4 : ot.db.messageEvents = (blockFirstOrCreate { db with
                      failedBlocks := db.failedBlocks.filter (fbKeep hgt c) }
                        hgt t c).1.messageEvents := by
                    have e := congrArg DB.messageEvents st
                    exact e
                  have e5 : (blockFirstOrCreate { db with
                      failedBlocks := db.failedBlocks.filter (fbKeep hgt c) }
                        hgt t c).1.messageEvents = db.messageEvents := by
                    have e := congrArg DB.messageEvents sb1
                    exact e
                  exact (((e1.trans e2).trans e3).trans e4).trans e5
                -- id sequence monotone through the reference stages
                have hnt : (blockFirstOrCreate { db with
                    failedBlocks := db.failedBlocks.filter (fbKeep hgt c) }
                      hgt t c).1.nextID ≤ ot.db.nextID := by
                  cases hq : ((uniqueTxList txs (blockFirstOrCreate { db with
                      failedBlocks := db.failedBlocks.filter (fbKeep hgt c) }
                        hgt t c).2.id).map Prod.snd).isEmpty with
                  | true =>
                    obtain ⟨hd, -, -⟩ := (createTxs_shape h1).2.1 hq
                    rw [hd]
                  | false =>
                    obtain ⟨-, hn, -, -⟩ := (createTxs_shape h1).2.2 hq
                    rw [hn]
                    exact batch_next_ge _ _ _
                have hn2 : ot.db.nextID ≤ o2c.db.nextID := by
                  cases hq : ((mergedMessageTypes txs).map Prod.snd).isEmpty with
                  | true =>
                    obtain ⟨hd, -, -⟩ := (createMessageTypes_shape h2c).2.1 hq
                    rw [hd]
                  | false =>
                    obtain ⟨-, hn, -, -⟩ := (createMessageTypes_shape h2c).2.2 hq
                    rw [hn]
                    exact batch_next_ge _ _ _
                have hn3 : om.1.nextID ≤ o3c.db.nextID := by
                  cases hq : ((mergedMessageEventTypes txs).map
                      Prod.snd).isEmpty with
                  | true =>
                    obtain ⟨hd, -, -⟩ :=
                      (createMessageEventTypes_shape h3c).2.1 hq
                    rw [hd]
                  | false =>
                    obtain ⟨-, hn, -, -⟩ :=
                      (createMessageEventTypes_shape h3c).2.2 hq
                    rw [hn]
                    exact batch_next_ge _ _ _
                have hn4 : oe.1.nextID ≤ o4c.db.nextID := by
                  cases hq : ((mergedMessageAttributeKeys txs).map
                      Prod.snd).isEmpty with
                  | true =>
                    obtain ⟨hd, -, -⟩ :=
                      (createMessageEventAttributeKeys_shape h4c).2.1 hq
                    rw [hd]
                  | false =>
                    obtain ⟨-, hn, -, -⟩ :=
                      (createMessageEventAttributeKeys_shape h4c).2.2 hq
                    rw [hn]
                    exact batch_next_ge _ _ _
                have hnL : db.nextID ≤ oa.1.nextID := by
                  rw [hoa1]
                  refine le_trans hpbnext (le_trans hnt (le_trans hn2 ?_))
                  rw [← hom1]
                  exact le_trans hn3 (by rw [← hoe1]; exact hn4)
                -- loop invariants
                have hwfmL : TableWF msgSpec oa.1.messages oa.1.nextID := by
                  rw [hmsgsL]
                  exact tablewf_mono hwf.msgWF hnL
                have hwfeL : TableWF evSpec oa.1.messageEvents oa.1.nextID := by
                  rw [hevsL]
                  exact tablewf_mono hwf.evWF hnL
                -- resolved-id injectivity
                have hinj : ∀ w3 ∈ txs, ∀ w4 ∈ txs,
                    ((assocFind (ot.rets.foldl (fun m t2 => assocUpd m t2.hash t2)
                      (uniqueTxList txs (blockFirstOrCreate { db with
                        failedBlocks := db.failedBlocks.filter (fbKeep hgt c) }
                          hgt t c).2.id)) w3.tx.hash).getD zeroTx).id =
                    ((assocFind (ot.rets.foldl (fun m t2 => assocUpd m t2.hash t2)
                      (uniqueTxList txs (blockFirstOrCreate { db with
                        failedBlocks := db.failedBlocks.filter (fbKeep hgt c) }
                          hgt t c).2.id)) w4.tx.hash).getD zeroTx).id →
                    w3.tx.hash = w4.tx.hash := by
                  intro w3 hw3 w4 hw4 heq
                  obtain ⟨r3, hr3, hf3, hh3, -⟩ := hres w3 hw3
                  obtain ⟨r4, hr4, hf4, hh4, -⟩ := hres w4 hw4
                  rw [hf3, hf4] at heq
                  have heq2 : r3.id = r4.id := heq
                  have hre : r3 = r4 := List.inj_on_of_nodup_map hrid hr3 hr4 heq2
                  rw [← hh3, ← hh4, hre]
                -- the replayed loop
                have hloop2 := txLoop_idem txs oa.1
                  (ot.ops ++ om.2.1 ++ oe.2.1 ++ oa.2.1) hok hwfmL hwfeL
                  hin.msgIdxNodup hin.evIdxNodup hin.atIdxNodup
                  hin.hashesNodup hinj
                -- replayed outer stages
                have hfb : out.1.failedBlocks.filter (fbKeep hgt c) =
                    out.1.failedBlocks := by
                  refine List.filter_eq_self.mpr ?_
                  intro a ha
                  rw [hout.2.1] at ha
                  exact List.of_mem_filter ha
                have hdb1eq : ({ out.1 with failedBlocks :=
                    out.1.failedBlocks.filter (fbKeep hgt c) } : DB) = out.1 := by
                  rw [hfb]
                have hufm := blockFirstOrCreate_ufm_stable { db with
                  failedBlocks := db.failedBlocks.filter (fbKeep hgt c) } hgt t c
                rw [← hblocks] at hufm
                have hbfcO := blockFirstOrCreate_of_ufm hufm
                have hbfcO1 : (blockFirstOrCreate out.1 hgt t c).1 = out.1 := by
                  rw [hbfcO]
                have hbfcO2 : (blockFirstOrCreate out.1 hgt t c).2 =
                    (blockFirstOrCreate { db with
                      failedBlocks := db.failedBlocks.filter (fbKeep hgt c) }
                        hgt t c).2 := by
                  rw [hbfcO]
                -- tx batch replay
                have hcohT : ∀ p ∈ uniqueTxList txs (blockFirstOrCreate { db with
                    failedBlocks := db.failedBlocks.filter (fbKeep hgt c) }
                      hgt t c).2.id, p.2.hash = p.1 := by
                  intro p hp
                  rcases uniqueTxList_values (blockFirstOrCreate { db with
                    failedBlocks := db.failedBlocks.filter (fbKeep hgt c) }
                      hgt t c).2.id txs [] p hp with h0 | ⟨w, hw, hpe⟩
                  · exact absurd h0 (by simp)
                  · subst hpe
                    rfl
                have hkndT : ((uniqueTxList txs (blockFirstOrCreate { db with
                    failedBlocks := db.failedBlocks.filter (fbKeep hgt c) }
                      hgt t c).2.id).map Prod.fst).Nodup :=
                  foldl_assocUpd_gen_keys_nodup (fun w => w.tx.hash)
                    (fun w => { w.tx with blockID := (blockFirstOrCreate { db with
                      failedBlocks := db.failedBlocks.filter (fbKeep hgt c) }
                        hgt t c).2.id }) txs [] (by simp)
                have hkeqT : (((uniqueTxList txs (blockFirstOrCreate { db with
                    failedBlocks := db.failedBlocks.filter (fbKeep hgt c) }
                      hgt t c).2.id).map Prod.snd).map txSpec.key) =
                    (uniqueTxList txs (blockFirstOrCreate { db with
                      failedBlocks := db.failedBlocks.filter (fbKeep hgt c) }
                        hgt t c).2.id).map Prod.fst :=
                  map_snd_key Tx.hash _ hcohT
                have hrndT : (((uniqueTxList txs (blockFirstOrCreate { db with
                    failedBlocks := db.failedBlocks.filter (fbKeep hgt c) }
                      hgt t c).2.id).map Prod.snd).map txSpec.key).Nodup := by
                  rw [hkeqT]
                  exact hkndT
                have hbstT : ((uniqueTxList txs (blockFirstOrCreate { db with
                    failedBlocks := db.failedBlocks.filter (fbKeep hgt c) }
                      hgt t c).2.id).map Prod.snd).isEmpty = false →
                    BStableW txSpec out.1.txs ((uniqueTxList txs
                      (blockFirstOrCreate { db with
                        failedBlocks := db.failedBlocks.filter (fbKeep hgt c) }
                          hgt t c).2.id).map Prod.snd) ot.rets := by
                  intro hqe
                  obtain ⟨htab, -, hrets, -⟩ := (createTxs_shape h1).2.2 hqe
                  have hb := bstablew_establish txLaws hrndT
                    (rfl : batchUpsert txSpec (blockFirstOrCreate { db with
                        failedBlocks := db.failedBlocks.filter (fbKeep hgt c) }
                          hgt t c).1.txs
                      (blockFirstOrCreate { db with
                        failedBlocks := db.failedBlocks.filter (fbKeep hgt c) }
                          hgt t c).1.nextID
                      ((uniqueTxList txs (blockFirstOrCreate { db with
                        failedBlocks := db.failedBlocks.filter (fbKeep hgt c) }
                          hgt t c).2.id).map Prod.snd) =
                     batchUpsert txSpec (blockFirstOrCreate { db with
                        failedBlocks := db.failedBlocks.filter (fbKeep hgt c) }
                          hgt t c).1.txs
                      (blockFirstOrCreate { db with
                        failedBlocks := db.failedBlocks.filter (fbKeep hgt c) }
                          hgt t c).1.nextID
                      ((uniqueTxList txs (blockFirstOrCreate { db with
                        failedBlocks := db.failedBlocks.filter (fbKeep hgt c) }
                          hgt t c).2.id).map Prod.snd))
                  rw [← htab, ← hrets] at hb
                  rw [htxs]
                  exact hb
                have hs1 : createTxs noFaults.failTxCreate out.1
                    ((uniqueTxList txs (blockFirstOrCreate { db with
                      failedBlocks := db.failedBlocks.filter (fbKeep hgt c) }
                        hgt t c).2.id).map Prod.snd) =
                    .ok ⟨out.1, ot.ops, ot.rets⟩ :=
                  createTxs_stable h1 hbstT
                -- message-type stage replay
                have hkeqMT : ((mergedMessageTypes txs).map Prod.snd).map
                    mtSpec.key = (mergedMessageTypes txs).map Prod.fst :=
                  map_snd_key MessageType.messageType _ (merged_mt_coherent hin)
                have hrndMT : (((mergedMessageTypes txs).map Prod.snd).map
                    mtSpec.key).Nodup := by
                  rw [hkeqMT]
                  exact merged_fold_keys_nodup (fun w => w.uniqueMessageTypes)
                    txs [] (by simp)
                have hbstMT : ((mergedMessageTypes txs).map Prod.snd).isEmpty =
                    false → BStableW mtSpec out.1.messageTypes
                      ((mergedMessageTypes txs).map Prod.snd) o2c.rets := by
                  intro hqe
                  obtain ⟨htab, -, hrets, -⟩ :=
                    (createMessageTypes_shape h2c).2.2 hqe
                  have hb := bstablew_establish mtLaws hrndMT
                    (rfl : batchUpsert mtSpec ot.db.messageTypes ot.db.nextID
                        ((mergedMessageTypes txs).map Prod.snd) =
                      batchUpsert mtSpec ot.db.messageTypes ot.db.nextID
                        ((mergedMessageTypes txs).map Prod.snd))
                  rw [← htab, ← hrets] at hb
                  rw [hmts]
                  exact hb
                have hcmt : createMessageTypes noFaults.failMessageTypeCreate
                    out.1 ((mergedMessageTypes txs).map Prod.snd) =
                    .ok ⟨out.1, o2c.ops, o2c.rets⟩ :=
                  createMessageTypes_stable h2c hbstMT
                have hs2 : indexMessageTypes noFaults.failMessageTypeCreate
                    out.1 txs = .ok (out.1, om.2.1, om.2.2) := by
                  simp only [indexMessageTypes]
                  rw [hcmt, ebind_ok]
                  show Except.ok ((out.1 : DB), o2c.ops, o2c.rets.foldl
                      (fun m mt => assocUpd m mt.messageType mt)
                      (mergedMessageTypes txs)) =
                    Except.ok ((out.1 : DB), om.2.1, om.2.2)
                  rw [hom21, hom22]
                -- event-type stage replay
                have hkeqET : ((mergedMessageEventTypes txs).map Prod.snd).map
                    etSpec.key = (mergedMessageEventTypes txs).map Prod.fst :=
                  map_snd_key MessageEventType.typ _ (merged_et_coherent hin)
                have hrndET : (((mergedMessageEventTypes txs).map Prod.snd).map
                    etSpec.key).Nodup := by
                  rw [hkeqET]
                  exact merged_fold_keys_nodup
                    (fun w => w.uniqueMessageEventTypes) txs [] (by simp)
                have hbstET : ((mergedMessageEventTypes txs).map
                    Prod.snd).isEmpty = false →
                    BStableW etSpec out.1.messageEventTypes
                      ((mergedMessageEventTypes txs).map Prod.snd) o3c.rets := by
                  intro hqe
                  obtain ⟨htab, -, hrets, -⟩ :=
                    (createMessageEventTypes_shape h3c).2.2 hqe
                  have hb := bstablew_establish etLaws hrndET
                    (rfl : batchUpsert etSpec om.1.messageEventTypes om.1.nextID
                        ((mergedMessageEventTypes txs).map Prod.snd) =
                      batchUpsert etSpec om.1.messageEventTypes om.1.nextID
                        ((mergedMessageEventTypes txs).map Prod.snd))
                  rw [← htab, ← hrets] at hb
                  rw [hets]
                  exact hb
                have hcet : createMessageEventTypes
                    noFaults.failMessageEventTypeCreate out.1
                    ((mergedMessageEventTypes txs).map Prod.snd) =
                    .ok ⟨out.1, o3c.ops, o3c.rets⟩ :=
                  createMessageEventTypes_stable h3c hbstET
                have hs3 : indexMessageEventTypes
                    noFaults.failMessageEventTypeCreate out.1 txs =
                    .ok (out.1, oe.2.1, oe.2.2) := by
                  simp only [indexMessageEventTypes]
                  rw [hcet, ebind_ok]
                  show Except.ok ((out.1 : DB), o3c.ops, o3c.rets.foldl
                      (fun m et => assocUpd m et.typ et)
                      (mergedMessageEventTypes txs)) =
                    Except.ok ((out.1 : DB), oe.2.1, oe.2.2)
                  rw [hoe21, hoe22]
                -- attribute-key stage replay
                have hkeqAK : ((mergedMessageAttributeKeys txs).map
                    Prod.snd).map akSpec.key =
                    (mergedMessageAttributeKeys txs).map Prod.fst :=
                  map_snd_key MessageEventAttributeKey.key _
                    (merged_ak_coherent hin)
                have hrndAK : (((mergedMessageAttributeKeys txs).map
                    Prod.snd).map akSpec.key).Nodup := by
                  rw [hkeqAK]
                  exact merged_fold_keys_nodup
                    (fun w => w.uniqueMessageAttributeKeys) txs [] (by simp)
                have hbstAK : ((mergedMessageAttributeKeys txs).map
                    Prod.snd).isEmpty = false →
                    BStableW akSpec out.1.messageEventAttributeKeys
                      ((mergedMessageAttributeKeys txs).map Prod.snd)
                      o4c.rets := by
                  intro hqe
                  obtain ⟨htab, -, hrets, -⟩ :=
                    (createMessageEventAttributeKeys_shape h4c).2.2 hqe
                  have hb := bstablew_establish akLaws hrndAK
                    (rfl : batchUpsert akSpec oe.1.messageEventAttributeKeys
                        oe.1.nextID
                        ((mergedMessageAttributeKeys txs).map Prod.snd) =
                      batchUpsert akSpec oe.1.messageEventAttributeKeys
                        oe.1.nextID
                        ((mergedMessageAttributeKeys txs).map Prod.snd))
                  rw [← htab, ← hrets] at hb
                  rw [haks]
                  exact hb
                have hcak : createMessageEventAttributeKeys
                    noFaults.failAttributeKeyCreate out.1
                    ((mergedMessageAttributeKeys txs).map Prod.snd) =
                    .ok ⟨out.1, o4c.ops, o4c.rets⟩ :=
                  createMessageEventAttributeKeys_stable h4c hbstAK
                have hs4 : indexMessageEventAttributeKeys
                    noFaults.failAttributeKeyCreate out.1 txs =
                    .ok (out.1, oa.2.1, oa.2.2) := by
                  simp only [indexMessageEventAttributeKeys]
                  rw [hcak, ebind_ok]
                  show Except.ok ((out.1 : DB), o4c.ops, o4c.rets.foldl
                      (fun m ak => assocUpd m ak.key ak)
                      (mergedMessageAttributeKeys txs)) =
                    Except.ok ((out.1 : DB), oa.2.1, oa.2.2)
                  rw [hoa21, hoa22]
                -- assemble the second run
                simp only [IndexNewBlockT]
                rw [if_neg (by decide : ¬(noFaults.failDeleteFailedBlocks = true)),
                    if_neg (by decide : ¬(noFaults.failBlockUpsert = true)),
                    hdb1eq, hbfcO1, hbfcO2, hs1, ebind_ok]
                show ebind (indexMessageTypes noFaults.failMessageTypeCreate
                    out.1 txs) (fun om2 =>
                  ebind (indexMessageEventTypes
                      noFaults.failMessageEventTypeCreate om2.1 txs) (fun oe2 =>
                    ebind (indexMessageEventAttributeKeys
                        noFaults.failAttributeKeyCreate oe2.1 txs) (fun oa2 =>
                      txLoop noFaults (ot.rets.foldl
                          (fun m t2 => assocUpd m t2.hash t2)
                          (uniqueTxList txs (blockFirstOrCreate { db with
                            failedBlocks := db.failedBlocks.filter
                              (fbKeep hgt c) } hgt t c).2.id))
                        ⟨om2.2.2, oe2.2.2, oa2.2.2⟩ oa2.1
                        (ot.ops ++ om2.2.1 ++ oe2.2.1 ++ oa2.2.1) txs))) =
                  .ok out
                rw [hs2, ebind_ok]
                show ebind (indexMessageEventTypes
                    noFaults.failMessageEventTypeCreate out.1 txs) (fun oe2 =>
                  ebind (indexMessageEventAttributeKeys
                      noFaults.failAttributeKeyCreate oe2.1 txs) (fun oa2 =>
                    txLoop noFaults (ot.rets.foldl
                        (fun m t2 => assocUpd m t2.hash t2)
                        (uniqueTxList txs (blockFirstOrCreate { db with
                          failedBlocks := db.failedBlocks.filter
                            (fbKeep hgt c) } hgt t c).2.id))
                      ⟨om.2.2, oe2.2.2, oa2.2.2⟩ oa2.1
                      (ot.ops ++ om.2.1 ++ oe2.2.1 ++ oa2.2.1) txs)) = .ok out
                rw [hs3, ebind_ok]
                show ebind (indexMessageEventAttributeKeys
                    noFaults.failAttributeKeyCreate out.1 txs) (fun oa2 =>
                  txLoop noFaults (ot.rets.foldl
                      (fun m t2 => assocUpd m t2.hash t2)
                      (uniqueTxList txs (blockFirstOrCreate { db with
                        failedBlocks := db.failedBlocks.filter
                          (fbKeep hgt c) } hgt t c).2.id))
                    ⟨om.2.2, oe.2.2, oa2.2.2⟩ oa2.1
                    (ot.ops ++ om.2.1 ++ oe.2.1 ++ oa2.2.1) txs) = .ok out
                rw [hs4, ebind_ok]
                show txLoop noFaults (ot.rets.foldl
                    (fun m t2 => assocUpd m t2.hash t2)
                    (uniqueTxList txs (blockFirstOrCreate { db with
                      failedBlocks := db.failedBlocks.filter
                        (fbKeep hgt c) } hgt t c).2.id))
                  ⟨om.2.2, oe.2.2, oa.2.2⟩ out.1
                  (ot.ops ++ om.2.1 ++ oe.2.1 ++ oa.2.1) txs = .ok out
                exact hloop2

/-- **C1.** Persisting the same block (same height, timestamp, chain id and
decoded transactions) twice in succession leaves the committed store state
after the second run identical to the state after the first run, surrogate
keys included: `IndexNewBlock` is idempotent on well-formed stores and
decoder-sane inputs. -/
theorem c1_idempotent {db : DB} {hgt : Int} {t : Nat} {txs : List TxDBWrapper}
    {c : Nat} (hwf : DBWF db) (hin : InputOK txs) :
    IndexNewBlock noFaults (IndexNewBlock noFaults db hgt t txs c) hgt t txs c =
      IndexNewBlock noFaults db hgt t txs c := by
  unfold IndexNewBlock
  cases hok : IndexNewBlockT noFaults db hgt t txs c with
  | error e =>
    show (match IndexNewBlockT noFaults db hgt t txs c with
      | .ok o => o.1
      | .error _ => db) = db
    rw [hok]
  | ok out =>
    show (match IndexNewBlockT noFaults out.1 hgt t txs c with
      | .ok o => o.1
      | .error _ => out.1) = out.1
    rw [indexNewBlockT_idem hwf hin hok]

/-- A decoded transaction with one message, one event and one attribute,
with all three reference kinds registered. -/
def c1tx : TxDBWrapper :=
  ⟨⟨0, "hashI", 0, 0, none⟩,
   [⟨0, ⟨0, "send"⟩, [⟨0, ⟨0, "transfer"⟩, [⟨0, "5atom", ⟨0, "amount"⟩⟩]⟩]⟩],
   [("send", ⟨0, "send"⟩)], [("transfer", ⟨0, "transfer"⟩)],
   [("amount", ⟨0, "amount"⟩)]⟩

/-- C1 witness: persisting block 10 with one full transaction on the empty
store and then persisting it again changes nothing the second time. -/
theorem c1_idempotent_witness :
    IndexNewBlock noFaults
        (IndexNewBlock noFaults emptyDB 10 100 [c1tx] 1) 10 100 [c1tx] 1 =
      IndexNewBlock noFaults emptyDB 10 100 [c1tx] 1 :=
  c1_idempotent
    ⟨by decide, by unfold TableWF; decide, by unfold TablePos; decide,
     by unfold TableWF; decide, by unfold TablePos; decide,
     by unfold TableWF; decide, by unfold TablePos; decide,
     by unfold TableWF; decide, by unfold TablePos; decide,
     by unfold TableWF; decide, by unfold TablePos; decide,
     by unfold TableWF; decide, by unfold TablePos; decide,
     by unfold TableWF; decide, by unfold TablePos; decide⟩
    ⟨by decide, by decide, by decide, by decide, by decide, by decide,
     by decide⟩

end CosmosDB
